import Mathlib

/-!
# Satellites: a shallow embedding of the simulation core of `code/main.cpp`

The simulation core of the game is the body of the fixed-timestep loop of `main`
(lines 285-380), the two swap-with-last removals `delete_satellite` and
`delete_explosion`, and the satellite deployment of lines 258-271.

Conventions of the embedding.

* `float`/`double` values are elements of an arbitrary type `F`; the arithmetic, the
  comparisons and the libm calls the code makes are the fields of `FloatOps F`.  Theorems
  quantify over every `F` and every `FloatOps F`, so they hold whatever the rounding is.
  `Frac` with `exact_ops` is one executable instance (exact fractions).
* The global arrays are total functions on `Nat`.  Every indexed access of the code is
  guarded in the embedding: an access the C code would make outside the live part of a store
  (or outside `guy_picked`, whose length is `MAX_GUYS / 64`) yields a `Fault` instead of a
  value, so a run of the embedding that returns `Except.ok` made no such access.
* The element counts are `Nat`: the only decrements are in `delete_satellite` and
  `delete_explosion`, behind the guard `i < count`.
* The millisecond clocks are `Int`; `wrap32` is the conversion to the 32-bit `int` of the
  code and `toU32` the conversion to `Uint32`.
* Loops are structural recursions on a fuel argument that the caller sets to the loop
  variant; running out of fuel is the fault `fuel_exhausted`.
* For the steps of a run with more than 960 targets, where lines 324 and 346 reach past the
  end of `guy_picked`, there is a second form of the step (`tick_run` and the definitions with
  the suffix `_run`): it carries the two accesses out, their effect being a parameter
  (`Overrun`).  Where the guarded step returns, this step returns the same state
  (`tick_run_extends`).
-/

namespace Satellites

/-! ## Constants (lines 7-15) -/

/-- Line 7: `#define TICKS_PER_FRAME (1000 / 60)`, integer division. -/
def TICKS_PER_FRAME : Int := 1000 / 60

/-- Line 8. -/
def MAX_SATELLITES : Nat := 1000

/-- Line 9. -/
def MAX_GUYS : Nat := 1000

/-- Line 10. -/
def MAX_EXPLOSIONS : Nat := 10

/-- Line 15. -/
def EXPLOSION_TIME : Int := 1000

/-- Line 103: the number of 64-bit words of `guy_picked`, `MAX_GUYS / 64`. -/
def GUY_PICKED_WORDS : Nat := MAX_GUYS / 64

/-! ## Machine integers -/

/-- The value of a 32-bit two's complement `int` holding `n` modulo `2^32`. -/
def wrap32 (n : Int) : Int := (n + 2147483648) % 4294967296 - 2147483648

/-- The value of a `Uint32` holding `n` modulo `2^32`. -/
def toU32 (n : Int) : Int := n % 4294967296

/-! ## Floating point values and vectors (lines 37-74) -/

/-- The floating point operations the simulation core uses, over an arbitrary carrier. -/
structure FloatOps (F : Type) where
  /-- Addition. -/
  add : F → F → F
  /-- Subtraction. -/
  sub : F → F → F
  /-- Multiplication. -/
  mul : F → F → F
  /-- Division. -/
  div : F → F → F
  /-- The comparison `a < b`. -/
  lt : F → F → Bool
  /-- The libm call `cosf`. -/
  cosf : F → F
  /-- The libm call `sinf`. -/
  sinf : F → F
  /-- The libm call `atan2f y x`. -/
  atan2f : F → F → F
  /-- The decimal literal `m * 10^(-e)`; `lit r 0` is also the conversion of the integer `r`. -/
  lit : Int → Nat → F
  /-- The constant `INFINITY`. -/
  infinity : F
  /-- The constant `M_PI`. -/
  pi : F
  /-- The constant `RAND_MAX` as a floating point value. -/
  rand_max : F

/-- Lines 37-39. -/
structure Vector2 (F : Type) where
  /-- First coordinate. -/
  x : F
  /-- Second coordinate. -/
  y : F
deriving DecidableEq

variable {F : Type}

/-- Lines 45-47: `operator-(Vector2, Vector2)`. -/
def Vector2.sub (ops : FloatOps F) (a b : Vector2 F) : Vector2 F :=
  ⟨ops.sub a.x b.x, ops.sub a.y b.y⟩

/-- Lines 53-56: `operator+=(Vector2&, Vector2)`, returning the new value of `a`. -/
def Vector2.add_assign (ops : FloatOps F) (a b : Vector2 F) : Vector2 F :=
  ⟨ops.add a.x b.x, ops.add a.y b.y⟩

/-- Lines 68-70. -/
def square_length (ops : FloatOps F) (a : Vector2 F) : F :=
  ops.add (ops.mul a.x a.x) (ops.mul a.y a.y)

/-- Lines 72-74. -/
def max (a b : Int) : Int := if a > b then a else b

/-- Lines 117-119: `degrees / 180 * M_PI`. -/
def to_radians (ops : FloatOps F) (degrees : F) : F :=
  ops.mul (ops.div degrees (ops.lit 180 0)) ops.pi

/-! ## The simulation state (lines 76-108, 219-220) -/

/-- The array `a` with `a[i] = v`. -/
def set_at {α : Type} (a : Nat → α) (i : Nat) (v : α) : Nat → α :=
  fun k => if k = i then v else a k

/-- The global variables of the simulation core together with the two clocks
`last_ticks` and `last_guy_ticks` that `main` keeps across frames. -/
structure State (F : Type) where
  /-- Line 77. -/
  planet_rotation : F
  /-- Line 79. -/
  satellite_positions : Nat → Vector2 F
  /-- Line 80. -/
  satellite_velocities : Nat → Vector2 F
  /-- Line 81. -/
  satellite_to_guy : Nat → Int
  /-- Line 82. -/
  satellite_count : Nat
  /-- Line 84. -/
  explosion_positions : Nat → Vector2 F
  /-- Line 85. -/
  explosion_end_ticks : Nat → Int
  /-- Line 86. -/
  explosion_frame : Nat → Int
  /-- Line 87. -/
  explosion_count : Nat
  /-- Line 99. -/
  guy_angles : Nat → F
  /-- Line 100. -/
  guy_magnitudes : Nat → F
  /-- Line 101. -/
  guy_count : Nat
  /-- Line 103: the 64-bit words of the per-tick claimed marker. -/
  guy_picked : Nat → Nat
  /-- Line 104. -/
  guy_picked_count : Int
  /-- Line 106. -/
  ticks_per_guy : Int
  /-- Line 108. -/
  score : Int
  /-- Line 219, a `Uint32`. -/
  last_ticks : Int
  /-- Line 220, a `Uint32`. -/
  last_guy_ticks : Int

/-- What an access outside the live part of a store, or outside `guy_picked`, yields. -/
inductive Fault where
  /-- A satellite index that is not below `satellite_count`. -/
  | satellite_index
  /-- An explosion index that is not below `explosion_count`. -/
  | explosion_index
  /-- A word index that is not below `MAX_GUYS / 64`. -/
  | guy_picked_index
  /-- A loop of the embedding ran longer than its variant allows. -/
  | fuel_exhausted
deriving DecidableEq

/-- Lines 219-226 on top of the zero-initialised globals: one satellite at `(0, 0.5)` with
velocity `(0.005, 0)`, one target, `ticks_per_guy = 5000`, both clocks at `SDL_GetTicks()`. -/
def initial (ops : FloatOps F) (t0 : Int) : State F where
  planet_rotation := ops.lit 0 0
  satellite_positions := set_at (fun _ => ⟨ops.lit 0 0, ops.lit 0 0⟩) 0 ⟨ops.lit 0 0, ops.lit 5 1⟩
  satellite_velocities := set_at (fun _ => ⟨ops.lit 0 0, ops.lit 0 0⟩) 0 ⟨ops.lit 5 3, ops.lit 0 0⟩
  satellite_to_guy := fun _ => 0
  satellite_count := 1
  explosion_positions := fun _ => ⟨ops.lit 0 0, ops.lit 0 0⟩
  explosion_end_ticks := fun _ => 0
  explosion_frame := fun _ => 0
  explosion_count := 0
  guy_angles := fun _ => ops.lit 0 0
  guy_magnitudes := fun _ => ops.lit 0 0
  guy_count := 1
  guy_picked := fun _ => 0
  guy_picked_count := 0
  ticks_per_guy := 5000
  score := 0
  last_ticks := toU32 t0
  last_guy_ticks := toU32 t0

/-! ## Removal by swap-with-last (lines 121-134) -/

/-- Lines 121-127. -/
def delete_satellite (i : Nat) (s : State F) : Except Fault (State F) :=
  if i < s.satellite_count then
    let last := s.satellite_count - 1
    .ok { s with
      satellite_positions := set_at s.satellite_positions i (s.satellite_positions last)
      satellite_velocities := set_at s.satellite_velocities i (s.satellite_velocities last)
      satellite_to_guy := set_at s.satellite_to_guy i (s.satellite_to_guy last)
      satellite_count := s.satellite_count - 1 }
  else .error .satellite_index

/-- Lines 129-134; `explosion_frame` is not copied. -/
def delete_explosion (i : Nat) (s : State F) : Except Fault (State F) :=
  if i < s.explosion_count then
    let last := s.explosion_count - 1
    .ok { s with
      explosion_positions := set_at s.explosion_positions i (s.explosion_positions last)
      explosion_end_ticks := set_at s.explosion_end_ticks i (s.explosion_end_ticks last)
      explosion_count := s.explosion_count - 1 }
  else .error .explosion_index

/-! ## Deployment (lines 258-271) -/

/-- Lines 258 and 268-271: the append of a satellite whose position and velocity the
presentation layer has computed (lines 259-266); `satellite_to_guy` is not written. -/
def deploy (position velocity : Vector2 F) (s : State F) : State F :=
  if s.satellite_count < MAX_SATELLITES then
    { s with
      satellite_positions := set_at s.satellite_positions s.satellite_count position
      satellite_velocities := set_at s.satellite_velocities s.satellite_count velocity
      satellite_count := s.satellite_count + 1 }
  else s

/-! ## One simulation step (lines 288-379) -/

/-- Lines 294-303: the physics step of satellite `i`. -/
def physics_step (ops : FloatOps F) (i : Nat) (s : State F) : Except Fault (State F) :=
  if i < s.satellite_count then
    let position := Vector2.add_assign ops (s.satellite_positions i) (s.satellite_velocities i)
    let velocity := s.satellite_velocities i
    let gravity := ops.div (ops.lit 1 0) (square_length ops position)
    let theta := ops.atan2f position.y position.x
    let vx := ops.sub velocity.x (ops.mul (ops.mul (ops.lit 1 5) gravity) (ops.cosf theta))
    let vy := ops.sub velocity.y (ops.mul (ops.mul (ops.lit 1 5) gravity) (ops.sinf theta))
    .ok { s with
      satellite_positions := set_at s.satellite_positions i position
      satellite_velocities := set_at s.satellite_velocities i ⟨vx, vy⟩ }
  else .error .satellite_index

/-- Line 308: the collision test of satellite position `position` against `other`. -/
def collides (ops : FloatOps F) (position other : Vector2 F) : Bool :=
  ops.lt (square_length ops (Vector2.sub ops other position)) (ops.lit 5 3)

/-- Lines 309-313: the explosion append, dropped when the store is full;
`explosion_frame` is not written. -/
def spawn_explosion (ticks : Int) (position : Vector2 F) (s : State F) : State F :=
  if s.explosion_count < MAX_EXPLOSIONS then
    { s with
      explosion_positions := set_at s.explosion_positions s.explosion_count position
      explosion_end_ticks :=
        set_at s.explosion_end_ticks s.explosion_count (wrap32 (ticks + EXPLOSION_TIME))
      explosion_count := s.explosion_count + 1 }
  else s

/-- Lines 306-318: the inner loop of satellite `i` from index `j` on, with the current value
of `alive`.  After a hit the loop index is decremented and incremented again, so the scan
goes on at the same `j`. -/
def collision_scan (ops : FloatOps F) (ticks : Int) (i : Nat) :
    Nat → Nat → Bool → State F → Except Fault (State F × Bool)
  | 0, j, alive, s =>
    if j < s.satellite_count then .error .fuel_exhausted else .ok (s, alive)
  | fuel + 1, j, alive, s =>
    if j < s.satellite_count then
      if i < s.satellite_count then
        if collides ops (s.satellite_positions i) (s.satellite_positions j) then
          match delete_satellite j (spawn_explosion ticks (s.satellite_positions i) s) with
          | .ok s1 => collision_scan ops ticks i fuel j false s1
          | .error e => .error e
        else collision_scan ops ticks i fuel (j + 1) alive s
      else .error .satellite_index
    else .ok (s, alive)

/-- Line 324: the test of the claimed marker of target `j`. -/
def guy_is_picked (s : State F) (j : Nat) : Bool :=
  s.guy_picked (j / 64) &&& (1 <<< (j % 64)) != 0

/-- Lines 328-334: the squared distance from `position` to the derived position of target `j`. -/
def guy_distance (ops : FloatOps F) (s : State F) (position : Vector2 F) (j : Nat) : F :=
  let guy_angle := ops.add (s.guy_angles j) (to_radians ops s.planet_rotation)
  let guy_position : Vector2 F :=
    ⟨ops.mul (ops.mul (ops.lit 5 1) (ops.cosf guy_angle)) (s.guy_magnitudes j),
     ops.mul (ops.mul (ops.lit (-5) 1) (ops.sinf guy_angle)) (s.guy_magnitudes j)⟩
  square_length ops (Vector2.sub ops guy_position position)

/-- Lines 323-339: the scan over the targets from index `j` on, with the current
`closest_guy` and `closest_distance`. -/
def closest_scan (ops : FloatOps F) (s : State F) (position : Vector2 F) :
    Nat → Nat → Nat → F → Except Fault (Nat × F)
  | 0, j, closest_guy, closest_distance =>
    if j < s.guy_count then .error .fuel_exhausted else .ok (closest_guy, closest_distance)
  | fuel + 1, j, closest_guy, closest_distance =>
    if j < s.guy_count then
      if j / 64 < GUY_PICKED_WORDS then
        if guy_is_picked s j then
          closest_scan ops s position fuel (j + 1) closest_guy closest_distance
        else
          let distance := guy_distance ops s position j
          if ops.lt distance closest_distance && ops.lt distance (ops.lit 1 0) then
            closest_scan ops s position fuel (j + 1) j distance
          else closest_scan ops s position fuel (j + 1) closest_guy closest_distance
      else .error .guy_picked_index
    else .ok (closest_guy, closest_distance)

/-- Lines 341-348: the result of the scan is stored for satellite `i`. -/
def store_assignment [DecidableEq F] (ops : FloatOps F) (i : Nat) (closest_guy : Nat)
    (closest_distance : F) (s : State F) : Except Fault (State F) :=
  if i < s.satellite_count then
    if closest_distance = ops.infinity then
      .ok { s with satellite_to_guy := set_at s.satellite_to_guy i (-1) }
    else if closest_guy / 64 < GUY_PICKED_WORDS then
      .ok { s with
        satellite_to_guy := set_at s.satellite_to_guy i (closest_guy : Int)
        guy_picked := set_at s.guy_picked (closest_guy / 64)
          (s.guy_picked (closest_guy / 64) ||| (1 <<< (closest_guy % 64)))
        guy_picked_count := s.guy_picked_count + 1 }
    else .error .guy_picked_index
  else .error .satellite_index

/-- Lines 321-348: the target assignment of the surviving satellite `i`. -/
def assign_target [DecidableEq F] (ops : FloatOps F) (i : Nat) (s : State F) :
    Except Fault (State F) :=
  if i < s.satellite_count then
    match closest_scan ops s (s.satellite_positions i) s.guy_count 0 0 ops.infinity with
    | .ok (closest_guy, closest_distance) =>
      store_assignment ops i closest_guy closest_distance s
    | .error e => .error e
  else .error .satellite_index

/-- Lines 293-353: the loop over the satellites from index `i` on.  After the removal of
satellite `i` the loop index is decremented and incremented again, so the loop goes on at
the same `i`. -/
def satellite_loop [DecidableEq F] (ops : FloatOps F) (ticks : Int) :
    Nat → Nat → State F → Except Fault (State F)
  | 0, i, s => if i < s.satellite_count then .error .fuel_exhausted else .ok s
  | fuel + 1, i, s =>
    if i < s.satellite_count then
      match physics_step ops i s with
      | .ok s1 =>
        match collision_scan ops ticks i (s1.satellite_count - (i + 1)) (i + 1) true s1 with
        | .ok (s2, alive) =>
          if alive then
            match assign_target ops i s2 with
            | .ok s3 => satellite_loop ops ticks fuel (i + 1) s3
            | .error e => .error e
          else
            match delete_satellite i s2 with
            | .ok s3 => satellite_loop ops ticks fuel i s3
            | .error e => .error e
        | .error e => .error e
      | .error e => .error e
    else .ok s

/-- Lines 357-365: the loop over the explosions from index `i` on. -/
def age_explosions (ticks : Int) : Nat → Nat → State F → Except Fault (State F)
  | 0, i, s => if i < s.explosion_count then .error .fuel_exhausted else .ok s
  | fuel + 1, i, s =>
    if i < s.explosion_count then
      if ticks ≥ s.explosion_end_ticks i then
        match delete_explosion i s with
        | .ok s1 => age_explosions ticks fuel i s1
        | .error e => .error e
      else if wrap32 (s.explosion_end_ticks i - ticks) < EXPLOSION_TIME / 2 then
        age_explosions ticks fuel (i + 1)
          { s with explosion_frame := set_at s.explosion_frame i 1 }
      else age_explosions ticks fuel (i + 1) s
    else .ok s

/-- Lines 367-376: the target spawner; `r1` and `r2` are the two results of `rand()`.  The
comparison of line 367 is made in `Uint32`. -/
def spawn_guy (ops : FloatOps F) (ticks : Int) (r1 r2 : Int) (s : State F) : State F :=
  if toU32 ticks ≥ toU32 (s.last_guy_ticks + s.ticks_per_guy) ∧ s.guy_count < MAX_GUYS then
    { s with
      guy_magnitudes := set_at s.guy_magnitudes s.guy_count (ops.div (ops.lit r1 0) ops.rand_max)
      guy_angles := set_at s.guy_angles s.guy_count
        (ops.mul (ops.mul (ops.div (ops.lit r2 0) ops.rand_max) ops.pi) (ops.lit 2 0))
      guy_count := s.guy_count + 1
      last_guy_ticks := toU32 ticks
      ticks_per_guy := if s.ticks_per_guy > 0 then s.ticks_per_guy - 1 else s.ticks_per_guy }
  else s

/-- Lines 288-291: the start of a step. -/
def begin_tick (ops : FloatOps F) (s : State F) : State F :=
  { s with
    planet_rotation := ops.add s.planet_rotation (ops.lit 1 1)
    guy_picked := fun _ => 0
    guy_picked_count := 0 }

/-- Line 355. -/
def update_score (s : State F) : State F :=
  { s with score := max s.score s.guy_picked_count }

/-- Lines 288-379: the body of the fixed-timestep loop, run with the clock `ticks`. -/
def tick [DecidableEq F] (ops : FloatOps F) (ticks current_ticks : Int) (r1 r2 : Int)
    (s : State F) : Except Fault (State F) :=
  let s0 := begin_tick ops s
  match satellite_loop ops ticks s0.satellite_count 0 s0 with
  | .ok s1 =>
    let s2 := update_score s1
    match age_explosions ticks s2.explosion_count 0 s2 with
    | .ok s3 => .ok { spawn_guy ops ticks r1 r2 s3 with last_ticks := toU32 current_ticks }
    | .error e => .error e
  | .error e => .error e

/-- Lines 287-380: the fixed-timestep loop; `k` counts the steps made so far and
`rnd k` are the two results of `rand()` offered to step `k`. -/
def driver_loop [DecidableEq F] (ops : FloatOps F) (rnd : Nat → Int × Int)
    (current_ticks : Int) : Nat → Nat → Int → State F → Except Fault (State F)
  | 0, _, ticks, s =>
    if wrap32 (current_ticks - ticks) ≥ TICKS_PER_FRAME then .error .fuel_exhausted else .ok s
  | fuel + 1, k, ticks, s =>
    if wrap32 (current_ticks - ticks) ≥ TICKS_PER_FRAME then
      match tick ops ticks current_ticks (rnd k).1 (rnd k).2 s with
      | .ok s1 => driver_loop ops rnd current_ticks fuel (k + 1) (wrap32 (ticks + TICKS_PER_FRAME)) s1
      | .error e => .error e
    else .ok s

/-- Lines 285-380: one invocation of the driver, `now` being the result of `SDL_GetTicks()`. -/
def driver [DecidableEq F] (ops : FloatOps F) (rnd : Nat → Int × Int) (now : Int)
    (s : State F) : Except Fault (State F) :=
  let ticks := wrap32 s.last_ticks
  let current_ticks := wrap32 now
  driver_loop ops rnd current_ticks (Int.toNat (wrap32 (current_ticks - ticks) / TICKS_PER_FRAME))
    0 ticks s

/-- The states reachable from the initial state by steps and deployments: the initial state,
closed under `deploy` and under every step that returns, a step being allowed any values of
its clocks and of `rand()`.  Every state of a run of the program (`Run` below) is among
them. -/
inductive Reachable [DecidableEq F] (ops : FloatOps F) : State F → Prop
  | init (t0 : Int) : Reachable ops (initial ops t0)
  | deploy (position velocity : Vector2 F) {s : State F} :
      Reachable ops s → Reachable ops (deploy position velocity s)
  | tick (ticks current_ticks r1 r2 : Int) {s s1 : State F} :
      Reachable ops s → tick ops ticks current_ticks r1 r2 s = .ok s1 → Reachable ops s1

/-- The runs of the program of lines 228-380, with the two local clocks `ticks` and
`current_ticks` of the driver next to the state: `Run ops s ticks current_ticks` holds when the
program can be at the loop condition of line 287 (or, with the condition false, anywhere between
two driver invocations) in state `s` with these two clocks.  A deployment and the start of the
next driver invocation happen only when the loop of line 287 has ended; a step happens only
when its condition holds, with the clock `ticks`. -/
inductive Run [DecidableEq F] (ops : FloatOps F) : State F → Int → Int → Prop
  | init (t0 : Int) : Run ops (initial ops t0) (wrap32 (toU32 t0)) (wrap32 (toU32 t0))
  | deploy (position velocity : Vector2 F) {s : State F} {ticks current_ticks : Int} :
      Run ops s ticks current_ticks → wrap32 (current_ticks - ticks) < TICKS_PER_FRAME →
      Run ops (deploy position velocity s) ticks current_ticks
  | frame (now : Int) {s : State F} {ticks current_ticks : Int} :
      Run ops s ticks current_ticks → wrap32 (current_ticks - ticks) < TICKS_PER_FRAME →
      Run ops s (wrap32 s.last_ticks) (wrap32 (toU32 now))
  | tick (r1 r2 : Int) {s s1 : State F} {ticks current_ticks : Int} :
      Run ops s ticks current_ticks → wrap32 (current_ticks - ticks) ≥ TICKS_PER_FRAME →
      tick ops ticks current_ticks r1 r2 s = .ok s1 →
      Run ops s1 (wrap32 (ticks + TICKS_PER_FRAME)) current_ticks

/-! ## An executable instance: exact fractions -/

/-- A fraction `num / den`, not normalised; `den = 0` stands for an infinite value. -/
structure Frac where
  /-- Numerator. -/
  num : Int
  /-- Denominator. -/
  den : Nat
deriving DecidableEq

/-- Exact arithmetic on fractions.  The three libm calls are constant stand-ins.  They enter
the velocity a physics step leaves, on which no statement made with `exact_ops` below depends,
and the direction in which a target lies from the origin (lines 328-332): with `exact_ops`
every target lies on the positive x axis, at the distance `0.5 * magnitude` from the origin.
The statements made with `exact_ops` about the target assignment use targets of magnitude 0,
which lie at the origin whatever their direction, and targets of magnitude 1 together with
satellites at the distance 0.1 from the origin, which are farther from such a target than from
the origin whatever its direction. -/
def exact_ops : FloatOps Frac where
  add a b := ⟨a.num * b.den + b.num * a.den, a.den * b.den⟩
  sub a b := ⟨a.num * b.den - b.num * a.den, a.den * b.den⟩
  mul a b := ⟨a.num * b.num, a.den * b.den⟩
  div a b := ⟨a.num * b.den * Int.sign b.num, a.den * b.num.natAbs⟩
  lt a b := decide (a.num * b.den < b.num * a.den)
  cosf _ := ⟨1, 1⟩
  sinf _ := ⟨0, 1⟩
  atan2f _ _ := ⟨0, 1⟩
  lit m e := ⟨m, 10 ^ e⟩
  infinity := ⟨1, 0⟩
  pi := ⟨355, 113⟩
  rand_max := ⟨2147483647, 1⟩

/-! ## Notions used to state the theorems -/

/-- The full record of the satellite in slot `k`: position, velocity, assigned index. -/
def satellite_record (s : State F) (k : Nat) : Vector2 F × Vector2 F × Int :=
  (s.satellite_positions k, s.satellite_velocities k, s.satellite_to_guy k)

/-- The values `f a, f (a + 1), ..., f (a + n - 1)`. -/
def window {α : Type} (f : Nat → α) (a n : Nat) : List α :=
  (List.range n).map (fun d => f (a + d))

/-- The records of the live satellites in the slots `j, j + 1, ..., satellite_count - 1`. -/
def satellites_from (s : State F) (j : Nat) : List (Vector2 F × Vector2 F × Int) :=
  window (satellite_record s) j (s.satellite_count - j)

/-- Whether the satellite with record `r` is within the collision threshold of `position`. -/
def record_collides (ops : FloatOps F) (position : Vector2 F)
    (r : Vector2 F × Vector2 F × Int) : Bool :=
  collides ops position r.1

/-- The targets, the rotation, the score, the spawn interval and the clocks of `s1` are those
of `s`. -/
def same_targets (s s1 : State F) : Prop :=
  s1.planet_rotation = s.planet_rotation ∧ s1.guy_angles = s.guy_angles
    ∧ s1.guy_magnitudes = s.guy_magnitudes ∧ s1.guy_count = s.guy_count
    ∧ s1.ticks_per_guy = s.ticks_per_guy ∧ s1.score = s.score
    ∧ s1.last_ticks = s.last_ticks ∧ s1.last_guy_ticks = s.last_guy_ticks

/-- The per-tick claimed marker and the claimed count of `s1` are those of `s`. -/
def same_picked (s s1 : State F) : Prop :=
  s1.guy_picked = s.guy_picked ∧ s1.guy_picked_count = s.guy_picked_count

/-- The explosion store of `s1` is that of `s`. -/
def same_explosions (s s1 : State F) : Prop :=
  s1.explosion_positions = s.explosion_positions ∧ s1.explosion_end_ticks = s.explosion_end_ticks
    ∧ s1.explosion_frame = s.explosion_frame ∧ s1.explosion_count = s.explosion_count

/-- The satellite store of `s1` is that of `s`. -/
def same_satellites (s s1 : State F) : Prop :=
  s1.satellite_positions = s.satellite_positions
    ∧ s1.satellite_velocities = s.satellite_velocities
    ∧ s1.satellite_to_guy = s.satellite_to_guy ∧ s1.satellite_count = s.satellite_count

/-- Every slot of `satellite_to_guy` holds none (-1) or the index of a target. -/
def assignments_valid (s : State F) : Prop :=
  ∀ k, s.satellite_to_guy k = -1 ∨ (0 ≤ s.satellite_to_guy k ∧ s.satellite_to_guy k < s.guy_count)

/-- No two of the satellites in the slots below `n` hold the same target index. -/
def claims_exclusive (s : State F) (n : Nat) : Prop :=
  ∀ i k, i < n → k < n → i ≠ k → s.satellite_to_guy i = s.satellite_to_guy k →
    s.satellite_to_guy i = -1

/-- The three stores are within their capacities. -/
def within_capacity (s : State F) : Prop :=
  s.satellite_count ≤ MAX_SATELLITES ∧ s.guy_count ≤ MAX_GUYS
    ∧ s.explosion_count ≤ MAX_EXPLOSIONS

/-- Three resting satellites in a row on the line `y = 0.5`, at `x = 0.5`, `0.55` and `0.6`:
neighbours are within the collision threshold (squared distance 0.0025), the outer two are
not (squared distance 0.01). -/
def chain3 : State Frac :=
  { initial exact_ops 0 with
    satellite_positions := fun k =>
      if k = 0 then ⟨⟨50, 100⟩, ⟨5, 10⟩⟩
      else if k = 1 then ⟨⟨55, 100⟩, ⟨5, 10⟩⟩ else ⟨⟨60, 100⟩, ⟨5, 10⟩⟩
    satellite_velocities := fun _ => ⟨⟨0, 1⟩, ⟨0, 1⟩⟩
    satellite_count := 3 }

/-- Three satellites at the same position `(0.5, 0.5)`, no explosion yet. -/
def pile3 : State Frac :=
  { initial exact_ops 0 with
    satellite_positions := fun _ => ⟨⟨5, 10⟩, ⟨5, 10⟩⟩
    satellite_velocities := fun _ => ⟨⟨0, 1⟩, ⟨0, 1⟩⟩
    satellite_count := 3 }

/-- Two satellites: the first at `(0, 0.5)` with velocity `(0.01, 0)`, the second at the
position the first one has after its physics step, `(0.01, 0.5)`. -/
def pair2 : State Frac :=
  { initial exact_ops 0 with
    satellite_positions := fun k =>
      if k = 0 then ⟨⟨0, 1⟩, ⟨1, 2⟩⟩ else ⟨⟨1, 100⟩, ⟨1, 2⟩⟩
    satellite_velocities := fun k =>
      if k = 0 then ⟨⟨1, 100⟩, ⟨0, 1⟩⟩ else ⟨⟨0, 1⟩, ⟨0, 1⟩⟩
    satellite_count := 2 }

/-- The driver as the specification words it: `n` simulation steps, the first with the clock
`clock`, each later one with the clock of its predecessor plus `TICKS_PER_FRAME`; step number
`k` is offered the `rand()` results `rnd k`. -/
def fixed_steps [DecidableEq F] (ops : FloatOps F) (rnd : Nat → Int × Int) (current_ticks : Int) :
    Nat → Nat → Int → State F → Except Fault (State F)
  | 0, _, _, s => .ok s
  | n + 1, k, clock, s =>
    match tick ops clock current_ticks (rnd k).1 (rnd k).2 s with
    | .ok s1 => fixed_steps ops rnd current_ticks n (k + 1) (clock + TICKS_PER_FRAME) s1
    | .error e => .error e

/-- The part of the loop over the satellites (lines 293-353) that moves and removes
satellites: for each index in turn the physics step of that satellite, its inner collision loop
against the later satellites, and its removal when it was hit; the target assignment of the
survivors is left out. -/
def move_and_collide (ops : FloatOps F) (ticks : Int) :
    Nat → Nat → State F → Except Fault (State F)
  | 0, i, s => if i < s.satellite_count then .error .fuel_exhausted else .ok s
  | fuel + 1, i, s =>
    if i < s.satellite_count then
      match physics_step ops i s with
      | .ok s1 =>
        match collision_scan ops ticks i (s1.satellite_count - (i + 1)) (i + 1) true s1 with
        | .ok (s2, alive) =>
          if alive then move_and_collide ops ticks fuel (i + 1) s2
          else
            match delete_satellite i s2 with
            | .ok s3 => move_and_collide ops ticks fuel i s3
            | .error e => .error e
        | .error e => .error e
      | .error e => .error e
    else .ok s

/-- The target assignment (lines 320-348) of the satellites from index `i` on, in index
order. -/
def assign_from [DecidableEq F] (ops : FloatOps F) : Nat → Nat → State F → Except Fault (State F)
  | 0, i, s => if i < s.satellite_count then .error .fuel_exhausted else .ok s
  | fuel + 1, i, s =>
    if i < s.satellite_count then
      match assign_target ops i s with
      | .ok s1 => assign_from ops fuel (i + 1) s1
      | .error e => .error e
    else .ok s

/-- One step as two passes over the satellites followed by the rest of the step: first all
moving and colliding, then the target assignment of the survivors, then the score update,
the explosion aging and the target spawner. -/
def tick_two_pass [DecidableEq F] (ops : FloatOps F) (ticks current_ticks : Int) (r1 r2 : Int)
    (s : State F) : Except Fault (State F) :=
  let s0 := begin_tick ops s
  match move_and_collide ops ticks s0.satellite_count 0 s0 with
  | .ok sm =>
    match assign_from ops sm.satellite_count 0 sm with
    | .ok s1 =>
      let s2 := update_score s1
      match age_explosions ticks s2.explosion_count 0 s2 with
      | .ok s3 => .ok { spawn_guy ops ticks r1 r2 s3 with last_ticks := toU32 current_ticks }
      | .error e => .error e
    | .error e => .error e
  | .error e => .error e

/-- The physics phase as the specification words it: the physics step of every live
satellite, from index `i` on. -/
def physics_phase (ops : FloatOps F) : Nat → Nat → State F → Except Fault (State F)
  | 0, i, s => if i < s.satellite_count then .error .fuel_exhausted else .ok s
  | fuel + 1, i, s =>
    if i < s.satellite_count then
      match physics_step ops i s with
      | .ok s1 => physics_phase ops fuel (i + 1) s1
      | .error e => .error e
    else .ok s

/-- The collision resolver as the specification words it, run over the whole store after the
physics phase: for each index in turn the inner collision loop against the later satellites
and the removal of the satellite when it was hit. -/
def collision_phase (ops : FloatOps F) (ticks : Int) :
    Nat → Nat → State F → Except Fault (State F)
  | 0, i, s => if i < s.satellite_count then .error .fuel_exhausted else .ok s
  | fuel + 1, i, s =>
    if i < s.satellite_count then
      match collision_scan ops ticks i (s.satellite_count - (i + 1)) (i + 1) true s with
      | .ok (s2, alive) =>
        if alive then collision_phase ops ticks fuel (i + 1) s2
        else
          match delete_satellite i s2 with
          | .ok s3 => collision_phase ops ticks fuel i s3
          | .error e => .error e
      | .error e => .error e
    else .ok s

/-- One step as the specification words it: the phases run one after the other over the
whole store, physics, collision resolution, target assignment, score update, explosion aging,
target spawning. -/
def tick_phased [DecidableEq F] (ops : FloatOps F) (ticks current_ticks : Int) (r1 r2 : Int)
    (s : State F) : Except Fault (State F) :=
  let s0 := begin_tick ops s
  match physics_phase ops s0.satellite_count 0 s0 with
  | .ok sp =>
    match collision_phase ops ticks sp.satellite_count 0 sp with
    | .ok sc =>
      match assign_from ops sc.satellite_count 0 sc with
      | .ok s1 =>
        let s2 := update_score s1
        match age_explosions ticks s2.explosion_count 0 s2 with
        | .ok s3 => .ok { spawn_guy ops ticks r1 r2 s3 with last_ticks := toU32 current_ticks }
        | .error e => .error e
      | .error e => .error e
    | .error e => .error e
  | .error e => .error e

/-- The state `s` with the assignment of satellite `i` stored: its assigned index, the
claimed marker and the claimed count. -/
def with_claim (i : Nat) (v : Int) (picked : Nat → Nat) (n : Int) (s : State F) : State F :=
  { s with satellite_to_guy := set_at s.satellite_to_guy i v, guy_picked := picked,
           guy_picked_count := n }

/-- Two satellites: satellite 0 rests at `(0.5, 0.5)`, satellite 1 is at `(0.57, 0.5)` and
moves away with velocity `(0.005, 0)`.  The squared distance is 0.0049 before satellite 1 has
moved and 0.005625 after. -/
def receding2 : State Frac :=
  { initial exact_ops 0 with
    satellite_positions := fun k =>
      if k = 0 then ⟨⟨50, 100⟩, ⟨50, 100⟩⟩ else ⟨⟨57, 100⟩, ⟨50, 100⟩⟩
    satellite_velocities := fun k =>
      if k = 0 then ⟨⟨0, 1⟩, ⟨0, 1⟩⟩ else ⟨⟨5, 1000⟩, ⟨0, 1⟩⟩
    satellite_count := 2 }

/-- A run that has reached, between two driver invocations, a state with one satellite and
`g` targets, together with the bounds on its clocks that keep them far below `2^31`. -/
def single_run [DecidableEq F] (ops : FloatOps F) (s : State F) (g : Nat) : Prop :=
  Run ops s s.last_ticks s.last_ticks ∧ s.satellite_count = 1 ∧ s.guy_count = g
    ∧ 0 ≤ s.last_guy_ticks ∧ s.last_guy_ticks ≤ s.last_ticks
    ∧ 0 ≤ s.ticks_per_guy ∧ s.ticks_per_guy ≤ 5000
    ∧ s.last_ticks ≤ s.last_guy_ticks + s.ticks_per_guy + 16
    ∧ s.last_guy_ticks + 5016 ≤ 5016 * (g : Int)

/-! ## Notions for the explosion store -/

/-- The full record of the explosion in slot `k`: position, expiry tick, phase flag
(0 is the early phase, 1 the late phase). -/
def explosion_record (s : State F) (k : Nat) : Vector2 F × Int × Int :=
  (s.explosion_positions k, s.explosion_end_ticks k, s.explosion_frame k)

/-- Two explosions: slot 0 holds one created at tick 0 that has turned late (phase flag 1),
slot 1 one created at tick 900 that is still early (phase flag 0). -/
def late_early : State Frac :=
  { initial exact_ops 0 with
    explosion_positions := fun k => if k = 0 then ⟨⟨1, 10⟩, ⟨5, 10⟩⟩ else ⟨⟨7, 10⟩, ⟨5, 10⟩⟩
    explosion_end_ticks := fun k => if k = 0 then 1000 else 1900
    explosion_frame := fun k => if k = 0 then 1 else 0
    explosion_count := 2 }

/-- The position and the expiry tick of the explosion in slot `k`. -/
def explosion_entry (s : State F) (k : Nat) : Vector2 F × Int :=
  (s.explosion_positions k, s.explosion_end_ticks k)

/-- The entries of the live explosions in the slots `j, j + 1, ..., explosion_count - 1`. -/
def explosions_from (s : State F) (j : Nat) : List (Vector2 F × Int) :=
  window (explosion_entry s) j (s.explosion_count - j)

/-- The initial state with one explosion appended at tick 0, at `(0.5, 0.5)`: its expiry tick
is 1000 and its phase flag is 0 (early). -/
def fresh_explosion : State Frac :=
  spawn_explosion 0 ⟨⟨1, 2⟩, ⟨1, 2⟩⟩ (initial exact_ops 0)

/-- The initial state (clock 0) after the deployment of a resting satellite at `(0, 0.5)`,
where the first satellite is: after the physics step of the first satellite the two are
0.005 apart. -/
def two_close : State Frac :=
  deploy ⟨⟨0, 1⟩, ⟨1, 2⟩⟩ ⟨⟨0, 1⟩, ⟨0, 1⟩⟩ (initial exact_ops 0)

/-- The deployment of two resting satellites at `(0.5, 0.5)`. -/
def deploy_pair (s : State Frac) : State Frac :=
  deploy ⟨⟨5, 10⟩, ⟨5, 10⟩⟩ ⟨⟨0, 1⟩, ⟨0, 1⟩⟩ (deploy ⟨⟨5, 10⟩, ⟨5, 10⟩⟩ ⟨⟨0, 1⟩, ⟨0, 1⟩⟩ s)

/-! ## Notions for the score and for the motion of the satellites -/

/-- The number of satellites in the slots below `n` that hold a target index (not none). -/
def claimed_count (s : State F) (n : Nat) : Nat :=
  (List.range n).countP (fun k => decide (s.satellite_to_guy k ≠ -1))

/-- The target indices held by the satellites in the slots below `n`, one entry for each
satellite that holds one. -/
def claimed_targets (s : State F) (n : Nat) : List Int :=
  ((List.range n).map s.satellite_to_guy).filter (fun g => decide (g ≠ -1))

/-- The position and the velocity of the satellite in slot `k`. -/
def satellite_motion (s : State F) (k : Nat) : Vector2 F × Vector2 F :=
  (s.satellite_positions k, s.satellite_velocities k)

/-- The positions and velocities of the live satellites in the slots
`j, j + 1, ..., satellite_count - 1`. -/
def motions_from (s : State F) (j : Nat) : List (Vector2 F × Vector2 F) :=
  window (satellite_motion s) j (s.satellite_count - j)

/-- Lines 294-303 on one satellite: the position and velocity one physics step makes of the
position and velocity `r`. -/
def stepped (ops : FloatOps F) (r : Vector2 F × Vector2 F) : Vector2 F × Vector2 F :=
  let position := Vector2.add_assign ops r.1 r.2
  let gravity := ops.div (ops.lit 1 0) (square_length ops position)
  let theta := ops.atan2f position.y position.x
  (position,
    ⟨ops.sub r.2.x (ops.mul (ops.mul (ops.lit 1 5) gravity) (ops.cosf theta)),
     ops.sub r.2.y (ops.mul (ops.mul (ops.lit 1 5) gravity) (ops.sinf theta))⟩)

/-! ## The driver over several frames -/

/-- Lines 228-380 without deployments: the driver invoked once per frame, `times` being the
results of `SDL_GetTicks()` at the successive frames; frame number `f` offers its steps the
`rand()` results `rnds f`. -/
def frames [DecidableEq F] (ops : FloatOps F) (rnds : Nat → Nat → Int × Int) :
    Nat → List Int → State F → Except Fault (State F)
  | _, [], s => .ok s
  | f, now :: rest, s =>
    match driver ops (rnds f) now s with
    | .ok s1 => frames ops rnds (f + 1) rest s1
    | .error e => .error e

/-- The steps the frames at the times `times` run when the driver was last left with
`last_ticks = last`: for each frame the clock of its first step, the time of the frame and its
number of steps `floor((now - last) / 16)`.  A frame that runs a step leaves
`last_ticks = now`, a frame that runs none leaves `last_ticks` as it was. -/
def frame_schedule (last : Int) : List Int → List (Int × Int × Nat)
  | [] => []
  | now :: rest =>
    (last, now, Int.toNat ((now - last) / 16))
      :: frame_schedule (if Int.toNat ((now - last) / 16) = 0 then last else now) rest

/-- The total number of steps of a schedule. -/
def schedule_steps : List (Int × Int × Nat) → Nat
  | [] => 0
  | e :: rest => e.2.2 + schedule_steps rest

/-- The frames of a schedule run as the specification words the driver: the frame
`(clock, now, n)` is `n` simulation steps, the first with the clock `clock`. -/
def run_schedule [DecidableEq F] (ops : FloatOps F) (rnds : Nat → Nat → Int × Int) :
    Nat → List (Int × Int × Nat) → State F → Except Fault (State F)
  | _, [], s => .ok s
  | f, e :: rest, s =>
    match fixed_steps ops (rnds f) e.2.1 e.2.2 0 e.1 s with
    | .ok s1 => run_schedule ops rnds (f + 1) rest s1
    | .error e1 => .error e1

/-- The time of the last frame, `last` when there is no frame. -/
def final_time (last : Int) : List Int → Int
  | [] => last
  | now :: rest => final_time now rest

/-- Whether the times are non-decreasing, starting from `last`. -/
def non_decreasing (last : Int) : List Int → Bool
  | [] => true
  | now :: rest => decide (last ≤ now) && non_decreasing now rest

/-! ## The real numbers as floating point values -/

/-- Exact real arithmetic: the operations the physics step uses are those of the real numbers,
`atan2f y x` is the angle of the point `(x, y)` in `(-π, π]`, and the decimal literal
`lit m e` is `m / 10^e`. -/
def exact_real (ops : FloatOps ℝ) : Prop :=
  (∀ a b, ops.add a b = a + b) ∧ (∀ a b, ops.sub a b = a - b) ∧ (∀ a b, ops.mul a b = a * b)
    ∧ (∀ a b, ops.div a b = a / b) ∧ (∀ y x, ops.atan2f y x = Complex.arg ⟨x, y⟩)
    ∧ (∀ a, ops.cosf a = Real.cos a) ∧ (∀ a, ops.sinf a = Real.sin a)
    ∧ (∀ (m : Int) (e : Nat), ops.lit m e = (m : ℝ) / 10 ^ e)

/-- The operations over the real numbers.  The real numbers have no infinite value: the field
`infinity`, which the physics step does not use, is set to 0. -/
noncomputable def real_ops : FloatOps ℝ where
  add a b := a + b
  sub a b := a - b
  mul a b := a * b
  div a b := a / b
  lt a b := decide (a < b)
  cosf a := Real.cos a
  sinf a := Real.sin a
  atan2f y x := Complex.arg ⟨x, y⟩
  lit m e := (m : ℝ) / 10 ^ e
  infinity := 0
  pi := Real.pi
  rand_max := 2147483647

/-! ## The step with the accesses beyond `guy_picked` carried out

`guy_picked` has `MAX_GUYS / 64 = 15` words, so for a target `j ≥ 960` lines 324 and 346 access
the word behind the array.  What is stored there is not determined by the source; `Overrun`
collects the two effects such an access can have, and the definitions below are the step of
lines 288-379 with these effects in the place of the fault `guy_picked_index`. -/

/-- The behaviour of the accesses to `guy_picked[j / 64]` with `j / 64 ≥ MAX_GUYS / 64`. -/
structure Overrun (F : Type) where
  /-- Line 324 for such a target `j`: the result of the bit test in the state at hand. -/
  test : State F → Nat → Bool
  /-- Line 346 for such a target `j`: the state after the `|=`. -/
  mark : Nat → State F → State F

/-- Line 324: the test of the claimed marker of target `j`, also beyond the array. -/
def guy_is_picked_run (o : Overrun F) (s : State F) (j : Nat) : Bool :=
  if j / 64 < GUY_PICKED_WORDS then guy_is_picked s j else o.test s j

/-- Lines 323-339: the scan over the targets from index `j` on, with the current
`closest_guy` and `closest_distance`. -/
def closest_scan_run (o : Overrun F) (ops : FloatOps F) (s : State F) (position : Vector2 F) :
    Nat → Nat → Nat → F → Except Fault (Nat × F)
  | 0, j, closest_guy, closest_distance =>
    if j < s.guy_count then .error .fuel_exhausted else .ok (closest_guy, closest_distance)
  | fuel + 1, j, closest_guy, closest_distance =>
    if j < s.guy_count then
      if guy_is_picked_run o s j then
        closest_scan_run o ops s position fuel (j + 1) closest_guy closest_distance
      else
        let distance := guy_distance ops s position j
        if ops.lt distance closest_distance && ops.lt distance (ops.lit 1 0) then
          closest_scan_run o ops s position fuel (j + 1) j distance
        else closest_scan_run o ops s position fuel (j + 1) closest_guy closest_distance
    else .ok (closest_guy, closest_distance)

/-- Lines 341-348: the result of the scan is stored for satellite `i`; for a target beyond the
array the `|=` of line 346 is `o.mark`, made after the store of line 344 and before the
increment of line 347. -/
def store_assignment_run [DecidableEq F] (o : Overrun F) (ops : FloatOps F) (i : Nat)
    (closest_guy : Nat) (closest_distance : F) (s : State F) : Except Fault (State F) :=
  if i < s.satellite_count then
    if closest_distance = ops.infinity then
      .ok { s with satellite_to_guy := set_at s.satellite_to_guy i (-1) }
    else if closest_guy / 64 < GUY_PICKED_WORDS then
      .ok { s with
        satellite_to_guy := set_at s.satellite_to_guy i (closest_guy : Int)
        guy_picked := set_at s.guy_picked (closest_guy / 64)
          (s.guy_picked (closest_guy / 64) ||| (1 <<< (closest_guy % 64)))
        guy_picked_count := s.guy_picked_count + 1 }
    else
      let s1 := o.mark closest_guy
        { s with satellite_to_guy := set_at s.satellite_to_guy i (closest_guy : Int) }
      .ok { s1 with guy_picked_count := s1.guy_picked_count + 1 }
  else .error .satellite_index

/-- Lines 321-348: the target assignment of the surviving satellite `i`. -/
def assign_target_run [DecidableEq F] (o : Overrun F) (ops : FloatOps F) (i : Nat)
    (s : State F) : Except Fault (State F) :=
  if i < s.satellite_count then
    match closest_scan_run o ops s (s.satellite_positions i) s.guy_count 0 0 ops.infinity with
    | .ok (closest_guy, closest_distance) =>
      store_assignment_run o ops i closest_guy closest_distance s
    | .error e => .error e
  else .error .satellite_index

/-- Lines 293-353: the loop over the satellites from index `i` on. -/
def satellite_loop_run [DecidableEq F] (o : Overrun F) (ops : FloatOps F) (ticks : Int) :
    Nat → Nat → State F → Except Fault (State F)
  | 0, i, s => if i < s.satellite_count then .error .fuel_exhausted else .ok s
  | fuel + 1, i, s =>
    if i < s.satellite_count then
      match physics_step ops i s with
      | .ok s1 =>
        match collision_scan ops ticks i (s1.satellite_count - (i + 1)) (i + 1) true s1 with
        | .ok (s2, alive) =>
          if alive then
            match assign_target_run o ops i s2 with
            | .ok s3 => satellite_loop_run o ops ticks fuel (i + 1) s3
            | .error e => .error e
          else
            match delete_satellite i s2 with
            | .ok s3 => satellite_loop_run o ops ticks fuel i s3
            | .error e => .error e
        | .error e => .error e
      | .error e => .error e
    else .ok s

/-- Lines 288-379: the body of the fixed-timestep loop, run with the clock `ticks`. -/
def tick_run [DecidableEq F] (o : Overrun F) (ops : FloatOps F) (ticks current_ticks : Int)
    (r1 r2 : Int) (s : State F) : Except Fault (State F) :=
  let s0 := begin_tick ops s
  match satellite_loop_run o ops ticks s0.satellite_count 0 s0 with
  | .ok s1 =>
    let s2 := update_score s1
    match age_explosions ticks s2.explosion_count 0 s2 with
    | .ok s3 => .ok { spawn_guy ops ticks r1 r2 s3 with last_ticks := toU32 current_ticks }
    | .error e => .error e
  | .error e => .error e

/-- The states the program reaches from the initial state by steps and deployments when the
accesses beyond `guy_picked` behave as `o` says, a step being allowed any values of its clocks
and of `rand()`. -/
inductive Continued [DecidableEq F] (o : Overrun F) (ops : FloatOps F) : State F → Prop
  | init (t0 : Int) : Continued o ops (initial ops t0)
  | deploy (position velocity : Vector2 F) {s : State F} :
      Continued o ops s → Continued o ops (deploy position velocity s)
  | tick (ticks current_ticks r1 r2 : Int) {s s1 : State F} :
      Continued o ops s → tick_run o ops ticks current_ticks r1 r2 s = .ok s1 →
      Continued o ops s1

/-- The write beyond `guy_picked` does not raise `satellite_count`, leaves the spawn interval
as it is and does not lower the score.  Everything else it may change: the satellites, the
explosions, the targets and their count, the claimed marker and the claimed count. -/
def overrun_spares (o : Overrun F) : Prop :=
  ∀ (g : Nat) (s : State F), (o.mark g s).satellite_count ≤ s.satellite_count
    ∧ (o.mark g s).ticks_per_guy = s.ticks_per_guy ∧ s.score ≤ (o.mark g s).score

/-- The write beyond `guy_picked` raises none of the three counts `satellite_count`,
`guy_count` and `explosion_count`.  Everything else it may change. -/
def overrun_keeps_counts (o : Overrun F) : Prop :=
  ∀ (g : Nat) (s : State F), (o.mark g s).satellite_count ≤ s.satellite_count
    ∧ (o.mark g s).guy_count ≤ s.guy_count
    ∧ (o.mark g s).explosion_count ≤ s.explosion_count

/-- The write beyond `guy_picked` leaves `satellite_to_guy` as it is and does not lower
`guy_count`.  Everything else it may change. -/
def overrun_keeps_assignments (o : Overrun F) : Prop :=
  ∀ (g : Nat) (s : State F), (o.mark g s).satellite_to_guy = s.satellite_to_guy
    ∧ s.guy_count ≤ (o.mark g s).guy_count

/-- The `int` that has the bits of the `int` `n` and bit `k < 32` set. -/
def with_bit (n : Int) (k : Nat) : Int :=
  wrap32 (((toU32 n).toNat ||| (1 <<< k) : Nat) : Int)

/-- An instance of the behaviour beyond the array: the word behind `guy_picked` holds in its
low half `guy_picked_count`, as it does when the variables are laid out in the order of their
declaration (lines 103-104).  The instance covers the targets 960 to 991, whose bits lie in
that half; the other half is taken to read as zero and a bit set there to be lost. -/
def count_behind : Overrun F where
  test s j := (toU32 s.guy_picked_count).toNat.testBit (j % 64)
  mark j s :=
    if j % 64 < 32 then { s with guy_picked_count := with_bit s.guy_picked_count (j % 64) }
    else s

/-- An instance of the behaviour beyond the array: the word behind `guy_picked` holds in its
low half `guy_count`, as it does when the variables are laid out in the reverse order of their
declaration (lines 101-103).  The instance covers the targets 960 to 990; bit 31, the sign bit
of `guy_count`, and the other half are taken to read as zero and a bit set there to be lost,
`guy_count` being a natural number in the embedding. -/
def guy_count_behind : Overrun F where
  test s j := s.guy_count.testBit (j % 64)
  mark j s :=
    if j % 64 < 31 then { s with guy_count := s.guy_count ||| (1 <<< (j % 64)) } else s

/-- One satellite at `(0, 0.5)` and 961 targets: the targets 0 to 959 have the magnitude 4,
which puts them at the distance 2 from the origin, farther than 1 from the satellite; target
960 has the magnitude 0 and lies at the origin. -/
def beyond_capacity : State Frac :=
  { initial exact_ops 0 with
    guy_magnitudes := fun j => if j < 960 then ⟨4, 1⟩ else ⟨0, 1⟩
    guy_count := 961 }

/-! ## Runs that fill the target store while no satellite is alive -/

/-- The state after the first step (clock 0, frame at 16 ms) from `two_close`: the two
satellites have destroyed each other, the satellite store is empty. -/
def emptied : State Frac :=
  match tick exact_ops 0 16 0 0 two_close with
  | .ok s => s
  | .error _ => two_close

/-- The first result of `rand()` offered to the spawn of target `j`: 0 for the target `z`,
`RAND_MAX` for every other target. -/
def crowd_rand (z j : Nat) : Int := if j = z then 0 else 2147483647

/-- The magnitude of target `j` in a run whose spawns were offered `crowd_rand z`: 0 for the
first target and for target `z` (both lie at the origin, whatever the angle and the rotation
of the planet), 1 for every other target (at the distance 0.5 from the origin). -/
def crowd_magnitude (z j : Nat) : Frac :=
  if j = 0 then exact_ops.lit 0 0
  else exact_ops.div (exact_ops.lit (crowd_rand z j) 0) exact_ops.rand_max

/-- A run that has reached, between two driver invocations, a state with no satellite, the
score 0 and `g` targets with the magnitudes `crowd_magnitude z`, together with the bounds on
its clocks that keep them far below `2^31`. -/
def crowd_run (z : Nat) (s : State Frac) (g : Nat) : Prop :=
  Run exact_ops s s.last_ticks s.last_ticks ∧ s.satellite_count = 0 ∧ s.guy_count = g
    ∧ (∀ j, j < g → s.guy_magnitudes j = crowd_magnitude z j) ∧ s.score = 0
    ∧ 0 ≤ s.last_guy_ticks ∧ s.last_guy_ticks ≤ s.last_ticks
    ∧ 0 ≤ s.ticks_per_guy ∧ s.ticks_per_guy ≤ 5000
    ∧ s.last_ticks ≤ s.last_guy_ticks + s.ticks_per_guy + 16
    ∧ s.last_guy_ticks + 5016 ≤ 5016 * (g : Int)

/-- Four positions at the distance 0.1 from the origin: `(0.1, 0)`, `(-0.1, 0)`, `(0, 0.1)`,
`(0, -0.1)`.  Any two of them are farther apart than the collision threshold (squared distance
0.02 or 0.04), and each is nearer to the origin (squared distance 0.01) than to any point at
the distance 0.5 from the origin (squared distance at least 0.16). -/
def near_origin (k : Nat) : Vector2 Frac :=
  if k = 0 then ⟨⟨1, 10⟩, ⟨0, 1⟩⟩
  else if k = 1 then ⟨⟨-1, 10⟩, ⟨0, 1⟩⟩
  else if k = 2 then ⟨⟨0, 1⟩, ⟨1, 10⟩⟩ else ⟨⟨0, 1⟩, ⟨-1, 10⟩⟩

/-- The deployment of `n` resting satellites at the positions `near_origin 0`, ...,
`near_origin (n - 1)`. -/
def deploy_near_origin : Nat → State Frac → State Frac
  | 0, s => s
  | n + 1, s => deploy (near_origin n) ⟨⟨0, 1⟩, ⟨0, 1⟩⟩ (deploy_near_origin n s)

/-- The squared distance from `position` to a target of magnitude `m` as lines 328-334 compute
it with `exact_ops`, whose stand-ins for `cosf` and `sinf` are constant: for `m = 0` the
target lies at the origin, as it does whatever the angle. -/
def target_distance (m : Frac) (position : Vector2 Frac) : Frac :=
  square_length exact_ops (Vector2.sub exact_ops
    ⟨exact_ops.mul (exact_ops.mul (exact_ops.lit 5 1) ⟨1, 1⟩) m,
     exact_ops.mul (exact_ops.mul (exact_ops.lit (-5) 1) ⟨0, 1⟩) m⟩ position)

/-- The store holds `n ≤ 4` satellites of which those from slot `i` on rest at the positions
`near_origin`, and `g` targets with the magnitudes `crowd_magnitude z`. -/
def crowd_form (z g n i : Nat) (s : State Frac) : Prop :=
  s.satellite_count = n ∧ n ≤ 4 ∧ s.guy_count = g
    ∧ (∀ j, j < g → s.guy_magnitudes j = crowd_magnitude z j)
    ∧ ∀ k, i ≤ k → k < n → s.satellite_positions k = near_origin k
        ∧ s.satellite_velocities k = ⟨⟨0, 1⟩, ⟨0, 1⟩⟩

@[simp] theorem set_at_same {α : Type} (a : Nat → α) (i : Nat) (v : α) : set_at a i v i = v := by
  simp [set_at]

theorem set_at_other {α : Type} (a : Nat → α) {i k : Nat} (v : α) (h : k ≠ i) :
    set_at a i v k = a k := by
  simp [set_at, h]

theorem set_at_apply {α : Type} (a : Nat → α) (i k : Nat) (v : α) :
    set_at a i v k = if k = i then v else a k := rfl

@[simp] theorem window_zero {α : Type} (f : Nat → α) (a : Nat) : window f a 0 = [] := rfl

theorem window_succ_cons {α : Type} (f : Nat → α) (a n : Nat) :
    window f a (n + 1) = f a :: window f (a + 1) n := by
  simp [window, List.range_succ_eq_map, List.map_map, Function.comp_def, Nat.add_assoc,
    Nat.add_comm 1]

theorem window_succ_snoc {α : Type} (f : Nat → α) (a n : Nat) :
    window f a (n + 1) = window f a n ++ [f (a + n)] := by
  simp [window, List.range_succ]

theorem window_congr {α : Type} {f g : Nat → α} {a n : Nat}
    (h : ∀ k, a ≤ k → k < a + n → f k = g k) : window f a n = window g a n := by
  apply List.map_congr_left
  intro d hd
  exact h (a + d) (Nat.le_add_right a d) (by have := List.mem_range.mp hd; omega)

@[simp] theorem window_length {α : Type} (f : Nat → α) (a n : Nat) :
    (window f a n).length = n := by
  simp [window]

theorem mem_window {α : Type} {f : Nat → α} {a n : Nat} {x : α} :
    x ∈ window f a n ↔ ∃ k, a ≤ k ∧ k < a + n ∧ f k = x := by
  simp only [window, List.mem_map, List.mem_range]
  constructor
  · rintro ⟨d, hd, rfl⟩
    exact ⟨a + d, by omega, by omega, rfl⟩
  · rintro ⟨k, h1, h2, rfl⟩
    exact ⟨k - a, by omega, by congr 1; omega⟩

/-- Overwriting the first slot of a window with its last element and dropping the last slot
leaves the other elements of the window, in some order. -/
theorem window_swap_remove {α : Type} (f : Nat → α) (j n : Nat) :
    (window (set_at f j (f (j + n))) j n).Perm (window f (j + 1) n) := by
  cases n with
  | zero => simp
  | succ m =>
    rw [window_succ_cons, window_succ_snoc, set_at_same]
    have h : window (set_at f j (f (j + (m + 1)))) (j + 1) m = window f (j + 1) m :=
      window_congr (fun k hk _ => set_at_other f _ (by omega))
    rw [h, show j + 1 + m = j + (m + 1) by omega]
    exact (List.perm_append_singleton _ _).symm

/-! ## Removal and explosion append -/

theorem delete_satellite_ok {i : Nat} {s : State F} (h : i < s.satellite_count) :
    delete_satellite i s = .ok { s with
      satellite_positions :=
        set_at s.satellite_positions i (s.satellite_positions (s.satellite_count - 1))
      satellite_velocities :=
        set_at s.satellite_velocities i (s.satellite_velocities (s.satellite_count - 1))
      satellite_to_guy := set_at s.satellite_to_guy i (s.satellite_to_guy (s.satellite_count - 1))
      satellite_count := s.satellite_count - 1 } := by
  simp [delete_satellite, h]

theorem delete_satellite_record {i : Nat} {s s1 : State F} (h : delete_satellite i s = .ok s1) :
    satellite_record s1 = set_at (satellite_record s) i (satellite_record s (s.satellite_count - 1))
      ∧ s1.satellite_count = s.satellite_count - 1 ∧ i < s.satellite_count := by
  unfold delete_satellite at h
  split at h
  · injection h with h
    subst h
    refine ⟨?_, rfl, by assumption⟩
    funext k
    by_cases hk : k = i <;> simp [satellite_record, set_at, hk]
  · cases h

theorem spawn_explosion_record (ticks : Int) (p : Vector2 F) (s : State F) :
    satellite_record (spawn_explosion ticks p s) = satellite_record s
      ∧ (spawn_explosion ticks p s).satellite_count = s.satellite_count
      ∧ (spawn_explosion ticks p s).satellite_positions = s.satellite_positions := by
  unfold spawn_explosion
  split <;> exact ⟨rfl, rfl, rfl⟩

theorem satellites_from_cons {s : State F} {j : Nat} (h : j < s.satellite_count) :
    satellites_from s j = satellite_record s j :: window (satellite_record s) (j + 1)
      (s.satellite_count - (j + 1)) := by
  unfold satellites_from
  rw [show s.satellite_count - j = (s.satellite_count - (j + 1)) + 1 by omega, window_succ_cons]

/-- The satellite part of what the inner collision loop of satellite `i` does from index `j`
on: it returns, the later satellites that are within the threshold of satellite `i` are gone,
the others are all still there (in some order), the slots below `j` are untouched, and
`alive` is cleared exactly when there was a hit. -/
theorem collision_scan_satellites (ops : FloatOps F) (ticks : Int) (i : Nat) :
    ∀ (fuel j : Nat) (alive : Bool) (s : State F), i < j → j ≤ s.satellite_count →
      fuel = s.satellite_count - j →
      ∃ s1, collision_scan ops ticks i fuel j alive s
          = .ok (s1, alive && ((satellites_from s j).countP
              (record_collides ops (s.satellite_positions i)) == 0))
        ∧ s1.satellite_count + (satellites_from s j).countP
              (record_collides ops (s.satellite_positions i)) = s.satellite_count
        ∧ (∀ k, k < j → satellite_record s1 k = satellite_record s k)
        ∧ (satellites_from s1 j).Perm ((satellites_from s j).filter
              (fun r => !record_collides ops (s.satellite_positions i) r))
        ∧ s1.explosion_count = Nat.max s.explosion_count (Nat.min MAX_EXPLOSIONS
            (s.explosion_count + (satellites_from s j).countP
              (record_collides ops (s.satellite_positions i)))) := by
  intro fuel
  induction fuel with
  | zero =>
    intro j alive s hij hj hf
    have hnil : satellites_from s j = [] := by
      unfold satellites_from
      rw [show s.satellite_count - j = 0 by omega]
      rfl
    refine ⟨s, ?_, ?_, fun _ _ => rfl, ?_, ?_⟩
    · rw [hnil, collision_scan, if_neg (by omega)]
      simp
    · simp [hnil]
    · simp [hnil]
    · simp [hnil]
  | succ n ih =>
    intro j alive s hij hj hf
    have hjlt : j < s.satellite_count := by omega
    have hilt : i < s.satellite_count := by omega
    rw [satellites_from_cons hjlt]
    by_cases hc : collides ops (s.satellite_positions i) (s.satellite_positions j) = true
    · -- a hit: satellite `j` is removed and the scan goes on at the same index
      obtain ⟨hrec0, hcnt0, hpos0⟩ := spawn_explosion_record ticks (s.satellite_positions i) s
      have hjlt0 : j < (spawn_explosion ticks (s.satellite_positions i) s).satellite_count := by
        rw [hcnt0]; exact hjlt
      obtain ⟨s1, hs1⟩ : ∃ s1, delete_satellite j
          (spawn_explosion ticks (s.satellite_positions i) s) = .ok s1 :=
        ⟨_, delete_satellite_ok hjlt0⟩
      obtain ⟨hrec1, hcnt1, -⟩ := delete_satellite_record hs1
      rw [hrec0, hcnt0] at hrec1
      rw [hcnt0] at hcnt1
      have hpos1 : s1.satellite_positions i = s.satellite_positions i := by
        have := congrFun hrec1 i
        rw [set_at_other _ _ (by omega)] at this
        exact congrArg Prod.fst this
      obtain ⟨s2, h2, hcount2, hlow2, hperm2, hexp2⟩ :=
        ih j false s1 hij (by omega) (by omega)
      have hexp1 : s1.explosion_count
          = if s.explosion_count < MAX_EXPLOSIONS then s.explosion_count + 1
            else s.explosion_count := by
        unfold delete_satellite at hs1
        rw [if_pos hjlt0] at hs1
        injection hs1 with hs1
        subst hs1
        unfold spawn_explosion
        split <;> rfl
      have hfrom1 : (satellites_from s1 j).Perm
          (window (satellite_record s) (j + 1) (s.satellite_count - (j + 1))) := by
        unfold satellites_from
        rw [hrec1, hcnt1, show s.satellite_count - 1 - j = s.satellite_count - (j + 1) by omega]
        have := window_swap_remove (satellite_record s) j (s.satellite_count - (j + 1))
        rwa [show j + (s.satellite_count - (j + 1)) = s.satellite_count - 1 by omega] at this
      have hrc : record_collides ops (s.satellite_positions i) (satellite_record s j) = true := hc
      rw [hpos1] at h2 hcount2 hperm2 hexp2
      refine ⟨s2, ?_, ?_, ?_, ?_, ?_⟩
      · rw [collision_scan]
        simp only [hjlt, hilt, if_true, hc, hs1]
        rw [h2]
        simp [List.countP_cons_of_pos _ _ hrc]
      · rw [List.countP_cons_of_pos _ _ hrc, ← hfrom1.countP_eq]
        omega
      · intro k hk
        rw [hlow2 k hk, hrec1, set_at_other _ _ (by omega)]
      · rw [List.filter_cons_of_neg (by simp [hrc])]
        exact hperm2.trans (hfrom1.filter _)
      · rw [hexp2, List.countP_cons_of_pos _ _ hrc, ← hfrom1.countP_eq, hexp1]
        simp only [MAX_EXPLOSIONS, Nat.max_def, Nat.min_def]
        split_ifs <;> omega
    · -- no hit: the scan goes on at `j + 1`
      obtain ⟨s2, h2, hcount2, hlow2, hperm2, hexp2⟩ :=
        ih (j + 1) alive s (by omega) (by omega) (by omega)
      have hrc : ¬ record_collides ops (s.satellite_positions i) (satellite_record s j) = true :=
        hc
      have hcnt2 : j < s2.satellite_count := by
        have : (satellites_from s (j + 1)).countP
            (record_collides ops (s.satellite_positions i)) ≤ (satellites_from s (j + 1)).length :=
          List.countP_le_length _
        simp only [satellites_from, window_length] at this
        simp only [satellites_from] at hcount2
        omega
      refine ⟨s2, ?_, ?_, ?_, ?_, ?_⟩
      · rw [collision_scan]
        simp only [hjlt, hilt, if_true, hc]
        rw [h2]
        simp [List.countP_cons_of_neg _ _ hrc, satellites_from]
      · rw [List.countP_cons_of_neg _ _ hrc]
        exact hcount2
      · intro k hk
        exact hlow2 k (by omega)
      · rw [List.filter_cons_of_pos (by simp [hrc]), satellites_from_cons hcnt2,
          hlow2 j (by omega)]
        exact List.Perm.cons _ hperm2
      · rw [List.countP_cons_of_neg _ _ hrc]
        exact hexp2

/-! ## What the steps of the satellite loop leave unchanged -/

theorem same_targets_refl (s : State F) : same_targets s s :=
  ⟨rfl, rfl, rfl, rfl, rfl, rfl, rfl, rfl⟩

theorem same_targets_trans {s s1 s2 : State F} (h1 : same_targets s s1)
    (h2 : same_targets s1 s2) : same_targets s s2 := by
  obtain ⟨a1, a2, a3, a4, a5, a6, a7, a8⟩ := h1
  obtain ⟨b1, b2, b3, b4, b5, b6, b7, b8⟩ := h2
  exact ⟨b1.trans a1, b2.trans a2, b3.trans a3, b4.trans a4, b5.trans a5, b6.trans a6,
    b7.trans a7, b8.trans a8⟩

theorem same_picked_refl (s : State F) : same_picked s s := ⟨rfl, rfl⟩

theorem same_picked_trans {s s1 s2 : State F} (h1 : same_picked s s1)
    (h2 : same_picked s1 s2) : same_picked s s2 :=
  ⟨h2.1.trans h1.1, h2.2.trans h1.2⟩

theorem same_explosions_refl (s : State F) : same_explosions s s := ⟨rfl, rfl, rfl, rfl⟩

theorem same_explosions_trans {s s1 s2 : State F} (h1 : same_explosions s s1)
    (h2 : same_explosions s1 s2) : same_explosions s s2 :=
  ⟨h2.1.trans h1.1, h2.2.1.trans h1.2.1, h2.2.2.1.trans h1.2.2.1, h2.2.2.2.trans h1.2.2.2⟩

theorem delete_satellite_frame {i : Nat} {s s1 : State F} (h : delete_satellite i s = .ok s1) :
    same_targets s s1 ∧ same_picked s s1 ∧ same_explosions s s1 := by
  unfold delete_satellite at h
  split at h
  · injection h with h
    subst h
    exact ⟨same_targets_refl s, same_picked_refl s, same_explosions_refl s⟩
  · cases h

theorem spawn_explosion_frame (ticks : Int) (p : Vector2 F) (s : State F) :
    same_targets s (spawn_explosion ticks p s) ∧ same_picked s (spawn_explosion ticks p s)
      ∧ (spawn_explosion ticks p s).explosion_frame = s.explosion_frame
      ∧ same_satellites s (spawn_explosion ticks p s) := by
  unfold spawn_explosion
  split
  · exact ⟨same_targets_refl s, same_picked_refl s, rfl, rfl, rfl, rfl, rfl⟩
  · exact ⟨same_targets_refl s, same_picked_refl s, rfl, rfl, rfl, rfl, rfl⟩

theorem physics_step_ok (ops : FloatOps F) {i : Nat} {s : State F} (h : i < s.satellite_count) :
    ∃ s1, physics_step ops i s = .ok s1 := by
  simp [physics_step, h]

theorem physics_step_frame {ops : FloatOps F} {i : Nat} {s s1 : State F}
    (h : physics_step ops i s = .ok s1) :
    same_targets s s1 ∧ same_picked s s1 ∧ same_explosions s s1
      ∧ s1.satellite_count = s.satellite_count ∧ s1.satellite_to_guy = s.satellite_to_guy
      ∧ i < s.satellite_count
      ∧ (∀ k, k ≠ i → satellite_record s1 k = satellite_record s k) := by
  unfold physics_step at h
  split at h
  · injection h with h
    subst h
    refine ⟨same_targets_refl s, same_picked_refl s, same_explosions_refl s, rfl, rfl,
      by assumption, ?_⟩
    intro k hk
    simp [satellite_record, set_at, hk]
  · cases h

theorem collision_scan_frame (ops : FloatOps F) (ticks : Int) (i : Nat) :
    ∀ (fuel j : Nat) (alive : Bool) (s s1 : State F) (a1 : Bool),
      collision_scan ops ticks i fuel j alive s = .ok (s1, a1) →
      same_targets s s1 ∧ same_picked s s1 ∧ s1.explosion_frame = s.explosion_frame := by
  intro fuel
  induction fuel with
  | zero =>
    intro j alive s s1 a1 h
    unfold collision_scan at h
    split at h
    · cases h
    · injection h with h
      injection h with h h'
      subst h
      exact ⟨same_targets_refl s, same_picked_refl s, rfl⟩
  | succ n ih =>
    intro j alive s s1 a1 h
    rw [collision_scan] at h
    split at h
    · split at h
      · split at h
        · obtain ⟨t0, p0, f0, -⟩ := spawn_explosion_frame ticks (s.satellite_positions i) s
          split at h
          · rename_i s2 hs2
            obtain ⟨t1, p1, e1⟩ := delete_satellite_frame hs2
            obtain ⟨t2, p2, f2⟩ := ih _ _ _ _ _ h
            exact ⟨same_targets_trans (same_targets_trans t0 t1) t2,
              same_picked_trans (same_picked_trans p0 p1) p2, f2.trans (e1.2.2.1.trans f0)⟩
          · cases h
        · exact ih _ _ _ _ _ h
      · cases h
    · injection h with h
      injection h with h h'
      subst h
      exact ⟨same_targets_refl s, same_picked_refl s, rfl⟩

/-! ## The claimed marker -/

theorem guy_is_picked_eq_testBit (s : State F) (j : Nat) :
    guy_is_picked s j = (s.guy_picked (j / 64)).testBit (j % 64) := by
  unfold guy_is_picked
  rw [Nat.one_shiftLeft]
  by_cases h : (s.guy_picked (j / 64)).testBit (j % 64) = true
  · rw [h]
    have h1 : (s.guy_picked (j / 64) &&& 2 ^ (j % 64)).testBit (j % 64) = true := by
      rw [Nat.testBit_and, h, Nat.testBit_two_pow_self]
      rfl
    have h2 : s.guy_picked (j / 64) &&& 2 ^ (j % 64) ≠ 0 := by
      intro h0
      rw [h0] at h1
      simp at h1
    simpa using h2
  · have h' : (s.guy_picked (j / 64)).testBit (j % 64) = false := by simpa using h
    rw [h']
    have h2 : s.guy_picked (j / 64) &&& 2 ^ (j % 64) = 0 := by
      apply Nat.zero_of_testBit_eq_false
      intro k
      rw [Nat.testBit_and]
      by_cases hk : j % 64 = k
      · subst hk
        simp [h']
      · simp [Nat.testBit_two_pow_of_ne hk]
    simp [h2]

theorem guy_is_picked_after_claim (s : State F) (g g1 : Nat) :
    ∀ s1 : State F, s1.guy_picked = set_at s.guy_picked (g / 64)
        (s.guy_picked (g / 64) ||| (1 <<< (g % 64))) →
      guy_is_picked s1 g1 = (decide (g1 = g) || guy_is_picked s g1) := by
  intro s1 hs1
  rw [guy_is_picked_eq_testBit, guy_is_picked_eq_testBit, hs1]
  simp only [set_at_apply]
  by_cases hw : g1 / 64 = g / 64
  · rw [if_pos hw, Nat.testBit_or, Nat.one_shiftLeft, Nat.testBit_two_pow, hw, Bool.or_comm]
    congr 1
    by_cases hb : g % 64 = g1 % 64
    · have : g1 = g := by omega
      simp [hb, this]
    · have : g1 ≠ g := by
        intro h
        exact hb (by rw [h])
      simp [hb, this]
  · rw [if_neg hw]
    have : g1 ≠ g := by
      intro h
      exact hw (by rw [h])
    simp [this]

/-! ## The scan over the targets -/

theorem closest_scan_result (ops : FloatOps F) (s : State F) (p : Vector2 F) :
    ∀ (fuel j g0 : Nat) (d0 : F) (g : Nat) (d : F),
      closest_scan ops s p fuel j g0 d0 = .ok (g, d) →
      (g = g0 ∧ d = d0) ∨ (j ≤ g ∧ g < s.guy_count ∧ guy_is_picked s g = false
        ∧ d = guy_distance ops s p g ∧ ops.lt d (ops.lit 1 0) = true) := by
  intro fuel
  induction fuel with
  | zero =>
    intro j g0 d0 g d h
    unfold closest_scan at h
    split at h
    · cases h
    · injection h with h
      injection h with h1 h2
      exact Or.inl ⟨h1.symm, h2.symm⟩
  | succ n ih =>
    intro j g0 d0 g d h
    rw [closest_scan] at h
    split at h
    · rename_i hj
      split at h
      · split at h
        · rcases ih _ _ _ _ _ h with h1 | ⟨h1, h2⟩
          · exact Or.inl h1
          · exact Or.inr ⟨by omega, h2⟩
        · rename_i hp
          simp only at h
          split at h
          · rename_i hlt
            rcases ih _ _ _ _ _ h with ⟨h1, h2⟩ | ⟨h1, h2⟩
            · subst h1 h2
              simp only [Bool.and_eq_true] at hlt
              exact Or.inr ⟨le_refl _, hj, by simpa using hp, rfl, hlt.2⟩
            · exact Or.inr ⟨by omega, h2⟩
          · rcases ih _ _ _ _ _ h with h1 | ⟨h1, h2⟩
            · exact Or.inl h1
            · exact Or.inr ⟨by omega, h2⟩
      · cases h
    · injection h with h
      injection h with h1 h2
      exact Or.inl ⟨h1.symm, h2.symm⟩

theorem closest_scan_total (ops : FloatOps F) (s : State F) (p : Vector2 F)
    (hcap : s.guy_count ≤ 64 * GUY_PICKED_WORDS) :
    ∀ (fuel j g0 : Nat) (d0 : F), s.guy_count - j ≤ fuel →
      ∃ r, closest_scan ops s p fuel j g0 d0 = .ok r := by
  intro fuel
  induction fuel with
  | zero =>
    intro j g0 d0 hf
    exact ⟨_, by rw [closest_scan, if_neg (by omega)]⟩
  | succ n ih =>
    intro j g0 d0 hf
    rw [closest_scan]
    split
    · rw [if_pos (by omega)]
      split
      · exact ih _ _ _ (by omega)
      · simp only
        split
        · exact ih _ _ _ (by omega)
        · exact ih _ _ _ (by omega)
    · exact ⟨_, rfl⟩

theorem closest_scan_fault (ops : FloatOps F) (s : State F) (p : Vector2 F) :
    ∀ (fuel j g0 : Nat) (d0 : F) (e : Fault), s.guy_count - j ≤ fuel →
      closest_scan ops s p fuel j g0 d0 = .error e → e = .guy_picked_index := by
  intro fuel
  induction fuel with
  | zero =>
    intro j g0 d0 e hf h
    rw [closest_scan, if_neg (by omega)] at h
    cases h
  | succ n ih =>
    intro j g0 d0 e hf h
    rw [closest_scan] at h
    split at h
    · split at h
      · split at h
        · exact ih _ _ _ _ (by omega) h
        · simp only at h
          split at h
          · exact ih _ _ _ _ (by omega) h
          · exact ih _ _ _ _ (by omega) h
      · injection h with h
        exact h.symm
    · cases h

/-- Once the target count exceeds the 64 * (MAX_GUYS / 64) bits of `guy_picked`, the scan
over the targets reads a word outside the array. -/
theorem closest_scan_overflow (ops : FloatOps F) (s : State F) (p : Vector2 F)
    (hcap : 64 * GUY_PICKED_WORDS < s.guy_count) :
    ∀ (fuel j g0 : Nat) (d0 : F), j ≤ 64 * GUY_PICKED_WORDS → s.guy_count - j ≤ fuel →
      closest_scan ops s p fuel j g0 d0 = .error .guy_picked_index := by
  intro fuel
  induction fuel with
  | zero =>
    intro j g0 d0 hj hf
    omega
  | succ n ih =>
    intro j g0 d0 hj hf
    rw [closest_scan, if_pos (by omega)]
    by_cases hw : j / 64 < GUY_PICKED_WORDS
    · rw [if_pos hw]
      have hj1 : j + 1 ≤ 64 * GUY_PICKED_WORDS := by omega
      split
      · exact ih _ _ _ hj1 (by omega)
      · simp only
        split
        · exact ih _ _ _ hj1 (by omega)
        · exact ih _ _ _ hj1 (by omega)
    · rw [if_neg hw]

/-! ## The target assignment of one satellite -/

theorem assign_target_spec [DecidableEq F] {ops : FloatOps F} {i : Nat} {s s1 : State F}
    (h : assign_target ops i s = .ok s1) :
    i < s.satellite_count ∧ same_targets s s1 ∧ same_explosions s s1
      ∧ s1.satellite_positions = s.satellite_positions
      ∧ s1.satellite_velocities = s.satellite_velocities
      ∧ s1.satellite_count = s.satellite_count
      ∧ (∀ k, k ≠ i → s1.satellite_to_guy k = s.satellite_to_guy k)
      ∧ ((s1.satellite_to_guy i = -1 ∧ same_picked s s1)
        ∨ (∃ g : Nat, g < s.guy_count ∧ guy_is_picked s g = false
            ∧ s1.satellite_to_guy i = (g : Int)
            ∧ (∀ g1, guy_is_picked s1 g1 = (decide (g1 = g) || guy_is_picked s g1))
            ∧ s1.guy_picked_count = s.guy_picked_count + 1)) := by
  unfold assign_target at h
  split at h
  · rename_i hi
    split at h
    · rename_i g d hscan
      unfold store_assignment at h
      rw [if_pos hi] at h
      split at h
      · injection h with h
        subst h
        refine ⟨hi, same_targets_refl s, same_explosions_refl s, rfl, rfl, rfl, ?_, Or.inl ?_⟩
        · intro k hk
          simp [set_at, hk]
        · exact ⟨by simp, same_picked_refl s⟩
      · rename_i hd
        split at h
        · injection h with h
          rcases closest_scan_result ops s _ _ _ _ _ _ _ hscan with ⟨-, h2⟩ | ⟨-, hg, hp, -, -⟩
          · exact absurd h2 hd
          · refine ⟨hi, ?_, ?_, ?_, ?_, ?_, ?_, Or.inr ⟨g, hg, hp, ?_, ?_, ?_⟩⟩
            · subst h; exact same_targets_refl s
            · subst h; exact same_explosions_refl s
            · subst h; rfl
            · subst h; rfl
            · subst h; rfl
            · intro k hk
              subst h
              simp [set_at, hk]
            · subst h; simp
            · intro g1
              exact guy_is_picked_after_claim s g g1 s1 (by subst h; rfl)
            · subst h; rfl
        · cases h
    · cases h
  · cases h

theorem assign_target_total [DecidableEq F] (ops : FloatOps F) {i : Nat} {s : State F}
    (hi : i < s.satellite_count) (hcap : s.guy_count ≤ 64 * GUY_PICKED_WORDS) :
    ∃ s1, assign_target ops i s = .ok s1 := by
  unfold assign_target
  rw [if_pos hi]
  obtain ⟨⟨g, d⟩, hr⟩ := closest_scan_total ops s (s.satellite_positions i) hcap
    s.guy_count 0 0 ops.infinity (by omega)
  rw [hr]
  simp only
  unfold store_assignment
  rw [if_pos hi]
  split
  · exact ⟨_, rfl⟩
  · rename_i hd
    rcases closest_scan_result ops s _ _ _ _ _ _ _ hr with ⟨-, h2⟩ | ⟨-, hg, -, -, -⟩
    · exact absurd h2 hd
    · rw [if_pos (by omega)]
      exact ⟨_, rfl⟩

theorem assign_target_fault [DecidableEq F] (ops : FloatOps F) {i : Nat} {s : State F}
    {e : Fault} (hi : i < s.satellite_count) (h : assign_target ops i s = .error e) :
    e = .guy_picked_index := by
  unfold assign_target at h
  rw [if_pos hi] at h
  split at h
  · unfold store_assignment at h
    rw [if_pos hi] at h
    split at h
    · cases h
    · split at h
      · cases h
      · injection h with h
        exact h.symm
  · rename_i e1 hscan
    injection h with h
    subst h
    exact closest_scan_fault ops s _ _ _ _ _ _ (by omega) hscan

/-- With more targets than `guy_picked` has bits, the assignment of any live satellite reads
`guy_picked` out of bounds. -/
theorem assign_target_overflow [DecidableEq F] (ops : FloatOps F) {i : Nat} {s : State F}
    (hi : i < s.satellite_count) (hcap : 64 * GUY_PICKED_WORDS < s.guy_count) :
    assign_target ops i s = .error .guy_picked_index := by
  unfold assign_target
  rw [if_pos hi, closest_scan_overflow ops s _ hcap _ _ _ _ (Nat.zero_le _) (by omega)]

/-! ## The loop over the satellites -/

/-- What one run of the inner collision loop of satellite `i`, started as the tick loop starts
it, is known to return. -/
theorem collision_scan_start (ops : FloatOps F) (ticks : Int) {i : Nat} {s : State F}
    (hi : i < s.satellite_count) :
    ∃ s1 a1, collision_scan ops ticks i (s.satellite_count - (i + 1)) (i + 1) true s = .ok (s1, a1)
      ∧ i < s1.satellite_count ∧ s1.satellite_count ≤ s.satellite_count
      ∧ (a1 = true → s1.satellite_count = s.satellite_count)
      ∧ (∀ k, k ≤ i → satellite_record s1 k = satellite_record s k) := by
  obtain ⟨s1, h1, hcount, hlow, -, -⟩ :=
    collision_scan_satellites ops ticks i (s.satellite_count - (i + 1)) (i + 1) true s
      (by omega) (by omega) rfl
  have hle : (satellites_from s (i + 1)).countP (record_collides ops (s.satellite_positions i))
      ≤ s.satellite_count - (i + 1) := by
    have := List.countP_le_length (record_collides ops (s.satellite_positions i))
      (l := satellites_from s (i + 1))
    simpa [satellites_from] using this
  refine ⟨s1, _, h1, by omega, by omega, ?_, fun k hk => hlow k (by omega)⟩
  intro ha
  simp only [Bool.true_and, beq_iff_eq] at ha
  omega

/-- An invariant of the loop over the satellites: a property of the loop index and the state
that both branches of the loop body keep holds when the loop returns. -/
theorem satellite_loop_invariant [DecidableEq F] (ops : FloatOps F) (ticks : Int)
    (Inv : Nat → State F → Prop)
    (h_alive : ∀ i s s1 s2 s3, Inv i s → physics_step ops i s = .ok s1 →
      collision_scan ops ticks i (s1.satellite_count - (i + 1)) (i + 1) true s1 = .ok (s2, true) →
      assign_target ops i s2 = .ok s3 → Inv (i + 1) s3)
    (h_dead : ∀ i s s1 s2 s3, Inv i s → physics_step ops i s = .ok s1 →
      collision_scan ops ticks i (s1.satellite_count - (i + 1)) (i + 1) true s1 = .ok (s2, false) →
      delete_satellite i s2 = .ok s3 → Inv i s3) :
    ∀ (fuel i : Nat) (s s1 : State F), Inv i s → satellite_loop ops ticks fuel i s = .ok s1 →
      ∃ i1, Inv i1 s1 ∧ s1.satellite_count ≤ i1 := by
  intro fuel
  induction fuel with
  | zero =>
    intro i s s1 hinv h
    unfold satellite_loop at h
    split at h
    · cases h
    · injection h with h
      subst h
      exact ⟨i, hinv, by omega⟩
  | succ n ih =>
    intro i s s1 hinv h
    rw [satellite_loop] at h
    split at h
    · split at h
      · rename_i sa hsa
        split at h
        · rename_i sb alive hsb
          split at h
          · rename_i halive
            subst halive
            split at h
            · rename_i sc hsc
              exact ih _ _ _ (h_alive _ _ _ _ _ hinv hsa hsb hsc) h
            · cases h
          · rename_i halive
            have : alive = false := by simpa using halive
            subst this
            split at h
            · rename_i sc hsc
              exact ih _ _ _ (h_dead _ _ _ _ _ hinv hsa hsb hsc) h
            · cases h
        · cases h
      · cases h
    · injection h with h
      subst h
      exact ⟨i, hinv, by omega⟩

theorem delete_satellite_to_guy {i : Nat} {s s1 : State F} (h : delete_satellite i s = .ok s1) :
    ∀ k, ∃ m, s1.satellite_to_guy k = s.satellite_to_guy m := by
  unfold delete_satellite at h
  split at h
  · injection h with h
    subst h
    intro k
    by_cases hk : k = i
    · exact ⟨s.satellite_count - 1, by simp [set_at, hk]⟩
    · exact ⟨k, by simp [set_at, hk]⟩
  · cases h

theorem collision_scan_to_guy (ops : FloatOps F) (ticks : Int) (i : Nat) :
    ∀ (fuel j : Nat) (alive : Bool) (s s1 : State F) (a1 : Bool),
      collision_scan ops ticks i fuel j alive s = .ok (s1, a1) →
      ∀ k, ∃ m, s1.satellite_to_guy k = s.satellite_to_guy m := by
  intro fuel
  induction fuel with
  | zero =>
    intro j alive s s1 a1 h
    unfold collision_scan at h
    split at h
    · cases h
    · injection h with h
      injection h with h h'
      subst h
      exact fun k => ⟨k, rfl⟩
  | succ n ih =>
    intro j alive s s1 a1 h
    rw [collision_scan] at h
    split at h
    · split at h
      · split at h
        · split at h
          · rename_i s2 hs2
            intro k
            obtain ⟨m, hm⟩ := ih _ _ _ _ _ h k
            obtain ⟨m1, hm1⟩ := delete_satellite_to_guy hs2 m
            have := (spawn_explosion_frame ticks (s.satellite_positions i) s).2.2.2.2.2.1
            exact ⟨m1, by rw [hm, hm1, this]⟩
          · cases h
        · exact ih _ _ _ _ _ h
      · cases h
    · injection h with h
      injection h with h h'
      subst h
      exact fun k => ⟨k, rfl⟩

theorem collision_scan_explosion_count (ops : FloatOps F) (ticks : Int) {i : Nat} {s s1 : State F}
    {a1 : Bool} (hi : i < s.satellite_count)
    (h : collision_scan ops ticks i (s.satellite_count - (i + 1)) (i + 1) true s = .ok (s1, a1)) :
    s.explosion_count ≤ s1.explosion_count
      ∧ (s.explosion_count ≤ MAX_EXPLOSIONS → s1.explosion_count ≤ MAX_EXPLOSIONS) := by
  obtain ⟨s2, h2, -, -, -, hexp⟩ :=
    collision_scan_satellites ops ticks i (s.satellite_count - (i + 1)) (i + 1) true s
      (by omega) (by omega) rfl
  rw [h] at h2
  injection h2 with h2
  injection h2 with h2 h3
  subst h2
  rw [hexp]
  simp only [MAX_EXPLOSIONS, Nat.max_def, Nat.min_def]
  constructor
  · split_ifs <;> omega
  · intro _
    split_ifs <;> omega

/-- The loop over the satellites either returns or reads `guy_picked` out of bounds, and the
latter only with more targets than `guy_picked` has bits: it makes no access outside the live
satellites and does not run out of fuel. -/
theorem satellite_loop_cases [DecidableEq F] (ops : FloatOps F) (ticks : Int) :
    ∀ (fuel i : Nat) (s : State F), s.satellite_count - i ≤ fuel →
      (∃ s1, satellite_loop ops ticks fuel i s = .ok s1)
      ∨ (satellite_loop ops ticks fuel i s = .error .guy_picked_index
          ∧ 64 * GUY_PICKED_WORDS < s.guy_count) := by
  intro fuel
  induction fuel with
  | zero =>
    intro i s hf
    exact Or.inl ⟨s, by rw [satellite_loop, if_neg (by omega)]⟩
  | succ n ih =>
    intro i s hf
    rw [satellite_loop]
    split
    · rename_i hi
      obtain ⟨sa, hsa⟩ := physics_step_ok ops hi
      obtain ⟨ta, -, -, hca, -, -, -⟩ := physics_step_frame hsa
      rw [hsa]
      simp only
      obtain ⟨sb, alive, hsb, hib, hcb, hab, -⟩ :=
        collision_scan_start ops ticks (i := i) (s := sa) (by omega)
      obtain ⟨tb, -, -⟩ := collision_scan_frame ops ticks i _ _ _ _ _ _ hsb
      rw [hsb]
      simp only
      cases alive with
      | true =>
        simp only [if_true]
        by_cases hcap : sb.guy_count ≤ 64 * GUY_PICKED_WORDS
        · obtain ⟨sc, hsc⟩ := assign_target_total ops hib hcap
          obtain ⟨-, tc, -, -, -, hcc, -, -⟩ := assign_target_spec hsc
          rw [hsc]
          simp only
          rcases ih (i + 1) sc (by have := hab rfl; omega) with h | ⟨h, hg⟩
          · exact Or.inl h
          · exact Or.inr ⟨h, by rw [tc.2.2.2.1, tb.2.2.2.1, ta.2.2.2.1] at hg; exact hg⟩
        · rw [assign_target_overflow ops hib (by omega)]
          exact Or.inr ⟨rfl, by rw [tb.2.2.2.1, ta.2.2.2.1] at hcap; omega⟩
      | false =>
        simp only [Bool.false_eq_true, if_false]
        obtain ⟨sc, hsc⟩ : ∃ sc, delete_satellite i sb = .ok sc := ⟨_, delete_satellite_ok hib⟩
        obtain ⟨-, hcc, -⟩ := delete_satellite_record hsc
        obtain ⟨tc, -, -⟩ := delete_satellite_frame hsc
        rw [hsc]
        simp only
        rcases ih i sc (by omega) with h | ⟨h, hg⟩
        · exact Or.inl h
        · exact Or.inr ⟨h, by rw [tc.2.2.2.1, tb.2.2.2.1, ta.2.2.2.1] at hg; exact hg⟩
    · exact Or.inl ⟨s, rfl⟩

theorem same_satellites_refl (s : State F) : same_satellites s s := ⟨rfl, rfl, rfl, rfl⟩

theorem same_satellites_trans {s s1 s2 : State F} (h1 : same_satellites s s1)
    (h2 : same_satellites s1 s2) : same_satellites s s2 :=
  ⟨h2.1.trans h1.1, h2.2.1.trans h1.2.1, h2.2.2.1.trans h1.2.2.1, h2.2.2.2.trans h1.2.2.2⟩

/-- What the loop over the satellites leaves unchanged, and the bounds it keeps. -/
theorem satellite_loop_frame [DecidableEq F] (ops : FloatOps F) (ticks : Int) {fuel i : Nat}
    {s s1 : State F} (h : satellite_loop ops ticks fuel i s = .ok s1) :
    same_targets s s1 ∧ s1.satellite_count ≤ s.satellite_count
      ∧ (s.explosion_count ≤ MAX_EXPLOSIONS → s1.explosion_count ≤ MAX_EXPLOSIONS)
      ∧ s1.explosion_frame = s.explosion_frame := by
  obtain ⟨i1, hinv, -⟩ := satellite_loop_invariant ops ticks
    (fun _ t => same_targets s t ∧ t.satellite_count ≤ s.satellite_count
      ∧ (s.explosion_count ≤ MAX_EXPLOSIONS → t.explosion_count ≤ MAX_EXPLOSIONS)
      ∧ t.explosion_frame = s.explosion_frame)
    (by
      intro i t t1 t2 t3 ⟨ht, hc, he, hf⟩ h1 h2 h3
      obtain ⟨ta, -, ea, ca, -, hi, -⟩ := physics_step_frame h1
      obtain ⟨tb, -, fb⟩ := collision_scan_frame ops ticks i _ _ _ _ _ _ h2
      obtain ⟨sb, ab, hb, -, hcb, -, -⟩ := collision_scan_start ops ticks (i := i) (s := t1)
        (by omega)
      rw [h2] at hb
      injection hb with hb
      injection hb with hb1 hb2
      subst hb1
      obtain ⟨-, heb⟩ := collision_scan_explosion_count ops ticks (by omega) h2
      obtain ⟨-, tc, ec, -, -, cc, -, -⟩ := assign_target_spec h3
      refine ⟨same_targets_trans ht (same_targets_trans ta (same_targets_trans tb tc)),
        by omega, ?_, ?_⟩
      · intro h0
        rw [ec.2.2.2]
        exact heb (by rw [ea.2.2.2]; exact he h0)
      · rw [ec.2.2.1, fb, ea.2.2.1, hf])
    (by
      intro i t t1 t2 t3 ⟨ht, hc, he, hf⟩ h1 h2 h3
      obtain ⟨ta, -, ea, ca, -, hi, -⟩ := physics_step_frame h1
      obtain ⟨tb, -, fb⟩ := collision_scan_frame ops ticks i _ _ _ _ _ _ h2
      obtain ⟨sb, ab, hb, -, hcb, -, -⟩ := collision_scan_start ops ticks (i := i) (s := t1)
        (by omega)
      rw [h2] at hb
      injection hb with hb
      injection hb with hb1 hb2
      subst hb1
      obtain ⟨-, heb⟩ := collision_scan_explosion_count ops ticks (by omega) h2
      obtain ⟨tc, -, ec⟩ := delete_satellite_frame h3
      obtain ⟨-, cc, -⟩ := delete_satellite_record h3
      refine ⟨same_targets_trans ht (same_targets_trans ta (same_targets_trans tb tc)),
        by omega, ?_, ?_⟩
      · intro h0
        rw [ec.2.2.2]
        exact heb (by rw [ea.2.2.2]; exact he h0)
      · rw [ec.2.2.1, fb, ea.2.2.1, hf])
    fuel i s s1 ⟨same_targets_refl s, le_refl _, fun h => h, rfl⟩ h
  exact hinv

/-- The loop over the satellites keeps every slot of `satellite_to_guy` none or a target
index. -/
theorem satellite_loop_valid [DecidableEq F] (ops : FloatOps F) (ticks : Int) {fuel i : Nat}
    {s s1 : State F} (h : satellite_loop ops ticks fuel i s = .ok s1)
    (hv : assignments_valid s) : assignments_valid s1 := by
  obtain ⟨i1, hinv, -⟩ := satellite_loop_invariant ops ticks (fun _ t => assignments_valid t)
    (by
      intro i t t1 t2 t3 hv h1 h2 h3
      obtain ⟨ta, -, -, -, ga, -, -⟩ := physics_step_frame h1
      obtain ⟨tb, -, -⟩ := collision_scan_frame ops ticks i _ _ _ _ _ _ h2
      have gb := collision_scan_to_guy ops ticks i _ _ _ _ _ _ h2
      obtain ⟨-, tc, -, -, -, -, hother, hslot⟩ := assign_target_spec h3
      have hg : t3.guy_count = t.guy_count := by rw [tc.2.2.2.1, tb.2.2.2.1, ta.2.2.2.1]
      intro k
      rw [hg]
      by_cases hk : k = i
      · subst hk
        rcases hslot with ⟨h4, -⟩ | ⟨g, hg1, -, h4, -, -⟩
        · exact Or.inl h4
        · right
          rw [h4]
          rw [tb.2.2.2.1, ta.2.2.2.1] at hg1
          omega
      · rw [hother k hk]
        obtain ⟨m, hm⟩ := gb k
        rw [hm, ga]
        exact hv m)
    (by
      intro i t t1 t2 t3 hv h1 h2 h3
      obtain ⟨ta, -, -, -, ga, -, -⟩ := physics_step_frame h1
      obtain ⟨tb, -, -⟩ := collision_scan_frame ops ticks i _ _ _ _ _ _ h2
      have gb := collision_scan_to_guy ops ticks i _ _ _ _ _ _ h2
      obtain ⟨tc, -, -⟩ := delete_satellite_frame h3
      have gc := delete_satellite_to_guy h3
      have hg : t3.guy_count = t.guy_count := by rw [tc.2.2.2.1, tb.2.2.2.1, ta.2.2.2.1]
      intro k
      rw [hg]
      obtain ⟨m, hm⟩ := gc k
      obtain ⟨m1, hm1⟩ := gb m
      rw [hm, hm1, ga]
      exact hv m1)
    fuel i s s1 hv h
  exact hinv

/-- The loop over the satellites, started at index 0 with a cleared marker, leaves no two
live satellites with the same target index. -/
theorem satellite_loop_exclusive [DecidableEq F] (ops : FloatOps F) (ticks : Int) {fuel : Nat}
    {s s1 : State F} (h : satellite_loop ops ticks fuel 0 s = .ok s1) :
    claims_exclusive s1 s1.satellite_count := by
  obtain ⟨i1, ⟨hpicked, hexcl⟩, hle⟩ := satellite_loop_invariant ops ticks
    (fun i t => (∀ k, k < i → t.satellite_to_guy k = -1
        ∨ ∃ g : Nat, t.satellite_to_guy k = (g : Int) ∧ guy_is_picked t g = true)
      ∧ claims_exclusive t i)
    (by
      intro i t t1 t2 t3 ⟨hp, hx⟩ h1 h2 h3
      obtain ⟨-, pa, -, ca, ga, hi, -⟩ := physics_step_frame h1
      obtain ⟨-, pb, -⟩ := collision_scan_frame ops ticks i _ _ _ _ _ _ h2
      obtain ⟨sb, ab, hb, -, -, -, hlow⟩ := collision_scan_start ops ticks (i := i) (s := t1)
        (by omega)
      rw [h2] at hb
      injection hb with hb
      injection hb with hb1 hb2
      subst hb1
      obtain ⟨-, -, -, -, -, -, hother, hslot⟩ := assign_target_spec h3
      have hold : ∀ k, k < i → t2.satellite_to_guy k = t.satellite_to_guy k := by
        intro k hk
        have := congrArg (fun r => r.2.2) (hlow k (by omega))
        simp only [satellite_record] at this
        rw [this, ga]
      have hpk : ∀ g, guy_is_picked t2 g = guy_is_picked t g := by
        intro g
        unfold guy_is_picked
        rw [pb.1, pa.1]
      have hp3 : ∀ k, k < i → t3.satellite_to_guy k = -1
          ∨ ∃ g : Nat, t3.satellite_to_guy k = (g : Int) ∧ guy_is_picked t2 g = true := by
        intro k hk
        rw [hother k (by omega), hold k hk]
        rcases hp k hk with h4 | ⟨g, h4, h5⟩
        · exact Or.inl h4
        · exact Or.inr ⟨g, h4, by rw [hpk]; exact h5⟩
      have hnew : ∀ k, k < i → t3.satellite_to_guy k = t3.satellite_to_guy i →
          t3.satellite_to_guy k = -1 := by
        intro k hk heq
        rcases hp3 k hk with h4 | ⟨g, h4, h5⟩
        · exact h4
        · rcases hslot with ⟨h6, -⟩ | ⟨g1, -, h7, h6, -, -⟩
          · rw [heq, h6]
          · exfalso
            rw [h4, h6] at heq
            have : g = g1 := by exact_mod_cast heq
            subst this
            rw [h5] at h7
            cases h7
      constructor
      · intro k hk
        by_cases hki : k = i
        · subst hki
          rcases hslot with ⟨h6, -⟩ | ⟨g1, -, -, h6, h8, -⟩
          · exact Or.inl h6
          · exact Or.inr ⟨g1, h6, by rw [h8]; simp⟩
        · rcases hp3 k (by omega) with h4 | ⟨g, h4, h5⟩
          · exact Or.inl h4
          · right
            refine ⟨g, h4, ?_⟩
            rcases hslot with ⟨-, h6⟩ | ⟨g1, -, -, -, h8, -⟩
            · unfold guy_is_picked at h5 ⊢
              rw [h6.1]
              exact h5
            · rw [h8, h5]
              simp
      · intro a b ha hb hab heq
        by_cases hai : a = i
        · subst hai
          have hb1 : b < a := by omega
          have := hnew b hb1 heq.symm
          rw [heq]
          exact this
        · by_cases hbi : b = i
          · subst hbi
            exact hnew a (by omega) heq
          · have ha1 : a < i := by omega
            have hb1 : b < i := by omega
            rw [hother a hai, hold a ha1] at heq ⊢
            rw [hother b hbi, hold b hb1] at heq
            exact hx a b ha1 hb1 hab heq)
    (by
      intro i t t1 t2 t3 ⟨hp, hx⟩ h1 h2 h3
      obtain ⟨-, pa, -, ca, ga, hi, -⟩ := physics_step_frame h1
      obtain ⟨-, pb, -⟩ := collision_scan_frame ops ticks i _ _ _ _ _ _ h2
      obtain ⟨sb, ab, hb, -, -, -, hlow⟩ := collision_scan_start ops ticks (i := i) (s := t1)
        (by omega)
      rw [h2] at hb
      injection hb with hb
      injection hb with hb1 hb2
      subst hb1
      obtain ⟨-, pc, -⟩ := delete_satellite_frame h3
      obtain ⟨hrec, -, -⟩ := delete_satellite_record h3
      have hold : ∀ k, k < i → t3.satellite_to_guy k = t.satellite_to_guy k := by
        intro k hk
        have h5 := congrArg (fun r => r.2.2) (congrFun hrec k)
        rw [set_at_other _ _ (by omega)] at h5
        have h6 := congrArg (fun r => r.2.2) (hlow k (by omega))
        simp only [satellite_record] at h5 h6
        rw [h5, h6, ga]
      have hpk : ∀ g, guy_is_picked t3 g = guy_is_picked t g := by
        intro g
        unfold guy_is_picked
        rw [pc.1, pb.1, pa.1]
      constructor
      · intro k hk
        rw [hold k hk]
        rcases hp k hk with h4 | ⟨g, h4, h5⟩
        · exact Or.inl h4
        · exact Or.inr ⟨g, h4, by rw [hpk]; exact h5⟩
      · intro a b ha hb hab heq
        rw [hold a ha] at heq ⊢
        rw [hold b hb] at heq
        exact hx a b ha hb hab heq)
    fuel 0 s s1 ⟨fun k hk => absurd hk (Nat.not_lt_zero k), fun a b ha => absurd ha (Nat.not_lt_zero a)⟩ h
  intro a b ha hb
  exact hexcl a b (by omega) (by omega)

/-! ## Explosion aging, the target spawner and the whole step -/

theorem delete_explosion_frame {i : Nat} {s s1 : State F} (h : delete_explosion i s = .ok s1) :
    same_targets s s1 ∧ same_picked s s1 ∧ same_satellites s s1
      ∧ s1.explosion_count = s.explosion_count - 1 ∧ i < s.explosion_count := by
  unfold delete_explosion at h
  split at h
  · injection h with h
    subst h
    exact ⟨same_targets_refl s, same_picked_refl s, same_satellites_refl s, rfl, by assumption⟩
  · cases h

/-- The loop over the explosions returns: it makes no access outside the live explosions
and does not run out of fuel. -/
theorem age_explosions_total (ticks : Int) :
    ∀ (fuel i : Nat) (s : State F), s.explosion_count - i ≤ fuel →
      ∃ s1, age_explosions ticks fuel i s = .ok s1 := by
  intro fuel
  induction fuel with
  | zero =>
    intro i s hf
    exact ⟨s, by rw [age_explosions, if_neg (by omega)]⟩
  | succ n ih =>
    intro i s hf
    rw [age_explosions]
    split
    · rename_i hi
      split
      · have hd : delete_explosion i s = .ok { s with
            explosion_positions :=
              set_at s.explosion_positions i (s.explosion_positions (s.explosion_count - 1))
            explosion_end_ticks :=
              set_at s.explosion_end_ticks i (s.explosion_end_ticks (s.explosion_count - 1))
            explosion_count := s.explosion_count - 1 } := by
          simp [delete_explosion, hi]
        rw [hd]
        exact ih _ _ (by simp only; omega)
      · split
        · exact ih _ _ (by simp only; omega)
        · exact ih _ _ (by omega)
    · exact ⟨s, rfl⟩

theorem age_explosions_frame (ticks : Int) :
    ∀ (fuel i : Nat) (s s1 : State F), age_explosions ticks fuel i s = .ok s1 →
      same_targets s s1 ∧ same_picked s s1 ∧ same_satellites s s1
        ∧ s1.explosion_count ≤ s.explosion_count := by
  intro fuel
  induction fuel with
  | zero =>
    intro i s s1 h
    unfold age_explosions at h
    split at h
    · cases h
    · injection h with h
      subst h
      exact ⟨same_targets_refl s, same_picked_refl s, same_satellites_refl s, le_refl _⟩
  | succ n ih =>
    intro i s s1 h
    rw [age_explosions] at h
    split at h
    · split at h
      · split at h
        · rename_i s2 hs2
          obtain ⟨t1, p1, q1, c1, -⟩ := delete_explosion_frame hs2
          obtain ⟨t2, p2, q2, c2⟩ := ih _ _ _ h
          exact ⟨same_targets_trans t1 t2, same_picked_trans p1 p2, same_satellites_trans q1 q2,
            by omega⟩
        · cases h
      · split at h
        · obtain ⟨t2, p2, q2, c2⟩ := ih _ _ _ h
          exact ⟨t2, p2, q2, c2⟩
        · exact ih _ _ _ h
    · injection h with h
      subst h
      exact ⟨same_targets_refl s, same_picked_refl s, same_satellites_refl s, le_refl _⟩

theorem spawn_guy_frame (ops : FloatOps F) (ticks r1 r2 : Int) (s : State F) :
    same_satellites s (spawn_guy ops ticks r1 r2 s) ∧ same_explosions s (spawn_guy ops ticks r1 r2 s)
      ∧ same_picked s (spawn_guy ops ticks r1 r2 s)
      ∧ (spawn_guy ops ticks r1 r2 s).score = s.score
      ∧ s.guy_count ≤ (spawn_guy ops ticks r1 r2 s).guy_count
      ∧ (spawn_guy ops ticks r1 r2 s).guy_count ≤ s.guy_count + 1
      ∧ (s.guy_count ≤ MAX_GUYS → (spawn_guy ops ticks r1 r2 s).guy_count ≤ MAX_GUYS) := by
  unfold spawn_guy
  split
  · rename_i h
    exact ⟨same_satellites_refl s, same_explosions_refl s, same_picked_refl s, rfl,
      Nat.le_succ _, le_refl _, fun _ => h.2⟩
  · exact ⟨same_satellites_refl s, same_explosions_refl s, same_picked_refl s, rfl,
      le_refl _, Nat.le_succ _, fun h => h⟩

/-- A step either returns or reads `guy_picked` out of bounds, the latter only with more
targets than `guy_picked` has bits. -/
theorem tick_cases [DecidableEq F] (ops : FloatOps F) (ticks current_ticks r1 r2 : Int)
    (s : State F) :
    (∃ s1, tick ops ticks current_ticks r1 r2 s = .ok s1)
      ∨ (tick ops ticks current_ticks r1 r2 s = .error .guy_picked_index
          ∧ 64 * GUY_PICKED_WORDS < s.guy_count) := by
  unfold tick
  simp only
  rcases satellite_loop_cases ops ticks (begin_tick ops s).satellite_count 0 (begin_tick ops s)
    (by omega) with ⟨s1, h1⟩ | ⟨h1, hg⟩
  · rw [h1]
    simp only
    obtain ⟨s3, h3⟩ := age_explosions_total ticks (update_score s1).explosion_count 0
      (update_score s1) (by omega)
    rw [h3]
    exact Or.inl ⟨_, rfl⟩
  · rw [h1]
    exact Or.inr ⟨rfl, hg⟩

/-- What a step that returns has done to the bounds of the stores and to the assigned
indices. -/
theorem tick_keeps [DecidableEq F] (ops : FloatOps F) {ticks current_ticks r1 r2 : Int}
    {s s1 : State F} (h : tick ops ticks current_ticks r1 r2 s = .ok s1) :
    (within_capacity s → within_capacity s1) ∧ (assignments_valid s → assignments_valid s1)
      ∧ claims_exclusive s1 s1.satellite_count ∧ s.guy_count ≤ s1.guy_count := by
  unfold tick at h
  simp only at h
  split at h
  · rename_i sa hsa
    split at h
    · rename_i sb hsb
      injection h with h
      obtain ⟨ta, ca, ea, -⟩ := satellite_loop_frame ops ticks hsa
      obtain ⟨tb, -, qb, cb⟩ := age_explosions_frame ticks _ _ _ _ hsb
      obtain ⟨qc, ec, -, -, gc1, -, gc2⟩ := spawn_guy_frame ops ticks r1 r2 sb
      have hx := satellite_loop_exclusive ops ticks hsa
      have hga : sa.guy_count = s.guy_count := ta.2.2.2.1
      have hgb : sb.guy_count = sa.guy_count := tb.2.2.2.1
      have htg : s1.satellite_to_guy = sa.satellite_to_guy := by
        subst h
        exact qc.2.2.1.trans qb.2.2.1
      have hcnt : s1.satellite_count = sa.satellite_count := by
        subst h
        exact qc.2.2.2.trans qb.2.2.2
      have hg1 : s1.guy_count = (spawn_guy ops ticks r1 r2 sb).guy_count := by
        subst h
        rfl
      have he1 : s1.explosion_count = sb.explosion_count := by
        subst h
        exact ec.2.2.2
      refine ⟨?_, ?_, ?_, ?_⟩
      · rintro ⟨w1, w2, w3⟩
        refine ⟨?_, ?_, ?_⟩
        · rw [hcnt]
          exact le_trans ca w1
        · rw [hg1]
          exact gc2 (by rw [hgb, hga]; exact w2)
        · rw [he1]
          exact le_trans cb (ea w3)
      · intro hv
        have hva : assignments_valid sa := satellite_loop_valid ops ticks hsa hv
        intro k
        rw [htg, hg1]
        rcases hva k with h4 | ⟨h4, h5⟩
        · exact Or.inl h4
        · right
          rw [hga] at h5
          rw [hgb, hga] at gc1
          exact ⟨h4, by omega⟩
      · intro a b ha hb hab heq
        rw [htg] at heq ⊢
        rw [hcnt] at ha hb
        exact hx a b ha hb hab heq
      · rw [hg1]
        rw [hgb, hga] at gc1
        exact gc1
    · cases h
  · cases h

/-! ## Invariants of the reachable states -/

theorem initial_within_capacity (ops : FloatOps F) (t0 : Int) :
    within_capacity (initial ops t0) := by
  simp [within_capacity, initial, MAX_SATELLITES, MAX_GUYS, MAX_EXPLOSIONS]

theorem deploy_within_capacity (p v : Vector2 F) {s : State F} (h : within_capacity s) :
    within_capacity (deploy p v s) := by
  unfold deploy
  split
  · exact ⟨by simp only; omega, h.2.1, h.2.2⟩
  · exact h

theorem reachable_within_capacity [DecidableEq F] (ops : FloatOps F) {s : State F}
    (h : Reachable ops s) : within_capacity s := by
  induction h with
  | init t0 => exact initial_within_capacity ops t0
  | deploy p v _ ih => exact deploy_within_capacity p v ih
  | tick ticks current_ticks r1 r2 _ ht ih => exact (tick_keeps ops ht).1 ih

/-- C7 (deploy capacity).  `deploy` stores the given position and velocity at index
`satellite_count` and increments `satellite_count` exactly when
`satellite_count < MAX_SATELLITES`; otherwise (in particular at
`satellite_count = MAX_SATELLITES`) it returns the state it was given.  In both cases the
records of the satellites that were live, the targets, the explosions, the claimed marker,
the score and the spawn interval are unchanged. -/
theorem deploy_capacity (position velocity : Vector2 F) (s : State F) :
    ((deploy position velocity s).satellite_count = s.satellite_count + 1
        ↔ s.satellite_count < MAX_SATELLITES)
      ∧ (s.satellite_count < MAX_SATELLITES →
          (deploy position velocity s).satellite_positions s.satellite_count = position
          ∧ (deploy position velocity s).satellite_velocities s.satellite_count = velocity)
      ∧ (¬ s.satellite_count < MAX_SATELLITES → deploy position velocity s = s)
      ∧ (∀ k, k < s.satellite_count →
          satellite_record (deploy position velocity s) k = satellite_record s k)
      ∧ same_targets s (deploy position velocity s)
      ∧ same_explosions s (deploy position velocity s)
      ∧ same_picked s (deploy position velocity s) := by
  unfold deploy
  split
  · rename_i h
    refine ⟨by simp [h], fun _ => by simp, fun h1 => absurd h h1, ?_, same_targets_refl s,
      same_explosions_refl s, same_picked_refl s⟩
    intro k hk
    have : k ≠ s.satellite_count := by omega
    simp [satellite_record, set_at, this]
  · rename_i h
    exact ⟨by simp [h], fun h1 => absurd h1 h, fun _ => rfl, fun _ _ => rfl,
      same_targets_refl s, same_explosions_refl s, same_picked_refl s⟩

/-! ## The collision resolver -/

/-- The inner collision loop of satellite `i` as the tick loop starts it: the result in terms
of the number of later satellites within the threshold of satellite `i`. -/
theorem collision_scan_hits (ops : FloatOps F) (ticks : Int) {i : Nat} {s : State F}
    (hi : i < s.satellite_count) :
    ∃ s1, collision_scan ops ticks i (s.satellite_count - (i + 1)) (i + 1) true s
        = .ok (s1, decide ((satellites_from s (i + 1)).countP
            (record_collides ops (s.satellite_positions i)) = 0))
      ∧ s1.satellite_count + (satellites_from s (i + 1)).countP
            (record_collides ops (s.satellite_positions i)) = s.satellite_count
      ∧ i < s1.satellite_count
      ∧ (∀ k, k ≤ i → satellite_record s1 k = satellite_record s k)
      ∧ (satellites_from s1 (i + 1)).Perm ((satellites_from s (i + 1)).filter
            (fun r => !record_collides ops (s.satellite_positions i) r))
      ∧ s1.explosion_count = Nat.max s.explosion_count (Nat.min MAX_EXPLOSIONS
          (s.explosion_count + (satellites_from s (i + 1)).countP
            (record_collides ops (s.satellite_positions i)))) := by
  obtain ⟨s1, h1, hcount, hlow, hperm, hexp⟩ :=
    collision_scan_satellites ops ticks i (s.satellite_count - (i + 1)) (i + 1) true s
      (by omega) (by omega) rfl
  have hle : (satellites_from s (i + 1)).countP (record_collides ops (s.satellite_positions i))
      ≤ s.satellite_count - (i + 1) := by
    have := List.countP_le_length (record_collides ops (s.satellite_positions i))
      (l := satellites_from s (i + 1))
    simpa [satellites_from] using this
  refine ⟨s1, ?_, hcount, by omega, fun k hk => hlow k (by omega), hperm, hexp⟩
  rw [h1]
  by_cases hz : (satellites_from s (i + 1)).countP
      (record_collides ops (s.satellite_positions i)) = 0
  · simp [hz]
  · simp [hz]

/-- Removing slot `i` after the scan: the slots from `i` on then hold what the slots from
`i + 1` on held, in some order. -/
theorem delete_satellite_from {i : Nat} {s s1 : State F} (h : delete_satellite i s = .ok s1) :
    (satellites_from s1 i).Perm (satellites_from s (i + 1))
      ∧ (∀ k, k < i → satellite_record s1 k = satellite_record s k) := by
  obtain ⟨hrec, hcnt, hi⟩ := delete_satellite_record h
  constructor
  · unfold satellites_from
    rw [hrec, hcnt, show s.satellite_count - 1 - i = s.satellite_count - (i + 1) by omega]
    have := window_swap_remove (satellite_record s) i (s.satellite_count - (i + 1))
    rwa [show i + (s.satellite_count - (i + 1)) = s.satellite_count - 1 by omega] at this
  · intro k hk
    rw [hrec, set_at_other _ _ (by omega)]

/-- C2 (collision symmetry), amended.  Whatever else the store holds: when the inner collision
loop of a live satellite `i` starts and a later live satellite `j` is within the threshold of
satellite `i`, the loop returns with `alive` cleared, the removal of satellite `i` that follows
succeeds, and afterwards the slots below `i` are untouched while the slots from `i` on hold
exactly the later satellites that were not within the threshold of satellite `i`, in some
order.  So neither satellite `i` nor satellite `j` is in the store any more.  The tick loop,
having made the physics step of satellite `i`, goes on with that store at the same index. -/
theorem collision_removes_both [DecidableEq F] (ops : FloatOps F) (ticks : Int) (s : State F)
    (i j : Nat) (hij : i < j) (hj : j < s.satellite_count)
    (hc : collides ops (s.satellite_positions i) (s.satellite_positions j) = true) :
    ∃ s1 s2, collision_scan ops ticks i (s.satellite_count - (i + 1)) (i + 1) true s
        = .ok (s1, false)
      ∧ delete_satellite i s1 = .ok s2
      ∧ (∀ k, k < i → satellite_record s2 k = satellite_record s k)
      ∧ (satellites_from s2 i).Perm ((satellites_from s (i + 1)).filter
            (fun r => !record_collides ops (s.satellite_positions i) r))
      ∧ s2.satellite_count + 2 ≤ s.satellite_count
      ∧ ∀ (s0 : State F) (fuel : Nat), physics_step ops i s0 = .ok s →
          satellite_loop ops ticks (fuel + 1) i s0 = satellite_loop ops ticks fuel i s2 := by
  obtain ⟨s1, h1, hcount, hi1, hlow, hperm, -⟩ :=
    collision_scan_hits ops ticks (i := i) (s := s) (by omega)
  have hmem : satellite_record s j ∈ satellites_from s (i + 1) :=
    mem_window.mpr ⟨j, by omega, by omega, rfl⟩
  have hpos : 0 < (satellites_from s (i + 1)).countP
      (record_collides ops (s.satellite_positions i)) :=
    List.countP_pos_iff.mpr ⟨_, hmem, hc⟩
  obtain ⟨s2, h2⟩ : ∃ s2, delete_satellite i s1 = .ok s2 := ⟨_, delete_satellite_ok hi1⟩
  obtain ⟨hfrom, hlow2⟩ := delete_satellite_from h2
  obtain ⟨-, hcnt2, -⟩ := delete_satellite_record h2
  have hscan : collision_scan ops ticks i (s.satellite_count - (i + 1)) (i + 1) true s
      = .ok (s1, false) := by
    rw [h1]
    have : ¬ (satellites_from s (i + 1)).countP
        (record_collides ops (s.satellite_positions i)) = 0 := by omega
    simp [this]
  refine ⟨s1, s2, hscan, h2, ?_, hfrom.trans hperm, by omega, ?_⟩
  · intro k hk
    rw [hlow2 k hk, hlow k (by omega)]
  · intro s0 fuel h0
    have hi0 : i < s0.satellite_count := (physics_step_frame h0).2.2.2.2.2.1
    rw [satellite_loop, if_pos hi0, h0]
    simp only
    rw [hscan]
    simp only [Bool.false_eq_true, if_false, h2]

/-- The amended collision symmetry at `chain3` for the satellites of slots 0 and 1. -/
theorem collision_removes_both_witness :
    0 < 1 ∧ 1 < chain3.satellite_count
      ∧ collides exact_ops (chain3.satellite_positions 0) (chain3.satellite_positions 1) = true
      ∧ ∃ s1 s2, collision_scan exact_ops 0 0 (chain3.satellite_count - (0 + 1)) (0 + 1) true chain3
          = .ok (s1, false)
        ∧ delete_satellite 0 s1 = .ok s2
        ∧ (∀ k, k < 0 → satellite_record s2 k = satellite_record chain3 k)
        ∧ (satellites_from s2 0).Perm ((satellites_from chain3 (0 + 1)).filter
              (fun r => !record_collides exact_ops (chain3.satellite_positions 0) r))
        ∧ s2.satellite_count + 2 ≤ chain3.satellite_count
        ∧ ∀ (s0 : State Frac) (fuel : Nat), physics_step exact_ops 0 s0 = .ok chain3 →
            satellite_loop exact_ops 0 (fuel + 1) 0 s0 = satellite_loop exact_ops 0 fuel 0 s2 :=
  ⟨by decide, by decide, by decide,
    collision_removes_both exact_ops 0 chain3 0 1 (by decide) (by decide) (by decide)⟩

/-- C2, counterexample.  In `chain3` the satellites of slots 1 and 2 are live and within the
collision threshold of each other, and all velocities are zero, so the physics step moves
nobody.  The loop over the satellites removes satellite 1 in the scan of satellite 0 and then
satellite 0; satellite 2 is never tested against satellite 1 and is the one satellite left. -/
theorem collision_symmetry_counterexample :
    chain3.satellite_count = 3
      ∧ collides exact_ops (chain3.satellite_positions 1) (chain3.satellite_positions 2) = true
      ∧ collides exact_ops (chain3.satellite_positions 2) (chain3.satellite_positions 1) = true
      ∧ ∃ s1, satellite_loop exact_ops 0 chain3.satellite_count 0 chain3 = .ok s1
        ∧ s1.satellite_count = 1
        ∧ s1.satellite_positions 0 = chain3.satellite_positions 2 := by
  refine ⟨rfl, by decide, by decide, _, rfl, ?_⟩
  decide

/-- C3, counterexample.  In `pile3` satellite 0 overlaps the two later satellites and no
explosion is stored yet; the inner collision loop of satellite 0 removes both later satellites
and leaves `explosion_count = 2`, an increase by 2 and not by 1. -/
theorem one_explosion_counterexample :
    pile3.explosion_count = 0
      ∧ (satellites_from pile3 1).countP
          (record_collides exact_ops (pile3.satellite_positions 0)) = 2
      ∧ ∃ s1, collision_scan exact_ops 0 0 (pile3.satellite_count - 1) 1 true pile3
          = .ok (s1, false)
        ∧ s1.satellite_count = 1 ∧ s1.explosion_count = 2 := by
  refine ⟨rfl, by decide, _, rfl, ?_⟩
  decide

/-- C4 (scenario B).  The store holds exactly two satellites and, when the collision resolver
runs for satellite 0 (after its physics step), both are at the same position, the squared
distance 0 being below the threshold.  Then the loop over the satellites returns with
`satellite_count` decreased by exactly 2, and `explosion_count` increased by exactly 1 if it
was below `MAX_EXPLOSIONS` and unchanged if the explosion store was full. -/
theorem scenario_b [DecidableEq F] (ops : FloatOps F) (ticks : Int) (s : State F)
    (h2 : s.satellite_count = 2)
    (hsame : s.satellite_positions 1
      = Vector2.add_assign ops (s.satellite_positions 0) (s.satellite_velocities 0))
    (hzero : collides ops (s.satellite_positions 1) (s.satellite_positions 1) = true) :
    ∃ s1, satellite_loop ops ticks s.satellite_count 0 s = .ok s1
      ∧ s1.satellite_count + 2 = s.satellite_count
      ∧ s1.explosion_count = if s.explosion_count < MAX_EXPLOSIONS then s.explosion_count + 1
          else s.explosion_count := by
  obtain ⟨sa, hsa⟩ := physics_step_ok ops (i := 0) (s := s) (by omega)
  obtain ⟨-, -, ea, ca, -, -, hra⟩ := physics_step_frame hsa
  have hp0 : sa.satellite_positions 0 = s.satellite_positions 1 := by
    unfold physics_step at hsa
    rw [if_pos (by omega)] at hsa
    injection hsa with hsa
    subst hsa
    simp [hsame]
  have hp1 : sa.satellite_positions 1 = s.satellite_positions 1 :=
    congrArg Prod.fst (hra 1 (by omega))
  obtain ⟨sb, hsb, hcb, hib, -, -, heb⟩ := collision_scan_hits ops ticks (i := 0) (s := sa)
    (by omega)
  have hhits : (satellites_from sa (0 + 1)).countP
      (record_collides ops (sa.satellite_positions 0)) = 1 := by
    unfold satellites_from
    rw [ca, h2, show 2 - (0 + 1) = 0 + 1 from rfl, window_succ_cons, window_zero]
    simp [record_collides, satellite_record, hp0, hp1, hzero]
  rw [hhits] at hsb hcb heb
  obtain ⟨sc, hsc⟩ : ∃ sc, delete_satellite 0 sb = .ok sc := ⟨_, delete_satellite_ok hib⟩
  obtain ⟨-, -, ec⟩ := delete_satellite_frame hsc
  obtain ⟨-, cc, -⟩ := delete_satellite_record hsc
  have hz : ¬ 0 < sc.satellite_count := by omega
  have hp : 0 < s.satellite_count := by omega
  refine ⟨sc, ?_, by omega, ?_⟩
  · rw [h2, show (2 : Nat) = 1 + 1 from rfl, satellite_loop, if_pos hp, hsa]
    simp only
    rw [hsb]
    have hd : decide ((1 : Nat) = 0) = false := rfl
    simp only [hd, Bool.false_eq_true, if_false, hsc]
    rw [satellite_loop, if_neg hz]
  · rw [ec.2.2.2, heb, ea.2.2.2]
    simp only [MAX_EXPLOSIONS, Nat.max_def, Nat.min_def]
    split_ifs <;> omega

/-- Scenario B at `pair2`, the explosion store being empty. -/
theorem scenario_b_witness :
    pair2.satellite_count = 2
      ∧ pair2.satellite_positions 1
        = Vector2.add_assign exact_ops (pair2.satellite_positions 0) (pair2.satellite_velocities 0)
      ∧ collides exact_ops (pair2.satellite_positions 1) (pair2.satellite_positions 1) = true
      ∧ ∃ s1, satellite_loop exact_ops 0 pair2.satellite_count 0 pair2 = .ok s1
        ∧ s1.satellite_count + 2 = pair2.satellite_count
        ∧ s1.explosion_count = if pair2.explosion_count < MAX_EXPLOSIONS
            then pair2.explosion_count + 1 else pair2.explosion_count :=
  ⟨by decide, by decide, by decide, scenario_b exact_ops 0 pair2 (by decide) (by decide) (by decide)⟩

/-! ## The fixed-timestep driver -/

theorem ticks_per_frame_eq : TICKS_PER_FRAME = 16 := by decide

theorem wrap32_of_int_range {n : Int} (h1 : -2147483648 ≤ n) (h2 : n < 2147483648) :
    wrap32 n = n := by
  unfold wrap32
  omega

theorem tick_last_ticks [DecidableEq F] (ops : FloatOps F) {ticks current_ticks r1 r2 : Int}
    {s s1 : State F} (h : tick ops ticks current_ticks r1 r2 s = .ok s1) :
    s1.last_ticks = toU32 current_ticks := by
  unfold tick at h
  simp only at h
  split at h
  · split at h
    · injection h with h
      subst h
      rfl
    · cases h
  · cases h

theorem fixed_steps_last_ticks [DecidableEq F] (ops : FloatOps F) (rnd : Nat → Int × Int)
    (current_ticks : Int) :
    ∀ (n k : Nat) (clock : Int) (s s1 : State F),
      fixed_steps ops rnd current_ticks (n + 1) k clock s = .ok s1 →
      s1.last_ticks = toU32 current_ticks := by
  intro n
  induction n with
  | zero =>
    intro k clock s s1 h
    rw [fixed_steps] at h
    split at h
    · rename_i sa hsa
      rw [fixed_steps] at h
      injection h with h
      subst h
      exact tick_last_ticks ops hsa
    · cases h
  | succ m ih =>
    intro k clock s s1 h
    rw [fixed_steps] at h
    split at h
    · exact ih _ _ _ _ h
    · cases h

theorem driver_loop_eq_fixed_steps [DecidableEq F] (ops : FloatOps F) (rnd : Nat → Int × Int)
    (now : Int) (hnow : now < 2147483648) :
    ∀ (fuel k : Nat) (clock : Int) (s : State F), 0 ≤ clock → clock ≤ now →
      fuel = Int.toNat ((now - clock) / 16) →
      driver_loop ops rnd now fuel k clock s = fixed_steps ops rnd now fuel k clock s := by
  intro fuel
  induction fuel with
  | zero =>
    intro k clock s h0 h1 hf
    have hlt : now - clock < 16 := by omega
    rw [driver_loop, fixed_steps, wrap32_of_int_range (by omega) (by omega), ticks_per_frame_eq,
      if_neg (by omega)]
  | succ n ih =>
    intro k clock s h0 h1 hf
    have hge : 16 ≤ now - clock := by omega
    rw [driver_loop, fixed_steps, wrap32_of_int_range (by omega) (by omega), ticks_per_frame_eq,
      if_pos hge]
    split
    · rw [wrap32_of_int_range (by omega) (by omega)]
      exact ih _ _ _ (by omega) (by omega) (by omega)
    · rfl

/-- The fixed-timestep loop, with the fuel the driver gives it, makes no step too many and
none too few: it returns or ends in the fault of a step, never for lack of fuel. -/
theorem driver_loop_cases [DecidableEq F] (ops : FloatOps F) (rnd : Nat → Int × Int)
    (current_ticks : Int) :
    ∀ (fuel k : Nat) (ticks : Int) (s : State F),
      fuel = Int.toNat (wrap32 (current_ticks - ticks) / 16) →
      (∃ s1, driver_loop ops rnd current_ticks fuel k ticks s = .ok s1)
      ∨ driver_loop ops rnd current_ticks fuel k ticks s = .error .guy_picked_index := by
  intro fuel
  induction fuel with
  | zero =>
    intro k ticks s hf
    have hlt : ¬ wrap32 (current_ticks - ticks) ≥ 16 := by omega
    rw [driver_loop, ticks_per_frame_eq, if_neg hlt]
    exact Or.inl ⟨s, rfl⟩
  | succ n ih =>
    intro k ticks s hf
    have hge : wrap32 (current_ticks - ticks) ≥ 16 := by omega
    rw [driver_loop, ticks_per_frame_eq, if_pos hge]
    rcases tick_cases ops ticks current_ticks (rnd k).1 (rnd k).2 s with ⟨s1, h1⟩ | ⟨h1, -⟩
    · rw [h1]
      simp only
      apply ih
      have : wrap32 (current_ticks - wrap32 (ticks + 16)) = wrap32 (current_ticks - ticks) - 16 := by
        unfold wrap32 at hge ⊢
        omega
      rw [this]
      omega
    · rw [h1]
      exact Or.inr rfl

/-- One driver invocation returns or ends in the fault of one of its steps. -/
theorem driver_cases [DecidableEq F] (ops : FloatOps F) (rnd : Nat → Int × Int) (now : Int)
    (s : State F) :
    (∃ s1, driver ops rnd now s = .ok s1) ∨ driver ops rnd now s = .error .guy_picked_index := by
  unfold driver
  simp only
  rw [ticks_per_frame_eq]
  exact driver_loop_cases ops rnd _ _ _ _ _ rfl

/-- C10 (driver step count), amended.  For real-time tick counts `last ≤ now` below `2^31`
(the range of the `int` the driver keeps them in), one driver invocation equals
`floor((now - last) / 16)` simulation steps, step `k` being run with the clock `last + 16 * k`;
and with `now - last < 16` it returns the state it was given. -/
theorem driver_step_count [DecidableEq F] (ops : FloatOps F) (rnd : Nat → Int × Int)
    (now : Int) (s : State F) (h0 : 0 ≤ s.last_ticks) (h1 : s.last_ticks ≤ now)
    (h2 : now < 2147483648) :
    driver ops rnd now s
        = fixed_steps ops rnd now (Int.toNat ((now - s.last_ticks) / 16)) 0 s.last_ticks s
      ∧ (now - s.last_ticks < 16 → driver ops rnd now s = .ok s) := by
  have hd : driver ops rnd now s
      = fixed_steps ops rnd now (Int.toNat ((now - s.last_ticks) / 16)) 0 s.last_ticks s := by
    unfold driver
    simp only
    rw [wrap32_of_int_range (n := now) (by omega) h2,
      wrap32_of_int_range (n := s.last_ticks) (by omega) (by omega),
      wrap32_of_int_range (n := now - s.last_ticks) (by omega) (by omega), ticks_per_frame_eq]
    exact driver_loop_eq_fixed_steps ops rnd now h2 _ 0 _ s h0 h1 rfl
  refine ⟨hd, ?_⟩
  intro hlt
  rw [hd, show Int.toNat ((now - s.last_ticks) / 16) = 0 by omega, fixed_steps]

/-- The driver invoked 40 ms after the start: two steps, with the clocks 0 and 16. -/
theorem driver_step_count_witness :
    0 ≤ (initial exact_ops 0).last_ticks ∧ (initial exact_ops 0).last_ticks ≤ 40
      ∧ (40 : Int) < 2147483648
      ∧ (driver exact_ops (fun _ => (0, 0)) 40 (initial exact_ops 0)
          = fixed_steps exact_ops (fun _ => (0, 0)) 40
              (Int.toNat ((40 - (initial exact_ops 0).last_ticks) / 16)) 0
              (initial exact_ops 0).last_ticks (initial exact_ops 0)
        ∧ (40 - (initial exact_ops 0).last_ticks < 16 →
            driver exact_ops (fun _ => (0, 0)) 40 (initial exact_ops 0)
              = .ok (initial exact_ops 0))) :=
  ⟨by decide, by decide, by decide,
    driver_step_count exact_ops (fun _ => (0, 0)) 40 (initial exact_ops 0) (by decide)
      (by decide) (by decide)⟩

/-- C10, counterexample.  With `last = 0` and `now = 2^31` (so `last ≤ now`, and
`floor((now - last) / 16) = 134217728`), the conversion of `now` to `int` is negative, the
loop condition fails at once and the driver returns the state it was given: it is not the
134217728 steps of the claim, which would leave `last_ticks = 2^31`. -/
theorem driver_step_count_counterexample :
    (initial exact_ops 0).last_ticks = 0
      ∧ Int.toNat ((2147483648 - (initial exact_ops 0).last_ticks) / 16) = 134217728
      ∧ driver exact_ops (fun _ => (0, 0)) 2147483648 (initial exact_ops 0)
          = .ok (initial exact_ops 0)
      ∧ driver exact_ops (fun _ => (0, 0)) 2147483648 (initial exact_ops 0)
          ≠ fixed_steps exact_ops (fun _ => (0, 0)) 2147483648 134217728 0
              (initial exact_ops 0).last_ticks (initial exact_ops 0) := by
  have hd : driver exact_ops (fun _ => (0, 0)) 2147483648 (initial exact_ops 0)
      = .ok (initial exact_ops 0) := rfl
  refine ⟨by decide, by decide, hd, ?_⟩
  rw [hd]
  intro h
  have := fixed_steps_last_ticks exact_ops (fun _ => (0, 0)) 2147483648 134217727 0 _ _ _ h.symm
  revert this
  decide

/-! ## The order of the phases -/

theorem set_at_comm {α : Type} (f : Nat → α) {i k : Nat} (v w : α) (h : i ≠ k) :
    set_at (set_at f i v) k w = set_at (set_at f k w) i v := by
  funext m
  simp only [set_at]
  by_cases h1 : m = k
  · subst h1
    simp [Ne.symm h]
  · simp [h1]

theorem physics_step_with_claim (ops : FloatOps F) {i k : Nat} (v : Int) (picked : Nat → Nat)
    (n : Int) (s : State F) :
    physics_step ops k (with_claim i v picked n s)
      = (physics_step ops k s).map (with_claim i v picked n) := by
  unfold physics_step
  by_cases hk : k < s.satellite_count
  · rw [if_pos hk, if_pos (show k < (with_claim i v picked n s).satellite_count from hk)]
    rfl
  · rw [if_neg hk, if_neg (show ¬ k < (with_claim i v picked n s).satellite_count from hk)]
    rfl

theorem delete_satellite_with_claim {i k : Nat} (hik : i < k) (v : Int) (picked : Nat → Nat)
    (n : Int) (s : State F) :
    delete_satellite k (with_claim i v picked n s)
      = (delete_satellite k s).map (with_claim i v picked n) := by
  unfold delete_satellite
  by_cases hk : k < s.satellite_count
  · rw [if_pos hk, if_pos (show k < (with_claim i v picked n s).satellite_count from hk)]
    simp only [Except.map, with_claim]
    congr 2
    rw [set_at_comm _ _ _ (by omega), set_at_other _ _ (by omega)]
  · rw [if_neg hk, if_neg (show ¬ k < (with_claim i v picked n s).satellite_count from hk)]
    rfl

theorem spawn_explosion_with_claim (ticks : Int) (p : Vector2 F) (i : Nat) (v : Int)
    (picked : Nat → Nat) (n : Int) (s : State F) :
    spawn_explosion ticks p (with_claim i v picked n s)
      = with_claim i v picked n (spawn_explosion ticks p s) := by
  unfold spawn_explosion
  by_cases he : s.explosion_count < MAX_EXPLOSIONS
  · rw [if_pos he, if_pos (show (with_claim i v picked n s).explosion_count < MAX_EXPLOSIONS
      from he)]
    rfl
  · rw [if_neg he, if_neg (show ¬ (with_claim i v picked n s).explosion_count < MAX_EXPLOSIONS
      from he)]

theorem collision_scan_with_claim (ops : FloatOps F) (ticks : Int) (i k : Nat) (v : Int)
    (picked : Nat → Nat) (n : Int) :
    ∀ (fuel j : Nat) (alive : Bool) (s : State F), i < j →
      collision_scan ops ticks k fuel j alive (with_claim i v picked n s)
        = (collision_scan ops ticks k fuel j alive s).map
            (fun r => (with_claim i v picked n r.1, r.2)) := by
  intro fuel
  induction fuel with
  | zero =>
    intro j alive s hij
    rw [collision_scan, collision_scan]
    by_cases hj : j < s.satellite_count
    · rw [if_pos hj, if_pos (show j < (with_claim i v picked n s).satellite_count from hj)]
      rfl
    · rw [if_neg hj, if_neg (show ¬ j < (with_claim i v picked n s).satellite_count from hj)]
      rfl
  | succ m ih =>
    intro j alive s hij
    rw [collision_scan, collision_scan]
    by_cases hj : j < s.satellite_count
    · rw [if_pos hj, if_pos (show j < (with_claim i v picked n s).satellite_count from hj)]
      by_cases hk : k < s.satellite_count
      · rw [if_pos hk, if_pos (show k < (with_claim i v picked n s).satellite_count from hk)]
        have hp : (with_claim i v picked n s).satellite_positions = s.satellite_positions := rfl
        rw [hp]
        by_cases hc : collides ops (s.satellite_positions k) (s.satellite_positions j) = true
        · rw [if_pos hc, if_pos hc, spawn_explosion_with_claim, delete_satellite_with_claim hij]
          cases hd : delete_satellite j (spawn_explosion ticks (s.satellite_positions k) s) with
          | error e => rfl
          | ok s1 =>
            simp only [Except.map]
            rw [ih j false s1 hij]
            rfl
        · rw [if_neg hc, if_neg hc]
          exact ih (j + 1) alive s (by omega)
      · rw [if_neg hk, if_neg (show ¬ k < (with_claim i v picked n s).satellite_count from hk)]
        rfl
    · rw [if_neg hj, if_neg (show ¬ j < (with_claim i v picked n s).satellite_count from hj)]
      rfl

theorem move_and_collide_with_claim (ops : FloatOps F) (ticks : Int) (i : Nat) (v : Int)
    (picked : Nat → Nat) (n : Int) :
    ∀ (fuel k : Nat) (s : State F), i < k →
      move_and_collide ops ticks fuel k (with_claim i v picked n s)
        = (move_and_collide ops ticks fuel k s).map (with_claim i v picked n) := by
  intro fuel
  induction fuel with
  | zero =>
    intro k s hik
    rw [move_and_collide, move_and_collide]
    by_cases hk : k < s.satellite_count
    · rw [if_pos hk, if_pos (show k < (with_claim i v picked n s).satellite_count from hk)]
      rfl
    · rw [if_neg hk, if_neg (show ¬ k < (with_claim i v picked n s).satellite_count from hk)]
      rfl
  | succ m ih =>
    intro k s hik
    rw [move_and_collide, move_and_collide]
    by_cases hk : k < s.satellite_count
    · rw [if_pos hk, if_pos (show k < (with_claim i v picked n s).satellite_count from hk),
        physics_step_with_claim]
      cases hp : physics_step ops k s with
      | error e => rfl
      | ok s1 =>
        simp only [Except.map]
        have hc : (with_claim i v picked n s1).satellite_count = s1.satellite_count := rfl
        rw [hc, collision_scan_with_claim ops ticks i k v picked n _ _ _ _ (by omega)]
        cases hs : collision_scan ops ticks k (s1.satellite_count - (k + 1)) (k + 1) true s1 with
        | error e => rfl
        | ok r =>
          obtain ⟨s2, alive⟩ := r
          simp only [Except.map]
          cases alive with
          | true =>
            simp only [if_true]
            exact ih (k + 1) s2 (by omega)
          | false =>
            simp only [Bool.false_eq_true, if_false]
            rw [delete_satellite_with_claim hik]
            cases hd : delete_satellite k s2 with
            | error e => rfl
            | ok s3 =>
              simp only [Except.map]
              exact ih k s3 hik
    · rw [if_neg hk, if_neg (show ¬ k < (with_claim i v picked n s).satellite_count from hk)]
      rfl

/-- The moving and colliding pass returns, keeps the targets and the claimed marker, leaves
the slots below its start index alone and never takes the count below its start index. -/
theorem move_and_collide_spec (ops : FloatOps F) (ticks : Int) :
    ∀ (fuel k : Nat) (s : State F), s.satellite_count - k ≤ fuel → k ≤ s.satellite_count →
      ∃ s1, move_and_collide ops ticks fuel k s = .ok s1 ∧ same_targets s s1 ∧ same_picked s s1
        ∧ (∀ m, m < k → satellite_record s1 m = satellite_record s m)
        ∧ k ≤ s1.satellite_count := by
  intro fuel
  induction fuel with
  | zero =>
    intro k s hf hk
    exact ⟨s, by rw [move_and_collide, if_neg (by omega)], same_targets_refl s,
      same_picked_refl s, fun _ _ => rfl, hk⟩
  | succ n ih =>
    intro k s hf hk
    rw [move_and_collide]
    by_cases hlt : k < s.satellite_count
    · rw [if_pos hlt]
      obtain ⟨sa, hsa⟩ := physics_step_ok ops hlt
      obtain ⟨ta, pa, -, ca, -, -, hra⟩ := physics_step_frame hsa
      rw [hsa]
      simp only
      obtain ⟨sb, alive, hsb, hib, hcb, hab, hlow⟩ :=
        collision_scan_start ops ticks (i := k) (s := sa) (by omega)
      obtain ⟨tb, pb, -⟩ := collision_scan_frame ops ticks k _ _ _ _ _ _ hsb
      rw [hsb]
      simp only
      cases alive with
      | true =>
        simp only [if_true]
        obtain ⟨sc, hsc, tc, pc, hrc, hkc⟩ := ih (k + 1) sb (by have := hab rfl; omega) (by omega)
        refine ⟨sc, hsc, same_targets_trans (same_targets_trans ta tb) tc,
          same_picked_trans (same_picked_trans pa pb) pc, ?_, by omega⟩
        intro m hm
        rw [hrc m (by omega), hlow m (by omega), hra m (by omega)]
      | false =>
        simp only [Bool.false_eq_true, if_false]
        obtain ⟨sd, hsd⟩ : ∃ sd, delete_satellite k sb = .ok sd := ⟨_, delete_satellite_ok hib⟩
        obtain ⟨hrd, hcd, -⟩ := delete_satellite_record hsd
        obtain ⟨td, pd, -⟩ := delete_satellite_frame hsd
        rw [hsd]
        simp only
        obtain ⟨sc, hsc, tc, pc, hrc, hkc⟩ := ih k sd (by omega) (by omega)
        refine ⟨sc, hsc,
          same_targets_trans (same_targets_trans (same_targets_trans ta tb) td) tc,
          same_picked_trans (same_picked_trans (same_picked_trans pa pb) pd) pc, ?_, hkc⟩
        intro m hm
        rw [hrc m hm, hrd, set_at_other _ _ (by omega), hlow m (by omega), hra m (by omega)]
    · rw [if_neg hlt]
      exact ⟨s, rfl, same_targets_refl s, same_picked_refl s, fun _ _ => rfl, hk⟩

theorem closest_scan_congr (ops : FloatOps F) {s s1 : State F} (p : Vector2 F)
    (ht : same_targets s s1) (hp : same_picked s s1) :
    ∀ (fuel j g : Nat) (d : F),
      closest_scan ops s1 p fuel j g d = closest_scan ops s p fuel j g d := by
  obtain ⟨t1, t2, t3, t4, -⟩ := ht
  have hpk : ∀ j, guy_is_picked s1 j = guy_is_picked s j := by
    intro j
    unfold guy_is_picked
    rw [hp.1]
  have hdist : ∀ j, guy_distance ops s1 p j = guy_distance ops s p j := by
    intro j
    unfold guy_distance
    rw [t1, t2, t3]
  intro fuel
  induction fuel with
  | zero =>
    intro j g d
    rw [closest_scan, closest_scan, t4]
  | succ n ih =>
    intro j g d
    rw [closest_scan, closest_scan, t4, hpk, hdist]
    simp only [ih]

theorem store_assignment_eq [DecidableEq F] (ops : FloatOps F) {i : Nat} (g : Nat) (d : F)
    {s : State F} (hi : i < s.satellite_count) :
    store_assignment ops i g d s
      = if d = ops.infinity then
          .ok (with_claim i (-1) s.guy_picked s.guy_picked_count s)
        else if g / 64 < GUY_PICKED_WORDS then
          .ok (with_claim i (g : Int) (set_at s.guy_picked (g / 64)
            (s.guy_picked (g / 64) ||| (1 <<< (g % 64)))) (s.guy_picked_count + 1) s)
        else .error .guy_picked_index := by
  unfold store_assignment
  rw [if_pos hi]
  rfl

/-- The loop over the satellites is the moving and colliding pass followed by the target
assignment of the survivors. -/
theorem satellite_loop_eq_two_pass [DecidableEq F] (ops : FloatOps F) (ticks : Int) :
    ∀ (fuel i : Nat) (s : State F), s.satellite_count - i ≤ fuel → i ≤ s.satellite_count →
      satellite_loop ops ticks fuel i s
        = (move_and_collide ops ticks fuel i s).bind
            (fun sm => assign_from ops (sm.satellite_count - i) i sm) := by
  intro fuel
  induction fuel with
  | zero =>
    intro i s hf hi
    have hlt : ¬ i < s.satellite_count := by omega
    rw [satellite_loop, move_and_collide, if_neg hlt]
    simp only [Except.bind]
    rw [show s.satellite_count - i = 0 by omega, assign_from, if_neg hlt]
  | succ n ih =>
    intro i s hf hi
    rw [satellite_loop, move_and_collide]
    by_cases hlt : i < s.satellite_count
    · rw [if_pos hlt, if_pos hlt]
      obtain ⟨sa, hsa⟩ := physics_step_ok ops hlt
      obtain ⟨-, -, -, ca, -, -, -⟩ := physics_step_frame hsa
      rw [hsa]
      simp only
      obtain ⟨sb, alive, hsb, hib, hcb, hab, -⟩ :=
        collision_scan_start ops ticks (i := i) (s := sa) (by omega)
      rw [hsb]
      simp only
      cases alive with
      | true =>
        simp only [if_true]
        have hcount : sb.satellite_count = s.satellite_count := by rw [hab rfl, ca]
        obtain ⟨sm, hsm, tm, pm, hrm, hkm⟩ :=
          move_and_collide_spec ops ticks n (i + 1) sb (by omega) (by omega)
        have hposm : sm.satellite_positions i = sb.satellite_positions i :=
          congrArg Prod.fst (hrm i (by omega))
        rw [hsm]
        simp only [Except.bind]
        rw [show sm.satellite_count - i = (sm.satellite_count - (i + 1)) + 1 by omega,
          assign_from, if_pos (by omega)]
        have hscan : closest_scan ops sm (sm.satellite_positions i) sm.guy_count 0 0 ops.infinity
            = closest_scan ops sb (sb.satellite_positions i) sb.guy_count 0 0 ops.infinity := by
          rw [hposm, tm.2.2.2.1]
          exact closest_scan_congr ops _ tm pm _ _ _ _
        unfold assign_target
        rw [if_pos hib, if_pos (show i < sm.satellite_count by omega), hscan]
        cases hcs : closest_scan ops sb (sb.satellite_positions i) sb.guy_count 0 0
            ops.infinity with
        | error e => rfl
        | ok r =>
          obtain ⟨g, d⟩ := r
          simp only
          rw [store_assignment_eq ops g d hib,
            store_assignment_eq ops g d (show i < sm.satellite_count by omega), pm.1, pm.2]
          by_cases hd : d = ops.infinity
          · rw [if_pos hd, if_pos hd]
            simp only
            rw [ih (i + 1) _ (by simp only [with_claim]; omega) (by simp only [with_claim]; omega),
              move_and_collide_with_claim ops ticks i _ _ _ n (i + 1) sb (by omega), hsm]
            rfl
          · rw [if_neg hd, if_neg hd]
            by_cases hw : g / 64 < GUY_PICKED_WORDS
            · rw [if_pos hw, if_pos hw]
              simp only
              rw [ih (i + 1) _ (by simp only [with_claim]; omega)
                  (by simp only [with_claim]; omega),
                move_and_collide_with_claim ops ticks i _ _ _ n (i + 1) sb (by omega), hsm]
              rfl
            · rw [if_neg hw, if_neg hw]
      | false =>
        simp only [Bool.false_eq_true, if_false]
        obtain ⟨sd, hsd⟩ : ∃ sd, delete_satellite i sb = .ok sd := ⟨_, delete_satellite_ok hib⟩
        obtain ⟨-, hcd, -⟩ := delete_satellite_record hsd
        rw [hsd]
        simp only
        exact ih i sd (by omega) (by omega)
    · rw [if_neg hlt, if_neg hlt]
      simp only [Except.bind]
      rw [show s.satellite_count - i = 0 by omega, assign_from, if_neg hlt]

/-- C9 (phase order), amended.  For every state, one step equals: a pass over the live
satellites in index order that applies the physics step to satellite `i` and at once runs its
collision scan against the later satellites (which have not had their physics step of this
tick yet) and removes what was hit; then the target assignment of the survivors in index
order; then the score update, the explosion aging and the target spawner. -/
theorem tick_eq_two_pass [DecidableEq F] (ops : FloatOps F) (ticks current_ticks r1 r2 : Int)
    (s : State F) :
    tick ops ticks current_ticks r1 r2 s = tick_two_pass ops ticks current_ticks r1 r2 s := by
  unfold tick tick_two_pass
  simp only
  rw [satellite_loop_eq_two_pass ops ticks _ 0 _ (by omega) (Nat.zero_le _)]
  cases hm : move_and_collide ops ticks (begin_tick ops s).satellite_count 0 (begin_tick ops s) with
  | error e => rfl
  | ok sm =>
    simp only [Except.bind, Nat.sub_zero]

/-- C9, counterexample.  In `receding2` the step of the code tests satellite 0 (moved) against
satellite 1 before satellite 1 has moved, finds the squared distance 0.0049 and removes both;
the phases run one after the other test the two positions after the physics step of both, find
0.005625 and remove nobody. -/
theorem phase_order_counterexample :
    ∃ s1 s2, tick exact_ops 0 16 0 0 receding2 = .ok s1
      ∧ tick_phased exact_ops 0 16 0 0 receding2 = .ok s2
      ∧ s1.satellite_count = 0 ∧ s2.satellite_count = 2
      ∧ tick exact_ops 0 16 0 0 receding2 ≠ tick_phased exact_ops 0 16 0 0 receding2 := by
  have h1 : ∃ s1, tick exact_ops 0 16 0 0 receding2 = .ok s1 ∧ s1.satellite_count = 0 :=
    ⟨_, rfl, by decide⟩
  have h2 : ∃ s2, tick_phased exact_ops 0 16 0 0 receding2 = .ok s2 ∧ s2.satellite_count = 2 :=
    ⟨_, rfl, by decide⟩
  obtain ⟨s1, h1, c1⟩ := h1
  obtain ⟨s2, h2, c2⟩ := h2
  refine ⟨s1, s2, h1, h2, c1, c2, ?_⟩
  rw [h1, h2]
  intro h
  injection h with h
  rw [h, c2] at c1
  cases c1

/-! ## Runs that outgrow the claimed marker -/

theorem run_reachable [DecidableEq F] (ops : FloatOps F) {s : State F} {t c : Int}
    (h : Run ops s t c) : Reachable ops s := by
  induction h with
  | init t0 => exact Reachable.init t0
  | deploy p v _ _ ih => exact Reachable.deploy p v ih
  | frame now _ _ ih => exact ih
  | tick r1 r2 _ _ ht ih => exact Reachable.tick _ _ r1 r2 ih ht

/-- The loop over the satellites on a store of one satellite: the satellite survives and is
assigned. -/
theorem satellite_loop_single [DecidableEq F] (ops : FloatOps F) (ticks : Int) {s : State F}
    (h1 : s.satellite_count = 1) :
    ∃ sa, physics_step ops 0 s = .ok sa ∧ sa.satellite_count = 1 ∧ same_targets s sa
      ∧ satellite_loop ops ticks 1 0 s = assign_target ops 0 sa := by
  obtain ⟨sa, hsa⟩ := physics_step_ok ops (i := 0) (s := s) (by omega)
  obtain ⟨ta, -, -, ca, -, -, -⟩ := physics_step_frame hsa
  have hc : sa.satellite_count = 1 := by rw [ca, h1]
  refine ⟨sa, hsa, hc, ta, ?_⟩
  have hp : 0 < s.satellite_count := by omega
  rw [show (1 : Nat) = 0 + 1 from rfl, satellite_loop, if_pos hp, hsa]
  simp only
  have hn : ¬ (0 + 1 < sa.satellite_count) := by omega
  rw [hc, show 0 + 1 - (0 + 1) = 0 from rfl, collision_scan, if_neg hn]
  simp only [if_true]
  cases hat : assign_target ops 0 sa with
  | error e => rfl
  | ok sc =>
    simp only
    obtain ⟨-, -, -, -, -, cc, -, -⟩ := assign_target_spec hat
    have hn2 : ¬ (0 + 1 < sc.satellite_count) := by omega
    rw [satellite_loop, if_neg hn2]

/-- With one live satellite and more targets than `guy_picked` has bits, the assignment phase
of a step reads `guy_picked` out of bounds. -/
theorem satellite_loop_single_overflow [DecidableEq F] (ops : FloatOps F) (ticks : Int)
    {s : State F} (h1 : s.satellite_count = 1) (hg : 64 * GUY_PICKED_WORDS < s.guy_count) :
    satellite_loop ops ticks (begin_tick ops s).satellite_count 0 (begin_tick ops s)
      = .error .guy_picked_index := by
  have hb : (begin_tick ops s).satellite_count = 1 := h1
  obtain ⟨sa, -, ca, ta, hl⟩ := satellite_loop_single ops ticks hb
  rw [hb, hl]
  exact assign_target_overflow ops (by omega) (by rw [ta.2.2.2.1]; exact hg)

/-- A step on a store of one satellite with no more targets than `guy_picked` has bits: it
returns, the satellite is still there, and the target spawner has acted as line 367 says. -/
theorem tick_single [DecidableEq F] (ops : FloatOps F) (t c r1 r2 : Int) {s : State F}
    (h1 : s.satellite_count = 1) (hg : s.guy_count ≤ 64 * GUY_PICKED_WORDS) :
    ∃ s1, tick ops t c r1 r2 s = .ok s1 ∧ s1.satellite_count = 1 ∧ s1.last_ticks = toU32 c
      ∧ ((toU32 t ≥ toU32 (s.last_guy_ticks + s.ticks_per_guy) ∧ s.guy_count < MAX_GUYS) →
          s1.guy_count = s.guy_count + 1 ∧ s1.last_guy_ticks = toU32 t
          ∧ s1.ticks_per_guy
            = if s.ticks_per_guy > 0 then s.ticks_per_guy - 1 else s.ticks_per_guy)
      ∧ (¬ (toU32 t ≥ toU32 (s.last_guy_ticks + s.ticks_per_guy) ∧ s.guy_count < MAX_GUYS) →
          s1.guy_count = s.guy_count ∧ s1.last_guy_ticks = s.last_guy_ticks
          ∧ s1.ticks_per_guy = s.ticks_per_guy) := by
  have hb : (begin_tick ops s).satellite_count = 1 := h1
  obtain ⟨sa, -, ca, ta, hl⟩ := satellite_loop_single ops t hb
  obtain ⟨sc, hsc⟩ := assign_target_total ops (i := 0) (s := sa) (by omega)
    (by rw [ta.2.2.2.1]; exact hg)
  obtain ⟨-, tc, -, -, -, cc, -, -⟩ := assign_target_spec hsc
  obtain ⟨sd, hsd⟩ := age_explosions_total t (update_score sc).explosion_count 0
    (update_score sc) (by omega)
  obtain ⟨td, -, qd, -⟩ := age_explosions_frame t _ _ _ _ hsd
  have hgc : sd.guy_count = s.guy_count := by
    rw [td.2.2.2.1]
    show sc.guy_count = s.guy_count
    rw [tc.2.2.2.1, ta.2.2.2.1]
    rfl
  have hlg : sd.last_guy_ticks = s.last_guy_ticks := by
    rw [td.2.2.2.2.2.2.2]
    show sc.last_guy_ticks = s.last_guy_ticks
    rw [tc.2.2.2.2.2.2.2, ta.2.2.2.2.2.2.2]
    rfl
  have htp : sd.ticks_per_guy = s.ticks_per_guy := by
    rw [td.2.2.2.2.1]
    show sc.ticks_per_guy = s.ticks_per_guy
    rw [tc.2.2.2.2.1, ta.2.2.2.2.1]
    rfl
  have hcnt : sd.satellite_count = 1 := by
    rw [qd.2.2.2]
    show sc.satellite_count = 1
    rw [cc, ca]
  have ht : tick ops t c r1 r2 s
      = .ok { spawn_guy ops t r1 r2 sd with last_ticks := toU32 c } := by
    unfold tick
    simp only
    rw [hb, hl, hsc]
    simp only
    rw [hsd]
  refine ⟨_, ht, ?_, rfl, ?_, ?_⟩
  · show (spawn_guy ops t r1 r2 sd).satellite_count = 1
    rw [(spawn_guy_frame ops t r1 r2 sd).1.2.2.2, hcnt]
  · intro hcond
    show (spawn_guy ops t r1 r2 sd).guy_count = s.guy_count + 1
      ∧ (spawn_guy ops t r1 r2 sd).last_guy_ticks = toU32 t
      ∧ (spawn_guy ops t r1 r2 sd).ticks_per_guy
        = if s.ticks_per_guy > 0 then s.ticks_per_guy - 1 else s.ticks_per_guy
    unfold spawn_guy
    rw [hlg, htp, hgc, if_pos hcond]
    exact ⟨rfl, rfl, rfl⟩
  · intro hcond
    show (spawn_guy ops t r1 r2 sd).guy_count = s.guy_count
      ∧ (spawn_guy ops t r1 r2 sd).last_guy_ticks = s.last_guy_ticks
      ∧ (spawn_guy ops t r1 r2 sd).ticks_per_guy = s.ticks_per_guy
    unfold spawn_guy
    rw [hlg, htp, hgc, if_neg hcond]
    exact ⟨hgc, hlg, htp⟩

theorem toU32_of_int_range {n : Int} (h1 : 0 ≤ n) (h2 : n < 4294967296) : toU32 n = n := by
  unfold toU32
  omega

theorem single_run_initial [DecidableEq F] (ops : FloatOps F) :
    single_run ops (initial ops 0) 1 := by
  refine ⟨?_, rfl, rfl, ?_, ?_, ?_, ?_, ?_, ?_⟩
  · exact Run.init 0
  all_goals simp [initial, toU32]

/-- One driver invocation 16 ms after the last one, from a state with one satellite and at
most 960 targets: it makes one step, which returns. -/
theorem single_run_frame [DecidableEq F] (ops : FloatOps F) {s : State F} {g : Nat}
    (h : single_run ops s g) (hg : g ≤ 64 * GUY_PICKED_WORDS) :
    ∃ s1, s1.last_ticks = s.last_ticks + 16
      ∧ ((s.last_guy_ticks + s.ticks_per_guy ≤ s.last_ticks ∧ single_run ops s1 (g + 1))
        ∨ (s.last_ticks < s.last_guy_ticks + s.ticks_per_guy ∧ single_run ops s1 g
            ∧ s1.last_guy_ticks = s.last_guy_ticks ∧ s1.ticks_per_guy = s.ticks_per_guy)) := by
  obtain ⟨hrun, h1, hgc, hlg0, hlg, htp0, htp, hl, hb⟩ := h
  have hcap : (64 : Int) * GUY_PICKED_WORDS = 960 := by decide
  have hgi : (g : Int) ≤ 960 := by
    have : ((g : Nat) : Int) ≤ ((64 * GUY_PICKED_WORDS : Nat) : Int) := by exact_mod_cast hg
    rw [Nat.cast_mul] at this
    simpa [hcap] using this
  have hL0 : 0 ≤ s.last_ticks := by omega
  have hL1 : s.last_ticks < 5000000 := by omega
  have hidle : wrap32 (s.last_ticks - s.last_ticks) < TICKS_PER_FRAME := by
    rw [sub_self]
    decide
  have hframe := Run.frame (s.last_ticks + 16) hrun hidle
  rw [wrap32_of_int_range (n := s.last_ticks) (by omega) (by omega),
    toU32_of_int_range (n := s.last_ticks + 16) (by omega) (by omega),
    wrap32_of_int_range (n := s.last_ticks + 16) (by omega) (by omega)] at hframe
  have hguard : wrap32 (s.last_ticks + 16 - s.last_ticks) ≥ TICKS_PER_FRAME := by
    rw [show s.last_ticks + 16 - s.last_ticks = 16 by omega]
    decide
  obtain ⟨s1, ht, hc1, hlt1, hyes, hno⟩ := tick_single ops s.last_ticks (s.last_ticks + 16) 0 0
    h1 (by rw [hgc]; exact hg)
  have hrun1 := Run.tick 0 0 hframe hguard ht
  rw [ticks_per_frame_eq, wrap32_of_int_range (n := s.last_ticks + 16) (by omega) (by omega)]
    at hrun1
  rw [toU32_of_int_range (n := s.last_ticks + 16) (by omega) (by omega)] at hlt1
  rw [toU32_of_int_range (n := s.last_ticks) (by omega) (by omega),
    toU32_of_int_range (n := s.last_guy_ticks + s.ticks_per_guy) (by omega) (by omega)]
    at hyes hno
  have hmax : s.guy_count < MAX_GUYS := by
    rw [hgc]
    have : 64 * GUY_PICKED_WORDS < MAX_GUYS := by decide
    omega
  refine ⟨s1, hlt1, ?_⟩
  by_cases hcond : s.last_guy_ticks + s.ticks_per_guy ≤ s.last_ticks
  · obtain ⟨e1, e2, e3⟩ := hyes ⟨hcond, hmax⟩
    refine Or.inl ⟨hcond, ?_, hc1, by rw [e1, hgc], ?_, ?_, ?_, ?_, ?_, ?_⟩
    · rw [hlt1]
      exact hrun1
    · rw [e2]; exact hL0
    · rw [e2, hlt1]; omega
    · rw [e3]; split_ifs <;> omega
    · rw [e3]; split_ifs <;> omega
    · rw [hlt1, e2, e3]; split_ifs <;> omega
    · rw [e2]
      push_cast
      omega
  · have hnc : ¬ (s.last_ticks ≥ s.last_guy_ticks + s.ticks_per_guy ∧ s.guy_count < MAX_GUYS) :=
      fun hh => hcond hh.1
    obtain ⟨e1, e2, e3⟩ := hno hnc
    refine Or.inr ⟨by omega, ⟨?_, hc1, by rw [e1, hgc], ?_, ?_, ?_, ?_, ?_, ?_⟩, e2, e3⟩
    · rw [hlt1]
      exact hrun1
    · rw [e2]; exact hlg0
    · rw [e2, hlt1]; omega
    · rw [e3]; exact htp0
    · rw [e3]; exact htp
    · rw [hlt1, e2, e3]; omega
    · rw [e2]; exact hb

/-- From a state with one satellite and `g ≤ 960` targets the program reaches a state with
one satellite and `g + 1` targets. -/
theorem single_run_next [DecidableEq F] (ops : FloatOps F) {g : Nat}
    (hg : g ≤ 64 * GUY_PICKED_WORDS) :
    ∀ (m : Nat) (s : State F), single_run ops s g →
      s.last_guy_ticks + s.ticks_per_guy - s.last_ticks ≤ 16 * (m : Int) →
      ∃ s1, single_run ops s1 (g + 1) := by
  intro m
  induction m with
  | zero =>
    intro s h hm
    obtain ⟨s1, -, ⟨-, h1⟩ | ⟨hlt, -⟩⟩ := single_run_frame ops h hg
    · exact ⟨s1, h1⟩
    · simp only [Nat.cast_zero, mul_zero] at hm
      omega
  | succ n ih =>
    intro s h hm
    obtain ⟨s1, hl1, ⟨-, h1⟩ | ⟨-, h1, e2, e3⟩⟩ := single_run_frame ops h hg
    · exact ⟨s1, h1⟩
    · apply ih s1 h1
      rw [hl1, e2, e3]
      push_cast at hm
      omega

theorem single_run_reaches [DecidableEq F] (ops : FloatOps F) :
    ∀ n : Nat, n ≤ 64 * GUY_PICKED_WORDS → ∃ s, single_run ops s (n + 1) := by
  intro n
  induction n with
  | zero =>
    intro _
    exact ⟨_, single_run_initial ops⟩
  | succ k ih =>
    intro hk
    obtain ⟨s, hs⟩ := ih (by omega)
    have hbound : s.last_guy_ticks + s.ticks_per_guy - s.last_ticks ≤ 16 * ((313 : Nat) : Int) := by
      obtain ⟨-, -, -, h0, h1, h2, h3, -, -⟩ := hs
      push_cast
      omega
    exact single_run_next ops (by omega) 313 s hs hbound

/-- Claim exclusivity holds after the assignment phase of a step from any state with no more
targets than `guy_picked` has bits (64 * (MAX_GUYS / 64) = 960): the phase returns and no two
live satellites hold the same target index. -/
theorem claim_exclusivity_below_capacity [DecidableEq F] (ops : FloatOps F) (ticks : Int)
    (s : State F) (hg : s.guy_count ≤ 64 * GUY_PICKED_WORDS) :
    ∃ s1, satellite_loop ops ticks (begin_tick ops s).satellite_count 0 (begin_tick ops s) = .ok s1
      ∧ claims_exclusive s1 s1.satellite_count := by
  rcases satellite_loop_cases ops ticks (begin_tick ops s).satellite_count 0 (begin_tick ops s)
    (by omega) with ⟨s1, h1⟩ | ⟨-, h2⟩
  · exact ⟨s1, h1, satellite_loop_exclusive ops ticks h1⟩
  · exact absurd hg (by
      have : (begin_tick ops s).guy_count = s.guy_count := rfl
      omega)

/-- With `<` of the floating point values a linear order: what the scan over the targets
returns is no farther than what it started with and than every unclaimed target in range that
it passed, and if it differs from what the scan started with it is the first nearest such
target. -/
theorem closest_scan_argmin [LinearOrder F] (ops : FloatOps F)
    (hlt : ∀ a b, ops.lt a b = true ↔ a < b) (s : State F) (p : Vector2 F) :
    ∀ (fuel j g0 : Nat) (d0 : F) (g : Nat) (d : F),
      closest_scan ops s p fuel j g0 d0 = .ok (g, d) →
      d ≤ d0
      ∧ (∀ k, j ≤ k → k < s.guy_count → guy_is_picked s k = false →
          guy_distance ops s p k < ops.lit 1 0 → d ≤ guy_distance ops s p k)
      ∧ ((g = g0 ∧ d = d0)
        ∨ (j ≤ g ∧ g < s.guy_count ∧ guy_is_picked s g = false ∧ d = guy_distance ops s p g
          ∧ d < ops.lit 1 0 ∧ d < d0
          ∧ ∀ k, j ≤ k → k < g → guy_is_picked s k = false →
              guy_distance ops s p k < ops.lit 1 0 → d < guy_distance ops s p k)) := by
  intro fuel
  induction fuel with
  | zero =>
    intro j g0 d0 g d h
    unfold closest_scan at h
    split at h
    · cases h
    · injection h with h
      injection h with h1 h2
      subst h1 h2
      exact ⟨le_refl _, fun k hk1 hk2 => by omega, Or.inl ⟨rfl, rfl⟩⟩
  | succ n ih =>
    intro j g0 d0 g d h
    rw [closest_scan] at h
    split at h
    · rename_i hj
      split at h
      · split at h
        · rename_i hp
          obtain ⟨a1, a2, a3⟩ := ih _ _ _ _ _ h
          refine ⟨a1, ?_, ?_⟩
          · intro k hk1 hk2 hk3 hk4
            by_cases hkj : k = j
            · subst hkj
              rw [hp] at hk3
              cases hk3
            · exact a2 k (by omega) hk2 hk3 hk4
          · rcases a3 with a3 | ⟨b1, b2, b3, b4, b5, b6, b7⟩
            · exact Or.inl a3
            · refine Or.inr ⟨by omega, b2, b3, b4, b5, b6, ?_⟩
              intro k hk1 hk2 hk3 hk4
              by_cases hkj : k = j
              · subst hkj
                rw [hp] at hk3
                cases hk3
              · exact b7 k (by omega) hk2 hk3 hk4
        · rename_i hp
          have hp' : guy_is_picked s j = false := by simpa using hp
          simp only at h
          split at h
          · rename_i hbeat
            simp only [Bool.and_eq_true, hlt] at hbeat
            obtain ⟨a1, a2, a3⟩ := ih _ _ _ _ _ h
            refine ⟨le_of_lt (lt_of_le_of_lt a1 hbeat.1), ?_, Or.inr ?_⟩
            · intro k hk1 hk2 hk3 hk4
              by_cases hkj : k = j
              · subst hkj
                exact a1
              · exact a2 k (by omega) hk2 hk3 hk4
            · rcases a3 with ⟨c1, c2⟩ | ⟨b1, b2, b3, b4, b5, b6, b7⟩
              · subst c1 c2
                exact ⟨le_refl _, hj, hp', rfl, hbeat.2, hbeat.1, fun k hk1 hk2 => by omega⟩
              · refine ⟨by omega, b2, b3, b4, b5, lt_trans b6 hbeat.1, ?_⟩
                intro k hk1 hk2 hk3 hk4
                by_cases hkj : k = j
                · subst hkj
                  exact b6
                · exact b7 k (by omega) hk2 hk3 hk4
          · rename_i hbeat
            simp only [Bool.and_eq_true, hlt, not_and] at hbeat
            obtain ⟨a1, a2, a3⟩ := ih _ _ _ _ _ h
            refine ⟨a1, ?_, ?_⟩
            · intro k hk1 hk2 hk3 hk4
              by_cases hkj : k = j
              · subst hkj
                have : ¬ guy_distance ops s p k < d0 := fun hh => hbeat hh hk4
                exact le_trans a1 (not_lt.mp this)
              · exact a2 k (by omega) hk2 hk3 hk4
            · rcases a3 with a3 | ⟨b1, b2, b3, b4, b5, b6, b7⟩
              · exact Or.inl a3
              · refine Or.inr ⟨by omega, b2, b3, b4, b5, b6, ?_⟩
                intro k hk1 hk2 hk3 hk4
                by_cases hkj : k = j
                · subst hkj
                  have : ¬ guy_distance ops s p k < d0 := fun hh => hbeat hh hk4
                  exact lt_of_lt_of_le b6 (not_lt.mp this)
                · exact b7 k (by omega) hk2 hk3 hk4
      · cases h
    · rename_i hj
      injection h with h
      injection h with h1 h2
      subst h1 h2
      exact ⟨le_refl _, fun k hk1 hk2 => by omega, Or.inl ⟨rfl, rfl⟩⟩

/-- Nearest-target assignment below the capacity of the claimed marker.  With `<` of the
floating point values a linear order in which 1 is not above `INFINITY`, and with at most 960
targets, the assignment of a live satellite returns; if some unclaimed target is at squared
distance below 1 the satellite gets the lowest index among the unclaimed targets of least
squared distance, that target becomes claimed and the claimed count grows by 1; otherwise the
satellite gets none (-1) and nothing is claimed. -/
theorem nearest_target_below_capacity [LinearOrder F] (ops : FloatOps F)
    (hlt : ∀ a b, ops.lt a b = true ↔ a < b) (hinf : ops.lit 1 0 ≤ ops.infinity)
    (s : State F) (i : Nat) (hi : i < s.satellite_count)
    (hg : s.guy_count ≤ 64 * GUY_PICKED_WORDS) :
    ∃ s1, assign_target ops i s = .ok s1
      ∧ ((∃ j, j < s.guy_count ∧ guy_is_picked s j = false
            ∧ guy_distance ops s (s.satellite_positions i) j < ops.lit 1 0) →
          ∃ g : Nat, g < s.guy_count ∧ guy_is_picked s g = false
            ∧ s1.satellite_to_guy i = (g : Int)
            ∧ (∀ k, k < s.guy_count → guy_is_picked s k = false →
                guy_distance ops s (s.satellite_positions i) g
                  ≤ guy_distance ops s (s.satellite_positions i) k)
            ∧ (∀ k, k < g → guy_is_picked s k = false →
                guy_distance ops s (s.satellite_positions i) g
                  < guy_distance ops s (s.satellite_positions i) k)
            ∧ (∀ k, guy_is_picked s1 k = (decide (k = g) || guy_is_picked s k))
            ∧ s1.guy_picked_count = s.guy_picked_count + 1)
      ∧ ((¬ ∃ j, j < s.guy_count ∧ guy_is_picked s j = false
            ∧ guy_distance ops s (s.satellite_positions i) j < ops.lit 1 0) →
          s1.satellite_to_guy i = -1 ∧ same_picked s s1) := by
  obtain ⟨⟨g, d⟩, hscan⟩ := closest_scan_total ops s (s.satellite_positions i) hg
    s.guy_count 0 0 ops.infinity (by omega)
  obtain ⟨a1, a2, a3⟩ := closest_scan_argmin ops hlt s _ _ _ _ _ _ _ hscan
  have hat : assign_target ops i s = store_assignment ops i g d s := by
    unfold assign_target
    rw [if_pos hi, hscan]
  rw [hat, store_assignment_eq ops g d hi]
  rcases a3 with ⟨-, c2⟩ | ⟨-, b2, b3, b4, b5, b6, b7⟩
  · -- nothing found
    subst c2
    rw [if_pos rfl]
    refine ⟨_, rfl, ?_, ?_⟩
    · rintro ⟨j, hj1, hj2, hj3⟩
      have := a2 j (Nat.zero_le _) hj1 hj2 hj3
      exact absurd (lt_of_lt_of_le hj3 hinf) (not_lt.mpr this)
    · intro _
      exact ⟨by simp [with_claim], rfl, rfl⟩
  · -- target `g` found
    have hne : d ≠ ops.infinity := ne_of_lt b6
    rw [if_neg hne, if_pos (by omega)]
    refine ⟨_, rfl, ?_, ?_⟩
    · intro _
      refine ⟨g, b2, b3, by simp [with_claim], ?_, ?_, ?_, rfl⟩
      · intro k hk1 hk2
        rw [← b4]
        by_cases hk3 : guy_distance ops s (s.satellite_positions i) k < ops.lit 1 0
        · exact a2 k (Nat.zero_le _) hk1 hk2 hk3
        · exact le_trans (le_of_lt b5) (not_lt.mp hk3)
      · intro k hk1 hk2
        rw [← b4]
        by_cases hk3 : guy_distance ops s (s.satellite_positions i) k < ops.lit 1 0
        · exact b7 k (Nat.zero_le _) hk1 hk2 hk3
        · exact lt_of_lt_of_le b5 (not_lt.mp hk3)
      · intro k
        exact guy_is_picked_after_claim s g k _ rfl
    · intro hnone
      exact absurd ⟨g, b2, b3, by rw [← b4]; exact b5⟩ hnone

/-! ## Removal of an explosion -/

/-- What `delete_explosion` does to the three arrays of the explosion store: the position and
the expiry tick of the last explosion are copied into slot `i`, the phase flags are left as
they were. -/
theorem delete_explosion_record {i : Nat} {s s1 : State F} (h : delete_explosion i s = .ok s1) :
    i < s.explosion_count ∧ s1.explosion_count = s.explosion_count - 1
      ∧ s1.explosion_positions
          = set_at s.explosion_positions i (s.explosion_positions (s.explosion_count - 1))
      ∧ s1.explosion_end_ticks
          = set_at s.explosion_end_ticks i (s.explosion_end_ticks (s.explosion_count - 1))
      ∧ s1.explosion_frame = s.explosion_frame := by
  unfold delete_explosion at h
  split at h
  · injection h with h
    subst h
    exact ⟨by assumption, rfl, rfl, rfl, rfl⟩
  · cases h

theorem delete_explosion_ok {i : Nat} {s : State F} (h : i < s.explosion_count) :
    ∃ s1, delete_explosion i s = .ok s1 := by
  simp [delete_explosion, h]

/-- C20 (explosion removal), the failing input.  On the store `late_early` (slot 0 late,
slot 1 early) `delete_explosion 0` returns, decrements the count to 1 and copies the position
and the expiry tick of the former last explosion into slot 0, but not its phase flag: the
explosion that was early (flag 0) now sits in slot 0 with the flag 1 of the explosion that was
removed, so its record is not the record it had. -/
theorem delete_explosion_phase_flag :
    ∃ s1, delete_explosion 0 late_early = .ok s1 ∧ s1.explosion_count = 1
      ∧ s1.explosion_positions 0 = late_early.explosion_positions 1
      ∧ s1.explosion_end_ticks 0 = late_early.explosion_end_ticks 1
      ∧ late_early.explosion_frame 1 = 0 ∧ s1.explosion_frame 0 = 1
      ∧ explosion_record s1 0 ≠ explosion_record late_early 1 :=
  ⟨_, rfl, by decide⟩

/-! ## The length of the claimed marker -/

/-- A step from a state with one satellite and more targets than `guy_picked` has bits ends in
the read of `guy_picked` out of bounds. -/
theorem tick_single_overflow [DecidableEq F] (ops : FloatOps F) (ticks current_ticks r1 r2 : Int)
    {s : State F} (h1 : s.satellite_count = 1) (hg : 64 * GUY_PICKED_WORDS < s.guy_count) :
    tick ops ticks current_ticks r1 r2 s = .error .guy_picked_index := by
  unfold tick
  simp only
  rw [satellite_loop_single_overflow ops ticks h1 hg]

/-- C18 (bitset bounds), the failing input.  `guy_picked` has `MAX_GUYS / 64 = 15` words.
With `guy_count = 961 ≤ MAX_GUYS` the target index `j = 960 < guy_count` has the word index
`960 / 64 = 15`, which is not below 15.  The out-of-range branch is reached: the scan over the
targets of lines 323-339, started as the assignment starts it, ends there in every state with
961 targets, and a run of the program leads to such a state from which every step ends
there. -/
theorem guy_picked_word_out_of_range [DecidableEq F] (ops : FloatOps F) :
    GUY_PICKED_WORDS = 15 ∧ 961 ≤ MAX_GUYS ∧ ¬ (960 / 64 < GUY_PICKED_WORDS)
      ∧ (∀ (s : State F) (p : Vector2 F), s.guy_count = 961 →
          closest_scan ops s p s.guy_count 0 0 ops.infinity = .error .guy_picked_index)
      ∧ ∃ s, (∃ t c, Run ops s t c) ∧ s.guy_count = 961
          ∧ ∀ ticks current_ticks r1 r2 : Int,
              tick ops ticks current_ticks r1 r2 s = .error .guy_picked_index := by
  refine ⟨by decide, by decide, by decide, ?_, ?_⟩
  · intro s p hg
    exact closest_scan_overflow ops s p (by rw [hg]; decide) _ _ _ _ (Nat.zero_le _) (by omega)
  · obtain ⟨s, hs⟩ := single_run_reaches ops 960 (by decide)
    obtain ⟨hrun, h1, hg, -⟩ := hs
    refine ⟨s, ⟨_, _, hrun⟩, hg, ?_⟩
    intro ticks current_ticks r1 r2
    exact tick_single_overflow ops ticks current_ticks r1 r2 h1 (by rw [hg]; decide)

/-! ## The score and the spawn interval -/

/-- The three phases of a step that returns. -/
theorem tick_unfold [DecidableEq F] (ops : FloatOps F) {ticks current_ticks r1 r2 : Int}
    {s s1 : State F} (h : tick ops ticks current_ticks r1 r2 s = .ok s1) :
    ∃ sa sb, satellite_loop ops ticks (begin_tick ops s).satellite_count 0 (begin_tick ops s)
          = .ok sa
      ∧ age_explosions ticks (update_score sa).explosion_count 0 (update_score sa) = .ok sb
      ∧ s1 = { spawn_guy ops ticks r1 r2 sb with last_ticks := toU32 current_ticks } := by
  unfold tick at h
  simp only at h
  split at h
  · rename_i sa hsa
    split at h
    · rename_i sb hsb
      injection h with h
      exact ⟨sa, sb, hsa, hsb, h.symm⟩
    · cases h
  · cases h

theorem max_ge_left (a b : Int) : a ≤ max a b := by
  unfold max
  split <;> omega

/-- The score and the spawn interval after a step that returns: the score is the maximum of
the old score and the claimed count the loop over the satellites has left; the spawn interval
is unchanged, or was positive and is one less. -/
theorem tick_score_interval [DecidableEq F] (ops : FloatOps F)
    {ticks current_ticks r1 r2 : Int} {s s1 : State F}
    (h : tick ops ticks current_ticks r1 r2 s = .ok s1) :
    (∃ sa, satellite_loop ops ticks (begin_tick ops s).satellite_count 0 (begin_tick ops s)
          = .ok sa ∧ s1.score = max s.score sa.guy_picked_count
        ∧ s1.satellite_count = sa.satellite_count ∧ s1.satellite_to_guy = sa.satellite_to_guy)
      ∧ ((s1.ticks_per_guy = s.ticks_per_guy ∧ s1.guy_count = s.guy_count)
        ∨ (0 < s.ticks_per_guy ∧ s1.ticks_per_guy = s.ticks_per_guy - 1
            ∧ s1.guy_count = s.guy_count + 1 ∧ s.guy_count < MAX_GUYS)
        ∨ (s.ticks_per_guy ≤ 0 ∧ s1.ticks_per_guy = s.ticks_per_guy
            ∧ s1.guy_count = s.guy_count + 1 ∧ s.guy_count < MAX_GUYS)) := by
  obtain ⟨sa, sb, hsa, hsb, h1⟩ := tick_unfold ops h
  obtain ⟨ta, -, -, -⟩ := satellite_loop_frame ops ticks hsa
  obtain ⟨tb, pb, qb, -⟩ := age_explosions_frame ticks _ _ _ _ hsb
  obtain ⟨qc, -, -, hscore, -⟩ := spawn_guy_frame ops ticks r1 r2 sb
  obtain ⟨-, -, -, hga, hta, -, -, -⟩ := ta
  obtain ⟨-, -, -, hgb, htb, hsb2, -, -⟩ := tb
  have hg : sb.guy_count = s.guy_count := by rw [hgb]; exact hga
  have ht : sb.ticks_per_guy = s.ticks_per_guy := by rw [htb]; exact hta
  refine ⟨⟨sa, hsa, ?_, ?_, ?_⟩, ?_⟩
  · subst h1
    show (spawn_guy ops ticks r1 r2 sb).score = _
    rw [hscore, hsb2]
    show max sa.score sa.guy_picked_count = _
    have : sa.score = s.score := by
      obtain ⟨-, -, -, -, -, x, -, -⟩ := satellite_loop_frame ops ticks hsa |>.1
      exact x
    rw [this]
  · subst h1
    exact qc.2.2.2.trans qb.2.2.2
  · subst h1
    exact qc.2.2.1.trans qb.2.2.1
  · subst h1
    show ((spawn_guy ops ticks r1 r2 sb).ticks_per_guy = _ ∧ (spawn_guy ops ticks r1 r2 sb).guy_count = _)
      ∨ (_ ∧ (spawn_guy ops ticks r1 r2 sb).ticks_per_guy = _
          ∧ (spawn_guy ops ticks r1 r2 sb).guy_count = _ ∧ _)
      ∨ (_ ∧ (spawn_guy ops ticks r1 r2 sb).ticks_per_guy = _
          ∧ (spawn_guy ops ticks r1 r2 sb).guy_count = _ ∧ _)
    unfold spawn_guy
    split
    · rename_i hc
      by_cases hp : sb.ticks_per_guy > 0
      · right; left
        simp only [if_pos hp]
        exact ⟨by omega, by omega, by omega, by omega⟩
      · right; right
        simp only [if_neg hp]
        exact ⟨by omega, by omega, by omega, by omega⟩
    · left
      exact ⟨ht, hg⟩

theorem explosions_from_cons {s : State F} {j : Nat} (h : j < s.explosion_count) :
    explosions_from s j = explosion_entry s j :: window (explosion_entry s) (j + 1)
      (s.explosion_count - (j + 1)) := by
  unfold explosions_from
  rw [show s.explosion_count - j = (s.explosion_count - (j + 1)) + 1 by omega, window_succ_cons]

theorem delete_explosion_entry {i : Nat} {s s1 : State F} (h : delete_explosion i s = .ok s1) :
    explosion_entry s1 = set_at (explosion_entry s) i (explosion_entry s (s.explosion_count - 1))
      := by
  obtain ⟨-, -, hp, he, -⟩ := delete_explosion_record h
  funext k
  by_cases hk : k = i <;> simp [explosion_entry, set_at, hk, hp, he]

/-- What the loop over the explosions does from index `i` on: it returns; the explosions
whose expiry tick has been reached are gone and the others are all still there with their
position and expiry tick (in some order); the phase flag of a slot that is live at the end is 1
when the explosion it then holds is less than `EXPLOSION_TIME / 2` before its expiry and is
otherwise the flag the slot had; no other phase flag is written. -/
theorem age_explosions_spec (ticks : Int) :
    ∀ (fuel i : Nat) (s : State F), i ≤ s.explosion_count → fuel = s.explosion_count - i →
      ∃ s1, age_explosions ticks fuel i s = .ok s1
        ∧ i ≤ s1.explosion_count ∧ s1.explosion_count ≤ s.explosion_count
        ∧ (∀ k, k < i → explosion_entry s1 k = explosion_entry s k)
        ∧ (explosions_from s1 i).Perm
            ((explosions_from s i).filter (fun r => decide (ticks < r.2)))
        ∧ (∀ k, i ≤ k → k < s1.explosion_count → s1.explosion_frame k
            = if wrap32 (s1.explosion_end_ticks k - ticks) < EXPLOSION_TIME / 2 then 1
              else s.explosion_frame k)
        ∧ (∀ k, (k < i ∨ s1.explosion_count ≤ k) → s1.explosion_frame k = s.explosion_frame k) := by
  intro fuel
  induction fuel with
  | zero =>
    intro i s hi hf
    have hnil : explosions_from s i = [] := by
      unfold explosions_from
      rw [show s.explosion_count - i = 0 by omega]
      rfl
    refine ⟨s, ?_, hi, le_refl _, fun _ _ => rfl, ?_, ?_, fun _ _ => rfl⟩
    · rw [age_explosions, if_neg (by omega)]
    · rw [hnil]
      exact List.Perm.refl _
    · intro k h1 h2
      omega
  | succ n ih =>
    intro i s hi hf
    have hilt : i < s.explosion_count := by omega
    rw [explosions_from_cons hilt]
    by_cases hx : ticks ≥ s.explosion_end_ticks i
    · -- expired: the explosion is removed and the loop goes on at the same index
      obtain ⟨sd, hsd⟩ := delete_explosion_ok hilt
      obtain ⟨-, hcd, -, -, hfd⟩ := delete_explosion_record hsd
      have hed := delete_explosion_entry hsd
      obtain ⟨s1, h1, hlo, hhi, hlow, hperm, hfr, hfo⟩ := ih i sd (by omega) (by omega)
      have hfrom : (explosions_from sd i).Perm
          (window (explosion_entry s) (i + 1) (s.explosion_count - (i + 1))) := by
        unfold explosions_from
        rw [hed, hcd, show s.explosion_count - 1 - i = s.explosion_count - (i + 1) by omega]
        have := window_swap_remove (explosion_entry s) i (s.explosion_count - (i + 1))
        rwa [show i + (s.explosion_count - (i + 1)) = s.explosion_count - 1 by omega] at this
      refine ⟨s1, ?_, hlo, by omega, ?_, ?_, ?_, ?_⟩
      · rw [age_explosions, if_pos hilt, if_pos hx, hsd]
        exact h1
      · intro k hk
        rw [hlow k hk, hed, set_at_other _ _ (by omega)]
      · rw [List.filter_cons_of_neg (by simp [explosion_entry]; omega)]
        exact hperm.trans (hfrom.filter _)
      · intro k hk1 hk2
        rw [hfr k hk1 hk2, hfd]
      · intro k hk
        rw [hfo k hk, hfd]
    · by_cases hl : wrap32 (s.explosion_end_ticks i - ticks) < EXPLOSION_TIME / 2
      · -- less than half the lifetime left: the phase flag of the slot is set
        obtain ⟨s1, h1, hlo, hhi, hlow, hperm, hfr, hfo⟩ :=
          ih (i + 1) { s with explosion_frame := set_at s.explosion_frame i 1 } (by exact hilt)
            (by show n = s.explosion_count - (i + 1); omega)
        have hent : explosion_entry s1 i = explosion_entry s i := hlow i (by omega)
        refine ⟨s1, ?_, by omega, hhi, ?_, ?_, ?_, ?_⟩
        · rw [age_explosions, if_pos hilt, if_neg hx, if_pos hl]
          exact h1
        · intro k hk
          exact hlow k (by omega)
        · rw [List.filter_cons_of_pos (by simp [explosion_entry]; omega),
            explosions_from_cons (show i < s1.explosion_count by omega), hent]
          exact List.Perm.cons _ hperm
        · intro k hk1 hk2
          by_cases hki : k = i
          · subst hki
            have he : s1.explosion_end_ticks k = s.explosion_end_ticks k :=
              congrArg Prod.snd hent
            rw [he, if_pos hl, hfo k (Or.inl (by omega))]
            exact set_at_same _ _ _
          · exact (hfr k (by omega) hk2).trans
              (if_congr Iff.rfl rfl (set_at_other s.explosion_frame 1 hki))
        · intro k hk
          have hki : k ≠ i := by omega
          rw [hfo k (by omega)]
          exact set_at_other _ _ hki
      · -- at least half the lifetime left: nothing is written
        obtain ⟨s1, h1, hlo, hhi, hlow, hperm, hfr, hfo⟩ := ih (i + 1) s hilt (by omega)
        have hent : explosion_entry s1 i = explosion_entry s i := hlow i (by omega)
        refine ⟨s1, ?_, by omega, hhi, ?_, ?_, ?_, ?_⟩
        · rw [age_explosions, if_pos hilt, if_neg hx, if_neg hl]
          exact h1
        · intro k hk
          exact hlow k (by omega)
        · rw [List.filter_cons_of_pos (by simp [explosion_entry]; omega),
            explosions_from_cons (show i < s1.explosion_count by omega), hent]
          exact List.Perm.cons _ hperm
        · intro k hk1 hk2
          by_cases hki : k = i
          · subst hki
            have he : s1.explosion_end_ticks k = s.explosion_end_ticks k :=
              congrArg Prod.snd hent
            rw [he, if_neg hl, hfo k (Or.inl (by omega))]
          · exact hfr k (by omega) hk2
        · intro k hk
          exact hfo k (by omega)

/-! ## The explosion append -/

/-- What the explosion append stores when the store is not full: the given position and the
expiry tick `ticks + EXPLOSION_TIME` (as an `int`) in the slot `explosion_count`; the phase
flags are not written. -/
theorem spawn_explosion_entry (ticks : Int) (p : Vector2 F) (s : State F)
    (h : s.explosion_count < MAX_EXPLOSIONS) :
    (spawn_explosion ticks p s).explosion_count = s.explosion_count + 1
      ∧ explosion_entry (spawn_explosion ticks p s) s.explosion_count
          = (p, wrap32 (ticks + EXPLOSION_TIME))
      ∧ (spawn_explosion ticks p s).explosion_frame = s.explosion_frame := by
  unfold spawn_explosion
  rw [if_pos h]
  exact ⟨rfl, by simp [explosion_entry], rfl⟩

theorem wrap32_toU32 (n : Int) : wrap32 (toU32 n) = wrap32 n := by
  unfold wrap32 toU32
  omega

/-- The steps of the fixed-timestep loop are steps of a run of the program. -/
theorem run_driver_loop [DecidableEq F] (ops : FloatOps F) (rnd : Nat → Int × Int)
    (current_ticks : Int) :
    ∀ (fuel k : Nat) (ticks : Int) (s s1 : State F), Run ops s ticks current_ticks →
      driver_loop ops rnd current_ticks fuel k ticks s = .ok s1 →
      ∃ t1, Run ops s1 t1 current_ticks ∧ wrap32 (current_ticks - t1) < TICKS_PER_FRAME := by
  intro fuel
  induction fuel with
  | zero =>
    intro k ticks s s1 hr h
    rw [driver_loop] at h
    split at h
    · cases h
    · rename_i hg
      injection h with h
      subst h
      exact ⟨ticks, hr, by omega⟩
  | succ n ih =>
    intro k ticks s s1 hr h
    rw [driver_loop] at h
    split at h
    · rename_i hg
      split at h
      · rename_i sa hsa
        exact ih _ _ _ _ (Run.tick _ _ hr hg hsa) h
      · cases h
    · rename_i hg
      injection h with h
      subst h
      exact ⟨ticks, hr, by omega⟩

/-- A driver invocation that returns, made when the fixed-timestep loop has ended, takes a
run of the program to a run of the program in which the loop has ended again. -/
theorem run_driver [DecidableEq F] (ops : FloatOps F) (rnd : Nat → Int × Int) (now : Int)
    {s s1 : State F} {t c : Int} (hr : Run ops s t c) (hidle : wrap32 (c - t) < TICKS_PER_FRAME)
    (h : driver ops rnd now s = .ok s1) :
    ∃ t1 c1, Run ops s1 t1 c1 ∧ wrap32 (c1 - t1) < TICKS_PER_FRAME := by
  unfold driver at h
  simp only at h
  have hf := Run.frame now hr hidle
  rw [wrap32_toU32] at hf
  obtain ⟨t1, h1, h2⟩ := run_driver_loop ops rnd _ _ _ _ _ _ hf h
  exact ⟨t1, _, h1, h2⟩

/-- C15 (explosion spawn record), the failing input.  A run of the program: at clock 0 a
resting satellite is deployed next to the first one; the driver invoked at 1024 ms runs 64
steps, in which the two satellites collide (step 0), the explosion in slot 0 turns late (its
phase flag is set to 1) and expires; then two resting satellites are deployed at
`(0.5, 0.5)`.  In the state `s` so reached the explosion store is empty and the phase flag of
slot 0 is still 1.  The next step, with the clock 1024, appends the explosion of the two
satellites with `explosion_count = 0 < MAX_EXPLOSIONS`: position and expiry tick are as
claimed, `(0.5, 0.5)` and `1024 + 1000`, but the phase flag of the new explosion is 1 (late),
because lines 309-313 do not write `explosion_frame`. -/
theorem explosion_spawn_stale_phase :
    ∃ s : State Frac, (∃ t c, Run exact_ops s t c ∧ wrap32 (c - t) < TICKS_PER_FRAME)
      ∧ s.last_ticks = 1024 ∧ s.satellite_count = 2
      ∧ s.explosion_count = 0 ∧ s.explosion_count < MAX_EXPLOSIONS ∧ s.explosion_frame 0 = 1
      ∧ (spawn_explosion 1024 (s.satellite_positions 0) s).explosion_frame s.explosion_count = 1
      ∧ ∃ s1, tick exact_ops 1024 1040 0 0 s = .ok s1 ∧ s1.satellite_count = 0
        ∧ s1.explosion_count = 1
        ∧ s1.explosion_positions 0 = s.satellite_positions 0
        ∧ s1.explosion_end_ticks 0 = 1024 + 1000
        ∧ s1.explosion_frame 0 = 1 := by
  have hd : ∃ sb, driver exact_ops (fun _ => (0, 0)) 1024 two_close = .ok sb
      ∧ (deploy_pair sb).last_ticks = 1024 ∧ (deploy_pair sb).satellite_count = 2
      ∧ (deploy_pair sb).explosion_count = 0 ∧ (deploy_pair sb).explosion_frame 0 = 1
      ∧ (spawn_explosion 1024 ((deploy_pair sb).satellite_positions 0)
          (deploy_pair sb)).explosion_frame (deploy_pair sb).explosion_count = 1
      ∧ ∃ s1, tick exact_ops 1024 1040 0 0 (deploy_pair sb) = .ok s1 ∧ s1.satellite_count = 0
        ∧ s1.explosion_count = 1
        ∧ s1.explosion_positions 0 = (deploy_pair sb).satellite_positions 0
        ∧ s1.explosion_end_ticks 0 = 1024 + 1000
        ∧ s1.explosion_frame 0 = 1 :=
    ⟨_, rfl, by decide, by decide, by decide, by decide, by decide, _, rfl, by decide⟩
  obtain ⟨sb, hsb, hl, hc, he, hf, hsp, s1, hs1, hrest⟩ := hd
  have hr0 : Run exact_ops two_close 0 0 :=
    Run.deploy _ _ (Run.init 0) (by decide)
  obtain ⟨t1, c1, hr1, hi1⟩ := run_driver exact_ops _ 1024 hr0 (by decide) hsb
  have hr2 : Run exact_ops (deploy_pair sb) t1 c1 :=
    Run.deploy _ _ (Run.deploy _ _ hr1 hi1) hi1
  exact ⟨deploy_pair sb, ⟨t1, c1, hr2, hi1⟩, hl, hc, he, by rw [he]; decide, hf, hsp, s1, hs1,
    hrest⟩

/-! ## The score -/

theorem claimed_count_succ (s : State F) (n : Nat) :
    claimed_count s (n + 1)
      = claimed_count s n + if s.satellite_to_guy n ≠ -1 then 1 else 0 := by
  unfold claimed_count
  rw [List.range_succ, List.countP_append]
  by_cases h : s.satellite_to_guy n = -1 <;> simp [h]

theorem claimed_count_congr {s s1 : State F} {n : Nat}
    (h : ∀ k, k < n → s1.satellite_to_guy k = s.satellite_to_guy k) :
    claimed_count s1 n = claimed_count s n := by
  unfold claimed_count
  apply List.countP_congr
  intro k hk
  rw [h k (List.mem_range.mp hk)]

theorem claimed_targets_length (s : State F) (n : Nat) :
    (claimed_targets s n).length = claimed_count s n := by
  unfold claimed_targets claimed_count
  rw [← List.countP_eq_length_filter, List.countP_map]
  rfl

theorem claimed_targets_nodup (s : State F) :
    ∀ n, claims_exclusive s n → (claimed_targets s n).Nodup := by
  intro n
  induction n with
  | zero =>
    intro _
    simp [claimed_targets]
  | succ m ih =>
    intro hx
    have hm : claims_exclusive s m := fun a b ha hb => hx a b (by omega) (by omega)
    have hsplit : claimed_targets s (m + 1)
        = claimed_targets s m ++ [s.satellite_to_guy m].filter (fun g => decide (g ≠ -1)) := by
      simp [claimed_targets, List.range_succ]
    rw [hsplit]
    refine List.Nodup.append (ih hm) ((List.nodup_singleton _).sublist (List.filter_sublist _)) ?_
    intro x hx1 hx2
    rw [List.mem_filter] at hx2
    obtain ⟨hx3, hx4⟩ := hx2
    rw [List.mem_singleton] at hx3
    unfold claimed_targets at hx1
    rw [List.mem_filter, List.mem_map] at hx1
    obtain ⟨⟨k, hk, hkx⟩, -⟩ := hx1
    rw [List.mem_range] at hk
    have := hx k m (by omega) (by omega) (by omega) (by rw [hkx, hx3])
    rw [hkx] at this
    simp [this] at hx4

/-- The claimed count that the loop over the satellites leaves is the number of live
satellites that hold a target index. -/
theorem satellite_loop_claimed [DecidableEq F] (ops : FloatOps F) (ticks : Int) {fuel : Nat}
    {s s1 : State F} (h : satellite_loop ops ticks fuel 0 s = .ok s1) :
    s1.guy_picked_count = s.guy_picked_count + (claimed_count s1 s1.satellite_count : Int) := by
  obtain ⟨i1, ⟨hle1, hcnt⟩, hle⟩ := satellite_loop_invariant ops ticks
    (fun i t => i ≤ t.satellite_count
      ∧ t.guy_picked_count = s.guy_picked_count + (claimed_count t i : Int))
    (by
      intro i t t1 t2 t3 ⟨hi0, hc⟩ h1 h2 h3
      obtain ⟨-, pa, -, ca, ga, hi, -⟩ := physics_step_frame h1
      obtain ⟨-, pb, -⟩ := collision_scan_frame ops ticks i _ _ _ _ _ _ h2
      obtain ⟨sb, ab, hb, hib, -, -, hlow⟩ := collision_scan_start ops ticks (i := i) (s := t1)
        (by omega)
      rw [h2] at hb
      injection hb with hb
      injection hb with hb1 hb2
      subst hb1
      obtain ⟨-, -, -, -, -, c3, hother, hslot⟩ := assign_target_spec h3
      have hold : ∀ k, k < i → t3.satellite_to_guy k = t.satellite_to_guy k := by
        intro k hk
        have := congrArg (fun r => r.2.2) (hlow k (by omega))
        simp only [satellite_record] at this
        rw [hother k (by omega), this, ga]
      refine ⟨by omega, ?_⟩
      rw [claimed_count_succ, claimed_count_congr hold]
      rcases hslot with ⟨h6, h7⟩ | ⟨g, -, -, h6, -, h7⟩
      · rw [h7.2, pb.2, pa.2, hc, h6]
        simp
      · rw [h7, pb.2, pa.2, hc, h6]
        have : ((g : Int) ≠ -1) := by omega
        simp [this]
        omega)
    (by
      intro i t t1 t2 t3 ⟨hi0, hc⟩ h1 h2 h3
      obtain ⟨-, pa, -, ca, ga, hi, -⟩ := physics_step_frame h1
      obtain ⟨-, pb, -⟩ := collision_scan_frame ops ticks i _ _ _ _ _ _ h2
      obtain ⟨sb, ab, hb, hib, -, -, hlow⟩ := collision_scan_start ops ticks (i := i) (s := t1)
        (by omega)
      rw [h2] at hb
      injection hb with hb
      injection hb with hb1 hb2
      subst hb1
      obtain ⟨-, pc, -⟩ := delete_satellite_frame h3
      obtain ⟨hrec, c3, -⟩ := delete_satellite_record h3
      have hold : ∀ k, k < i → t3.satellite_to_guy k = t.satellite_to_guy k := by
        intro k hk
        have h5 := congrArg (fun r => r.2.2) (congrFun hrec k)
        rw [set_at_other _ _ (by omega)] at h5
        have h6 := congrArg (fun r => r.2.2) (hlow k (by omega))
        simp only [satellite_record] at h5 h6
        rw [h5, h6, ga]
      refine ⟨by omega, ?_⟩
      rw [claimed_count_congr hold, pc.2, pb.2, pa.2, hc])
    fuel 0 s s1 ⟨Nat.zero_le _, by simp [claimed_count]⟩ h
  have : i1 = s1.satellite_count := by omega
  rw [hcnt, this]

/-! ## Every survivor is stepped once and assigned once -/

theorem subperm_map {α β : Type} (f : α → β) {l1 l2 : List α} (h : List.Subperm l1 l2) :
    List.Subperm (l1.map f) (l2.map f) := by
  obtain ⟨l, hp, hs⟩ := h
  exact ⟨l.map f, hp.map f, hs.map f⟩

theorem window_map {α β : Type} (g : α → β) (f : Nat → α) (a n : Nat) :
    window (fun k => g (f k)) a n = (window f a n).map g := by
  simp [window, List.map_map, Function.comp_def]

theorem motions_from_eq_map (s : State F) (j : Nat) :
    motions_from s j = (satellites_from s j).map (fun r => (r.1, r.2.1)) := by
  unfold motions_from satellites_from
  rw [← window_map]
  rfl

theorem motions_from_cons {s : State F} {j : Nat} (h : j < s.satellite_count) :
    motions_from s j = satellite_motion s j :: window (satellite_motion s) (j + 1)
      (s.satellite_count - (j + 1)) := by
  unfold motions_from
  rw [show s.satellite_count - j = (s.satellite_count - (j + 1)) + 1 by omega, window_succ_cons]

theorem motion_of_record {s s1 : State F} {k m : Nat}
    (h : satellite_record s1 k = satellite_record s m) :
    satellite_motion s1 k = satellite_motion s m := by
  have h1 := congrArg (fun r => r.1) h
  have h2 := congrArg (fun r => r.2.1) h
  simp only [satellite_record] at h1 h2
  simp only [satellite_motion, h1, h2]

/-- The physics step of satellite `i` writes the stepped position and velocity of satellite
`i` and nothing else of the satellite store. -/
theorem physics_step_motion {ops : FloatOps F} {i : Nat} {s s1 : State F}
    (h : physics_step ops i s = .ok s1) :
    satellite_motion s1 i = stepped ops (satellite_motion s i)
      ∧ (∀ k, k ≠ i → satellite_motion s1 k = satellite_motion s k)
      ∧ s1.satellite_count = s.satellite_count := by
  unfold physics_step at h
  split at h
  · injection h with h
    subst h
    refine ⟨?_, ?_, rfl⟩
    · simp [satellite_motion, stepped]
    · intro k hk
      simp [satellite_motion, set_at, hk]
  · cases h

/-- The moving and colliding part of the loop over the satellites, from index `i` on: it
returns, the slots below `i` are untouched, and the satellites it leaves in the slots from
`i` on are, one to one, satellites that were in the slots from `i` on, each with the position
and velocity one physics step makes of the position and velocity it had. -/
theorem move_and_collide_stepped (ops : FloatOps F) (ticks : Int) :
    ∀ (fuel i : Nat) (s : State F), s.satellite_count - i ≤ fuel → i ≤ s.satellite_count →
      ∃ s1, move_and_collide ops ticks fuel i s = .ok s1
        ∧ (∀ k, k < i → satellite_motion s1 k = satellite_motion s k)
        ∧ i ≤ s1.satellite_count
        ∧ List.Subperm (motions_from s1 i) ((motions_from s i).map (stepped ops)) := by
  intro fuel
  induction fuel with
  | zero =>
    intro i s hf hi
    refine ⟨s, by rw [move_and_collide, if_neg (by omega)], fun _ _ => rfl, hi, ?_⟩
    unfold motions_from
    rw [show s.satellite_count - i = 0 by omega]
    exact List.Subperm.refl _
  | succ n ih =>
    intro i s hf hi
    rw [move_and_collide]
    by_cases hlt : i < s.satellite_count
    · rw [if_pos hlt]
      obtain ⟨sa, hsa⟩ := physics_step_ok ops hlt
      obtain ⟨hma, hoa, ca⟩ := physics_step_motion hsa
      rw [hsa]
      simp only
      obtain ⟨sb, hsb, hcb, hlow, hperm, -⟩ :=
        collision_scan_satellites ops ticks i (sa.satellite_count - (i + 1)) (i + 1) true sa
          (by omega) (by omega) rfl
      have hcle : sb.satellite_count ≤ sa.satellite_count := by omega
      -- the satellites behind `i` after the scan are among those before the physics step
      have hsub : List.Subperm (motions_from sb (i + 1)) (motions_from s (i + 1)) := by
        have h1 : motions_from sa (i + 1) = motions_from s (i + 1) := by
          unfold motions_from
          rw [ca]
          exact window_congr (fun k hk _ => hoa k (by omega))
        rw [← h1, motions_from_eq_map, motions_from_eq_map]
        exact subperm_map _ (hperm.subperm.trans (List.filter_sublist _).subperm)
      have hib : i < sb.satellite_count := by
        have hle : (satellites_from sa (i + 1)).countP
            (record_collides ops (sa.satellite_positions i)) ≤ sa.satellite_count - (i + 1) := by
          have := List.countP_le_length (record_collides ops (sa.satellite_positions i))
            (l := satellites_from sa (i + 1))
          simpa [satellites_from] using this
        omega
      have hmi : satellite_motion sb i = stepped ops (satellite_motion s i) := by
        rw [motion_of_record (hlow i (by omega)), hma]
      rw [hsb]
      simp only
      rw [motions_from_cons hlt, List.map_cons]
      split
      · -- satellite `i` survives: the loop goes on behind it
        obtain ⟨sc, hsc, hlc, hic, hpc⟩ := ih (i + 1) sb (by omega) (by omega)
        refine ⟨sc, hsc, ?_, by omega, ?_⟩
        · intro k hk
          rw [hlc k (by omega), motion_of_record (hlow k (by omega)), hoa k (by omega)]
        · rw [motions_from_cons (show i < sc.satellite_count by omega), hlc i (by omega), hmi]
          exact (List.subperm_cons _).mpr (hpc.trans (subperm_map _ hsub))
      · -- satellite `i` was hit: it is removed and the loop goes on at the same index
        obtain ⟨sd, hsd⟩ : ∃ sd, delete_satellite i sb = .ok sd := ⟨_, delete_satellite_ok hib⟩
        obtain ⟨hrd, hcd, -⟩ := delete_satellite_record hsd
        rw [hsd]
        simp only
        obtain ⟨sc, hsc, hlc, hic, hpc⟩ := ih i sd (by omega) (by omega)
        have hmd : satellite_motion sd
            = set_at (satellite_motion sb) i (satellite_motion sb (sb.satellite_count - 1)) := by
          funext k
          have := congrFun hrd k
          by_cases hk : k = i
          · rw [hk, set_at_same] at this ⊢
            exact motion_of_record this
          · rw [set_at_other _ _ hk] at this ⊢
            exact motion_of_record this
        have hfrom : (motions_from sd i).Perm (motions_from sb (i + 1)) := by
          unfold motions_from
          rw [hmd, hcd, show sb.satellite_count - 1 - i = sb.satellite_count - (i + 1) by omega]
          have := window_swap_remove (satellite_motion sb) i (sb.satellite_count - (i + 1))
          rwa [show i + (sb.satellite_count - (i + 1)) = sb.satellite_count - 1 by omega] at this
        refine ⟨sc, hsc, ?_, hic, ?_⟩
        · intro k hk
          rw [hlc k hk, hmd, set_at_other _ _ (by omega), motion_of_record (hlow k (by omega)),
            hoa k (by omega)]
        · exact List.Subperm.cons_right _
            (hpc.trans (subperm_map _ (hfrom.subperm.trans hsub)))
    · rw [if_neg hlt]
      refine ⟨s, rfl, fun _ _ => rfl, hi, ?_⟩
      unfold motions_from
      rw [show s.satellite_count - i = 0 by omega]
      exact List.Subperm.refl _

/-- The target assignment of the satellites from index `i` on leaves the positions, the
velocities and the number of the satellites as they are. -/
theorem assign_from_frame [DecidableEq F] (ops : FloatOps F) :
    ∀ (fuel i : Nat) (s s1 : State F), assign_from ops fuel i s = .ok s1 →
      s1.satellite_count = s.satellite_count
        ∧ s1.satellite_positions = s.satellite_positions
        ∧ s1.satellite_velocities = s.satellite_velocities := by
  intro fuel
  induction fuel with
  | zero =>
    intro i s s1 h
    rw [assign_from] at h
    split at h
    · cases h
    · injection h with h
      subst h
      exact ⟨rfl, rfl, rfl⟩
  | succ n ih =>
    intro i s s1 h
    rw [assign_from] at h
    split at h
    · split at h
      · rename_i sa hsa
        obtain ⟨-, -, -, hp, hv, hc, -, -⟩ := assign_target_spec hsa
        obtain ⟨c2, p2, v2⟩ := ih _ _ _ h
        exact ⟨c2.trans hc, p2.trans hp, v2.trans hv⟩
      · cases h
    · injection h with h
      subst h
      exact ⟨rfl, rfl, rfl⟩

/-- C19 (each survivor is processed exactly once).  From every state the loop over the
satellites of one step ends (it does not run out of the fuel `satellite_count`), and it equals
the moving and colliding of all satellites followed by one pass of the target assignment over
the survivors, one call for each in index order.  The moving and colliding returns a store
`sm` whose satellites are, one to one, satellites of the start of the step (a sub-multiset),
each with the position and velocity one physics step makes of its position and velocity at
the start, the position being the old position plus the old velocity.  The step then returns
a state with these satellites, positions and velocities, or its assignment pass ends in the
read of `guy_picked` out of bounds, which needs more than 960 targets. -/
theorem survivors_processed_once [DecidableEq F] (ops : FloatOps F)
    (ticks current_ticks r1 r2 : Int) (s : State F) :
    (∀ r, (stepped ops r).1 = Vector2.add_assign ops r.1 r.2)
      ∧ ∃ sm, move_and_collide ops ticks s.satellite_count 0 (begin_tick ops s) = .ok sm
        ∧ List.Subperm (motions_from sm 0) ((motions_from s 0).map (stepped ops))
        ∧ satellite_loop ops ticks s.satellite_count 0 (begin_tick ops s)
            = assign_from ops sm.satellite_count 0 sm
        ∧ ((∃ s1, tick ops ticks current_ticks r1 r2 s = .ok s1
              ∧ s1.satellite_count = sm.satellite_count
              ∧ s1.satellite_positions = sm.satellite_positions
              ∧ s1.satellite_velocities = sm.satellite_velocities)
          ∨ (tick ops ticks current_ticks r1 r2 s = .error .guy_picked_index
              ∧ 64 * GUY_PICKED_WORDS < s.guy_count)) := by
  refine ⟨fun _ => rfl, ?_⟩
  obtain ⟨sm, hsm, -, -, hsub⟩ :=
    move_and_collide_stepped ops ticks (begin_tick ops s).satellite_count 0 (begin_tick ops s)
      (by omega) (Nat.zero_le _)
  have heq : satellite_loop ops ticks (begin_tick ops s).satellite_count 0 (begin_tick ops s)
      = assign_from ops sm.satellite_count 0 sm := by
    rw [satellite_loop_eq_two_pass ops ticks _ 0 _ (by omega) (Nat.zero_le _), hsm]
    rfl
  refine ⟨sm, hsm, hsub, heq, ?_⟩
  rcases tick_cases ops ticks current_ticks r1 r2 s with ⟨s1, h1⟩ | h1
  · left
    obtain ⟨sa, sb, hsa, hsb, hs1⟩ := tick_unfold ops h1
    obtain ⟨c1, p1, v1⟩ := assign_from_frame ops _ _ _ _ (heq ▸ hsa)
    obtain ⟨-, -, qb, -⟩ := age_explosions_frame ticks _ _ _ _ hsb
    obtain ⟨qc, -⟩ := spawn_guy_frame ops ticks r1 r2 sb
    subst hs1
    exact ⟨_, h1, (qc.2.2.2.trans qb.2.2.2).trans c1, (qc.1.trans qb.1).trans p1,
      (qc.2.1.trans qb.2.1).trans v1⟩
  · exact Or.inr h1

/-! ## The driver over several frames -/

/-- One driver invocation for tick counts in the range of the `int` of the code: as many
steps as whole step lengths fit between `last_ticks` and `now`. -/
theorem driver_in_range [DecidableEq F] (ops : FloatOps F) (rnd : Nat → Int × Int)
    (now : Int) (s : State F) (h0 : 0 ≤ s.last_ticks) (h1 : s.last_ticks ≤ now)
    (h2 : now < 2147483648) :
    driver ops rnd now s
      = fixed_steps ops rnd now (Int.toNat ((now - s.last_ticks) / 16)) 0 s.last_ticks s := by
  unfold driver
  simp only
  rw [wrap32_of_int_range (n := now) (by omega) h2,
    wrap32_of_int_range (n := s.last_ticks) (by omega) (by omega),
    wrap32_of_int_range (n := now - s.last_ticks) (by omega) (by omega), ticks_per_frame_eq]
  exact driver_loop_eq_fixed_steps ops rnd now h2 _ 0 _ s h0 h1 rfl

theorem final_time_mono {a b : Int} (h : a ≤ b) : ∀ l : List Int, final_time a l ≤ final_time b l
  | [] => h
  | _ :: _ => le_refl _

theorem non_decreasing_of_le {a b : Int} (h : a ≤ b) :
    ∀ l : List Int, non_decreasing b l = true → non_decreasing a l = true := by
  intro l
  cases l with
  | nil =>
    intro _
    rfl
  | cons t rest =>
    intro hb
    simp only [non_decreasing, Bool.and_eq_true, decide_eq_true_eq] at hb ⊢
    exact ⟨le_trans h hb.1, hb.2⟩

/-- The steps of a schedule never add up to more than the whole step lengths between the
first and the last time. -/
theorem schedule_steps_le :
    ∀ (times : List Int) (last : Int), non_decreasing last times = true →
      16 * (schedule_steps (frame_schedule last times) : Int) ≤ final_time last times - last := by
  intro times
  induction times with
  | nil =>
    intro last _
    simp [frame_schedule, schedule_steps, final_time]
  | cons now rest ih =>
    intro last hc
    simp only [non_decreasing, Bool.and_eq_true, decide_eq_true_eq] at hc
    obtain ⟨hle, hrest⟩ := hc
    simp only [frame_schedule, schedule_steps, final_time]
    by_cases hz : Int.toNat ((now - last) / 16) = 0
    · rw [if_pos hz, hz]
      have h1 := ih last (non_decreasing_of_le hle rest hrest)
      have h2 := final_time_mono hle rest
      push_cast
      omega
    · rw [if_neg hz]
      have h1 := ih now hrest
      push_cast
      omega

/-- When all frame times are a whole number of step lengths after the first time, the steps
of the schedule add up to all the step lengths between the first and the last time. -/
theorem schedule_steps_eq :
    ∀ (times : List Int) (last : Int), non_decreasing last times = true →
      (∀ t, t ∈ times → (t - last) % 16 = 0) →
      16 * (schedule_steps (frame_schedule last times) : Int) = final_time last times - last := by
  intro times
  induction times with
  | nil =>
    intro last _ _
    simp [frame_schedule, schedule_steps, final_time]
  | cons now rest ih =>
    intro last hc hm
    simp only [non_decreasing, Bool.and_eq_true, decide_eq_true_eq] at hc
    obtain ⟨hle, hrest⟩ := hc
    have hnow := hm now (List.mem_cons_self _ _)
    simp only [frame_schedule, schedule_steps, final_time]
    by_cases hz : Int.toNat ((now - last) / 16) = 0
    · rw [if_pos hz, hz]
      have heq : now = last := by omega
      have h1 := ih last (non_decreasing_of_le hle rest hrest)
        (fun t ht => hm t (List.mem_cons_of_mem _ ht))
      rw [heq]
      push_cast
      omega
    · rw [if_neg hz]
      have h1 := ih now hrest (fun t ht => by
        have := hm t (List.mem_cons_of_mem _ ht)
        omega)
      push_cast
      omega

/-- The frames run the steps of their schedule. -/
theorem frames_eq_schedule [DecidableEq F] (ops : FloatOps F) (rnds : Nat → Nat → Int × Int) :
    ∀ (times : List Int) (f : Nat) (s : State F), 0 ≤ s.last_ticks →
      non_decreasing s.last_ticks times = true → (∀ t, t ∈ times → t < 2147483648) →
      frames ops rnds f times s = run_schedule ops rnds f (frame_schedule s.last_ticks times) s := by
  intro times
  induction times with
  | nil =>
    intro f s _ _ _
    rfl
  | cons now rest ih =>
    intro f s h0 hc hb
    simp only [non_decreasing, Bool.and_eq_true, decide_eq_true_eq] at hc
    obtain ⟨hle, hrest⟩ := hc
    have hnow := hb now (List.mem_cons_self _ _)
    rw [frames, frame_schedule, run_schedule, driver_in_range ops (rnds f) now s h0 hle hnow]
    simp only
    cases hfs : fixed_steps ops (rnds f) now (Int.toNat ((now - s.last_ticks) / 16)) 0
        s.last_ticks s with
    | error e => rfl
    | ok s1 =>
      simp only
      by_cases hz : Int.toNat ((now - s.last_ticks) / 16) = 0
      · rw [hz, fixed_steps] at hfs
        injection hfs with hfs
        subst hfs
        rw [if_pos hz]
        exact ih (f + 1) s h0 (non_decreasing_of_le hle rest hrest)
          (fun t ht => hb t (List.mem_cons_of_mem _ ht))
      · rw [if_neg hz]
        obtain ⟨m, hm⟩ : ∃ m, Int.toNat ((now - s.last_ticks) / 16) = m + 1 :=
          ⟨_, (Nat.succ_pred_eq_of_ne_zero hz).symm⟩
        rw [hm] at hfs
        have hl := fixed_steps_last_ticks ops (rnds f) now m 0 _ _ _ hfs
        have hl2 : s1.last_ticks = now := by
          rw [hl]
          unfold toU32
          omega
        have := ih (f + 1) s1 (by omega) (by rw [hl2]; exact hrest)
          (fun t ht => hb t (List.mem_cons_of_mem _ ht))
        rw [hl2] at this
        exact this

/-- C11 (frame-rate independence), amended.  For a non-decreasing sequence of frame times
below `2^31` that starts at `last_ticks`, the driver invocations of the frames are the steps
of the schedule in which each frame runs `floor((now - last) / 16)` steps, `last` being the
time of the latest earlier frame that ran a step (the start time if there is none).  The total
number of steps is at most `floor((t_n - t_0) / 16)`, and it is equal to it when every frame
time is a whole number of step lengths after `t_0`. -/
theorem frame_steps_total [DecidableEq F] (ops : FloatOps F) (rnds : Nat → Nat → Int × Int)
    (times : List Int) (s : State F) (h0 : 0 ≤ s.last_ticks)
    (hc : non_decreasing s.last_ticks times = true)
    (hb : ∀ t, t ∈ times → t < 2147483648) :
    frames ops rnds 0 times s = run_schedule ops rnds 0 (frame_schedule s.last_ticks times) s
      ∧ schedule_steps (frame_schedule s.last_ticks times)
          ≤ Int.toNat ((final_time s.last_ticks times - s.last_ticks) / 16)
      ∧ ((∀ t, t ∈ times → (t - s.last_ticks) % 16 = 0) →
          schedule_steps (frame_schedule s.last_ticks times)
            = Int.toNat ((final_time s.last_ticks times - s.last_ticks) / 16)) := by
  refine ⟨frames_eq_schedule ops rnds times 0 s h0 hc hb, ?_, ?_⟩
  · have := schedule_steps_le times s.last_ticks hc
    omega
  · intro hm
    have := schedule_steps_eq times s.last_ticks hc hm
    omega

/-- Frames at 24 ms and 48 ms after the start: one step each. -/
theorem frame_steps_total_witness :
    0 ≤ (initial exact_ops 0).last_ticks
      ∧ non_decreasing (initial exact_ops 0).last_ticks [24, 48] = true
      ∧ (∀ t, t ∈ [(24 : Int), 48] → t < 2147483648)
      ∧ (frames exact_ops (fun _ _ => (0, 0)) 0 [24, 48] (initial exact_ops 0)
          = run_schedule exact_ops (fun _ _ => (0, 0)) 0
              (frame_schedule (initial exact_ops 0).last_ticks [24, 48]) (initial exact_ops 0)
        ∧ schedule_steps (frame_schedule (initial exact_ops 0).last_ticks [24, 48])
            ≤ Int.toNat ((final_time (initial exact_ops 0).last_ticks [24, 48]
                - (initial exact_ops 0).last_ticks) / 16)
        ∧ ((∀ t, t ∈ [(24 : Int), 48] → (t - (initial exact_ops 0).last_ticks) % 16 = 0) →
            schedule_steps (frame_schedule (initial exact_ops 0).last_ticks [24, 48])
              = Int.toNat ((final_time (initial exact_ops 0).last_ticks [24, 48]
                  - (initial exact_ops 0).last_ticks) / 16))) :=
  ⟨by decide, by decide, by decide,
    frame_steps_total exact_ops (fun _ _ => (0, 0)) [24, 48] (initial exact_ops 0) (by decide)
      (by decide) (by decide)⟩

/-- C11, counterexample.  Frame times `t_0 = 0 ≤ 24 ≤ 48`: the invocation at 24 runs one
step (clock 0) and leaves `last_ticks = 24`, dropping the 8 ms that were not consumed; the
invocation at 48 runs one step (clock 24).  That is 2 steps, not
`floor((48 - 0) / 16) = 3`: the state after the two frames has been rotated twice, the state
after 3 steps three times. -/
theorem frame_rate_counterexample :
    (initial exact_ops 0).last_ticks = 0
      ∧ frame_schedule 0 [24, 48] = [(0, 24, 1), (24, 48, 1)]
      ∧ schedule_steps (frame_schedule 0 [24, 48]) = 2
      ∧ Int.toNat ((48 - 0) / 16) = 3
      ∧ ∃ s1 s2 s3, driver exact_ops (fun _ => (0, 0)) 24 (initial exact_ops 0) = .ok s1
          ∧ s1.last_ticks = 24
          ∧ frames exact_ops (fun _ _ => (0, 0)) 0 [24, 48] (initial exact_ops 0) = .ok s2
          ∧ fixed_steps exact_ops (fun _ => (0, 0)) 48 3 0 0 (initial exact_ops 0) = .ok s3
          ∧ s2.planet_rotation = exact_ops.add (exact_ops.add (exact_ops.lit 0 0)
              (exact_ops.lit 1 1)) (exact_ops.lit 1 1)
          ∧ s3.planet_rotation = exact_ops.add (exact_ops.add (exact_ops.add (exact_ops.lit 0 0)
              (exact_ops.lit 1 1)) (exact_ops.lit 1 1)) (exact_ops.lit 1 1)
          ∧ s2.planet_rotation ≠ s3.planet_rotation :=
  ⟨by decide, by decide, by decide, by decide, _, _, _, rfl, by decide, rfl, rfl, by decide,
    by decide, by decide⟩

/-! ## The target spawner at the floor of the spawn interval -/

/-- The frames either all return or end in the fault of one of their steps. -/
theorem frames_cases [DecidableEq F] (ops : FloatOps F) (rnds : Nat → Nat → Int × Int) :
    ∀ (times : List Int) (f : Nat) (s : State F),
      (∃ s1, frames ops rnds f times s = .ok s1)
      ∨ frames ops rnds f times s = .error .guy_picked_index := by
  intro times
  induction times with
  | nil =>
    intro f s
    exact Or.inl ⟨s, rfl⟩
  | cons now rest ih =>
    intro f s
    rw [frames]
    rcases driver_cases ops (rnds f) now s with ⟨s1, h1⟩ | h1
    · rw [h1]
      exact ih (f + 1) s1
    · rw [h1]
      exact Or.inr rfl

theorem real_ops_exact : exact_real real_ops :=
  ⟨fun _ _ => rfl, fun _ _ => rfl, fun _ _ => rfl, fun _ _ => rfl, fun _ _ => rfl, fun _ => rfl,
    fun _ => rfl, fun _ _ => rfl⟩

/-- The cosine and the sine of the angle of a point other than the origin. -/
theorem cos_sin_arg (x y : ℝ) (h : x ≠ 0 ∨ y ≠ 0) :
    0 < x * x + y * y
      ∧ Real.cos (Complex.arg ⟨x, y⟩) = x / Real.sqrt (x * x + y * y)
      ∧ Real.sin (Complex.arg ⟨x, y⟩) = y / Real.sqrt (x * x + y * y) := by
  have hpos : 0 < x * x + y * y := by
    rcases h with h | h
    · have := mul_self_pos.mpr h
      nlinarith [mul_self_nonneg y]
    · have := mul_self_pos.mpr h
      nlinarith [mul_self_nonneg x]
  have hne : (⟨x, y⟩ : ℂ) ≠ 0 := by
    intro h0
    have h1 := congrArg Complex.re h0
    have h2 := congrArg Complex.im h0
    simp at h1 h2
    rcases h with h | h
    · exact h h1
    · exact h h2
  refine ⟨hpos, ?_, ?_⟩
  · rw [Complex.cos_arg hne, Complex.abs_apply, Complex.normSq_apply]
  · rw [Complex.sin_arg, Complex.abs_apply, Complex.normSq_apply]

/-- C17 (physics step over exact real arithmetic).  With the operations of the real numbers,
for a satellite with position `p` and velocity `v` whose moved position `q = p + v` is not the
origin, one physics step returns, stores the position `q` and the velocity
`v - 0.00001 * (1 / |q|^2) * (cos θ, sin θ)` with `θ` the angle of `q`, which is
`v - 0.00001 * q / |q|^3`; and when `q.x > 0` the new `velocity.x` is strictly less than
`v.x`. -/
theorem physics_step_exact (ops : FloatOps ℝ) (hops : exact_real ops) (i : Nat) (s : State ℝ)
    (p v q : Vector2 ℝ) (hi : i < s.satellite_count) (hp : s.satellite_positions i = p)
    (hv : s.satellite_velocities i = v) (hq : q = ⟨p.x + v.x, p.y + v.y⟩)
    (hne : q.x ≠ 0 ∨ q.y ≠ 0) :
    ∃ s1, physics_step ops i s = .ok s1
      ∧ s1.satellite_positions i = q
      ∧ s1.satellite_velocities i
          = ⟨v.x - 1 / 100000 * (1 / (q.x * q.x + q.y * q.y))
                * Real.cos (Complex.arg ⟨q.x, q.y⟩),
             v.y - 1 / 100000 * (1 / (q.x * q.x + q.y * q.y))
                * Real.sin (Complex.arg ⟨q.x, q.y⟩)⟩
      ∧ s1.satellite_velocities i
          = ⟨v.x - 1 / 100000 * (q.x / Real.sqrt (q.x * q.x + q.y * q.y) ^ 3),
             v.y - 1 / 100000 * (q.y / Real.sqrt (q.x * q.x + q.y * q.y) ^ 3)⟩
      ∧ (0 < q.x → (s1.satellite_velocities i).x < v.x) := by
  obtain ⟨hadd, hsub, hmul, hdiv, hatan, hcos, hsin, hlit⟩ := hops
  obtain ⟨hpos, hc, hs⟩ := cos_sin_arg q.x q.y hne
  have hsq : Real.sqrt (q.x * q.x + q.y * q.y) ^ 2 = q.x * q.x + q.y * q.y :=
    Real.sq_sqrt (le_of_lt hpos)
  have hsp : 0 < Real.sqrt (q.x * q.x + q.y * q.y) := Real.sqrt_pos.mpr hpos
  have hvel : ∃ s1, physics_step ops i s = .ok s1 ∧ s1.satellite_positions i = q
      ∧ s1.satellite_velocities i
          = ⟨v.x - 1 / 100000 * (1 / (q.x * q.x + q.y * q.y))
                * Real.cos (Complex.arg ⟨q.x, q.y⟩),
             v.y - 1 / 100000 * (1 / (q.x * q.x + q.y * q.y))
                * Real.sin (Complex.arg ⟨q.x, q.y⟩)⟩ := by
    refine ⟨_, by rw [physics_step, if_pos hi], ?_, ?_⟩
    · simp only [set_at_same, Vector2.add_assign, hadd, hp, hv, hq]
    · simp only [set_at_same, Vector2.add_assign, square_length, hadd, hsub, hmul, hdiv, hatan,
        hcos, hsin, hlit, hp, hv, hq]
      norm_num
  obtain ⟨s1, h1, h2, h3⟩ := hvel
  refine ⟨s1, h1, h2, h3, ?_, ?_⟩
  · rw [h3, hc, hs]
    have hr : Real.sqrt (q.x * q.x + q.y * q.y) ^ 3
        = (q.x * q.x + q.y * q.y) * Real.sqrt (q.x * q.x + q.y * q.y) := by
      rw [pow_succ, hsq]
    rw [hr]
    congr 1
    · field_simp
      ring
    · field_simp
      ring
  · intro hx
    rw [h3, hc]
    have : 0 < 1 / 100000 * (1 / (q.x * q.x + q.y * q.y))
        * (q.x / Real.sqrt (q.x * q.x + q.y * q.y)) := by positivity
    show v.x - _ < v.x
    linarith

/-- The physics step of the initial state over the real numbers: the satellite at `(0, 0.5)`
with velocity `(0.005, 0)` moves to `(0.005, 0.5)` and its `velocity.x` drops below 0.005. -/
theorem physics_step_exact_witness :
    exact_real real_ops ∧ 0 < (initial real_ops 0).satellite_count
      ∧ (initial real_ops 0).satellite_positions 0 = ⟨0, 1 / 2⟩
      ∧ (initial real_ops 0).satellite_velocities 0 = ⟨5 / 1000, 0⟩
      ∧ (⟨5 / 1000, 1 / 2⟩ : Vector2 ℝ) = ⟨0 + 5 / 1000, 1 / 2 + 0⟩
      ∧ ((5 / 1000 : ℝ) ≠ 0 ∨ (1 / 2 : ℝ) ≠ 0)
      ∧ ∃ s1, physics_step real_ops 0 (initial real_ops 0) = .ok s1
        ∧ s1.satellite_positions 0 = ⟨5 / 1000, 1 / 2⟩
        ∧ s1.satellite_velocities 0
            = ⟨5 / 1000 - 1 / 100000 * (1 / (5 / 1000 * (5 / 1000) + 1 / 2 * (1 / 2)))
                  * Real.cos (Complex.arg ⟨5 / 1000, 1 / 2⟩),
               0 - 1 / 100000 * (1 / (5 / 1000 * (5 / 1000) + 1 / 2 * (1 / 2)))
                  * Real.sin (Complex.arg ⟨5 / 1000, 1 / 2⟩)⟩
        ∧ s1.satellite_velocities 0
            = ⟨5 / 1000 - 1 / 100000
                  * (5 / 1000 / Real.sqrt (5 / 1000 * (5 / 1000) + 1 / 2 * (1 / 2)) ^ 3),
               0 - 1 / 100000
                  * (1 / 2 / Real.sqrt (5 / 1000 * (5 / 1000) + 1 / 2 * (1 / 2)) ^ 3)⟩
        ∧ ((0 : ℝ) < 5 / 1000 → (s1.satellite_velocities 0).x < 5 / 1000) := by
  have hpos : (initial real_ops 0).satellite_positions 0 = ⟨0, 1 / 2⟩ := by
    simp [initial, real_ops]
    norm_num
  have hvel : (initial real_ops 0).satellite_velocities 0 = ⟨5 / 1000, 0⟩ := by
    simp [initial, real_ops]
    norm_num
  have hq : (⟨5 / 1000, 1 / 2⟩ : Vector2 ℝ) = ⟨0 + 5 / 1000, 1 / 2 + 0⟩ := by
    simp
  have hne : (5 / 1000 : ℝ) ≠ 0 ∨ (1 / 2 : ℝ) ≠ 0 := by
    left
    norm_num
  exact ⟨real_ops_exact, Nat.one_pos, hpos, hvel, hq, hne,
    physics_step_exact real_ops real_ops_exact 0 (initial real_ops 0) ⟨0, 1 / 2⟩ ⟨5 / 1000, 0⟩
      ⟨5 / 1000, 1 / 2⟩ Nat.one_pos hpos hvel hq hne⟩

/-! ## The explosions a collision scan appends -/

/-- The explosions the inner collision loop of satellite `i` appends: the entries stored before
the loop are untouched, and every entry appended holds the position of satellite `i` and the
expiry tick `ticks + EXPLOSION_TIME`. -/
theorem collision_scan_explosions (ops : FloatOps F) (ticks : Int) (i : Nat) :
    ∀ (fuel j : Nat) (alive : Bool) (s s1 : State F) (a1 : Bool), i < j →
      collision_scan ops ticks i fuel j alive s = .ok (s1, a1) →
      s.explosion_count ≤ s1.explosion_count
        ∧ (∀ k, k < s.explosion_count → explosion_entry s1 k = explosion_entry s k)
        ∧ (∀ k, s.explosion_count ≤ k → k < s1.explosion_count →
            explosion_entry s1 k = (s.satellite_positions i, wrap32 (ticks + EXPLOSION_TIME))) := by
  intro fuel
  induction fuel with
  | zero =>
    intro j alive s s1 a1 hij h
    rw [collision_scan] at h
    split_ifs at h
    injection h with h
    injection h with h1 h2
    subst h1
    exact ⟨le_refl _, fun _ _ => rfl, fun k h1 h2 => absurd h2 (by omega)⟩
  | succ n ih =>
    intro j alive s s1 a1 hij h
    rw [collision_scan] at h
    by_cases hj : j < s.satellite_count
    · rw [if_pos hj] at h
      by_cases hi : i < s.satellite_count
      · rw [if_pos hi] at h
        by_cases hc : collides ops (s.satellite_positions i) (s.satellite_positions j) = true
        · rw [if_pos hc] at h
          cases hd : delete_satellite j (spawn_explosion ticks (s.satellite_positions i) s) with
          | error e => rw [hd] at h; cases h
          | ok sd =>
            rw [hd] at h
            simp only at h
            obtain ⟨hle, hold, hnew⟩ := ih j false sd s1 a1 hij h
            obtain ⟨-, -, ed⟩ := delete_satellite_frame hd
            obtain ⟨hrec, -, -⟩ := delete_satellite_record hd
            have hpos : sd.satellite_positions i = s.satellite_positions i := by
              have h1 := congrFun hrec i
              rw [set_at_other _ _ (by omega)] at h1
              have h2 := congrArg Prod.fst h1
              rw [(spawn_explosion_record ticks (s.satellite_positions i) s).1] at h2
              exact h2
            have hent : explosion_entry sd
                = explosion_entry (spawn_explosion ticks (s.satellite_positions i) s) := by
              funext k
              unfold explosion_entry
              rw [ed.1, ed.2.1]
            rw [hpos] at hnew
            by_cases hcap : s.explosion_count < MAX_EXPLOSIONS
            · obtain ⟨c1, e1, -⟩ := spawn_explosion_entry ticks (s.satellite_positions i) s hcap
              have hcd : sd.explosion_count = s.explosion_count + 1 := by rw [ed.2.2.2, c1]
              have hother : ∀ k, k ≠ s.explosion_count →
                  explosion_entry (spawn_explosion ticks (s.satellite_positions i) s) k
                    = explosion_entry s k := by
                intro k hk
                unfold explosion_entry spawn_explosion
                rw [if_pos hcap]
                simp only
                rw [set_at_other _ _ hk, set_at_other _ _ hk]
              refine ⟨by omega, ?_, ?_⟩
              · intro k hk
                rw [hold k (by omega), hent, hother k (by omega)]
              · intro k hk1 hk2
                by_cases hk : k = s.explosion_count
                · rw [hold k (by omega), hent, hk, e1]
                · exact hnew k (by omega) hk2
            · have hsp : spawn_explosion ticks (s.satellite_positions i) s = s := by
                unfold spawn_explosion
                rw [if_neg hcap]
              rw [hsp] at hent
              have hcd : sd.explosion_count = s.explosion_count := by rw [ed.2.2.2, hsp]
              refine ⟨by omega, ?_, ?_⟩
              · intro k hk
                rw [hold k (by omega), hent]
              · intro k hk1 hk2
                exact hnew k (by omega) hk2
        · rw [if_neg hc] at h
          exact ih (j + 1) alive s s1 a1 (by omega) h
      · rw [if_neg hi] at h
        cases h
    · rw [if_neg hj] at h
      injection h with h
      injection h with h1 h2
      subst h1
      exact ⟨le_refl _, fun _ _ => rfl, fun k h1 h2 => absurd h2 (by omega)⟩

/-- C3 (explosions per destroying satellite), amended.  With explosion capacity left, when `k`
later satellites are within the threshold of satellite `i`, the inner collision loop of
satellite `i` returns with exactly these `k` satellites removed (the slots up to `i` are
untouched and the slots behind `i` hold the other later satellites, in some order) and with
`explosion_count` increased by one for every hit until the store is full, that is to
`min MAX_EXPLOSIONS (explosion_count + k)`; every explosion appended holds the position of
satellite `i` and the expiry tick `ticks + EXPLOSION_TIME`, the explosions stored before are
untouched, and `alive` is cleared exactly when `k ≥ 1`. -/
theorem explosions_per_hit (ops : FloatOps F) (ticks : Int) (s : State F) (i : Nat)
    (hi : i < s.satellite_count) (hcap : s.explosion_count < MAX_EXPLOSIONS) :
    ∃ s1, collision_scan ops ticks i (s.satellite_count - (i + 1)) (i + 1) true s
        = .ok (s1, decide ((satellites_from s (i + 1)).countP
            (record_collides ops (s.satellite_positions i)) = 0))
      ∧ s1.satellite_count + (satellites_from s (i + 1)).countP
            (record_collides ops (s.satellite_positions i)) = s.satellite_count
      ∧ (∀ k, k ≤ i → satellite_record s1 k = satellite_record s k)
      ∧ (satellites_from s1 (i + 1)).Perm ((satellites_from s (i + 1)).filter
            (fun r => !record_collides ops (s.satellite_positions i) r))
      ∧ s1.explosion_count = Nat.min MAX_EXPLOSIONS
          (s.explosion_count + (satellites_from s (i + 1)).countP
            (record_collides ops (s.satellite_positions i)))
      ∧ (∀ k, s.explosion_count ≤ k → k < s1.explosion_count →
          s1.explosion_positions k = s.satellite_positions i
            ∧ s1.explosion_end_ticks k = wrap32 (ticks + EXPLOSION_TIME))
      ∧ (∀ k, k < s.explosion_count →
          s1.explosion_positions k = s.explosion_positions k
            ∧ s1.explosion_end_ticks k = s.explosion_end_ticks k) := by
  obtain ⟨s1, h1, hcount, -, hlow, hperm, hexp⟩ := collision_scan_hits ops ticks hi
  obtain ⟨-, hold, hnew⟩ := collision_scan_explosions ops ticks i _ _ _ _ _ _ (by omega) h1
  refine ⟨s1, h1, hcount, hlow, hperm, ?_, ?_, ?_⟩
  · rw [hexp]
    simp only [MAX_EXPLOSIONS, Nat.max_def, Nat.min_def] at hcap ⊢
    split_ifs <;> omega
  · intro k hk1 hk2
    have := hnew k hk1 hk2
    exact ⟨congrArg Prod.fst this, congrArg Prod.snd this⟩
  · intro k hk
    have := hold k hk
    exact ⟨congrArg Prod.fst this, congrArg Prod.snd this⟩

/-- The scan of satellite 0 in `pile3`: both later satellites are removed and two explosions
are appended, both at the position of satellite 0. -/
theorem explosions_per_hit_witness :
    0 < pile3.satellite_count ∧ pile3.explosion_count < MAX_EXPLOSIONS
      ∧ (satellites_from pile3 (0 + 1)).countP
          (record_collides exact_ops (pile3.satellite_positions 0)) = 2
      ∧ ∃ s1, collision_scan exact_ops 0 0 (pile3.satellite_count - (0 + 1)) (0 + 1) true pile3
          = .ok (s1, decide ((satellites_from pile3 (0 + 1)).countP
              (record_collides exact_ops (pile3.satellite_positions 0)) = 0))
        ∧ s1.satellite_count + (satellites_from pile3 (0 + 1)).countP
              (record_collides exact_ops (pile3.satellite_positions 0)) = pile3.satellite_count
        ∧ (∀ k, k ≤ 0 → satellite_record s1 k = satellite_record pile3 k)
        ∧ (satellites_from s1 (0 + 1)).Perm ((satellites_from pile3 (0 + 1)).filter
              (fun r => !record_collides exact_ops (pile3.satellite_positions 0) r))
        ∧ s1.explosion_count = Nat.min MAX_EXPLOSIONS
            (pile3.explosion_count + (satellites_from pile3 (0 + 1)).countP
              (record_collides exact_ops (pile3.satellite_positions 0)))
        ∧ (∀ k, pile3.explosion_count ≤ k → k < s1.explosion_count →
            s1.explosion_positions k = pile3.satellite_positions 0
              ∧ s1.explosion_end_ticks k = wrap32 (0 + EXPLOSION_TIME))
        ∧ (∀ k, k < pile3.explosion_count →
            s1.explosion_positions k = pile3.explosion_positions k
              ∧ s1.explosion_end_ticks k = pile3.explosion_end_ticks k) :=
  ⟨by decide, by decide, by decide,
    explosions_per_hit exact_ops 0 pile3 0 (by decide) (by decide)⟩

/-! ## The lifecycle of an explosion -/

/-- A pass of the loop over the explosions in which no explosion from index `i` on has reached
its expiry tick: it returns, no explosion is moved or removed, and the only writes are the
phase flags 1 of the slots from `i` on whose explosion is less than `EXPLOSION_TIME / 2` before
its expiry. -/
theorem age_explosions_keeps (ticks : Int) :
    ∀ (fuel i : Nat) (s : State F), fuel = s.explosion_count - i →
      (∀ k, i ≤ k → k < s.explosion_count → ticks < s.explosion_end_ticks k) →
      ∃ s1, age_explosions ticks fuel i s = .ok s1
        ∧ s1.explosion_count = s.explosion_count
        ∧ s1.explosion_positions = s.explosion_positions
        ∧ s1.explosion_end_ticks = s.explosion_end_ticks
        ∧ ∀ k, s1.explosion_frame k
            = if i ≤ k ∧ k < s.explosion_count
                ∧ wrap32 (s.explosion_end_ticks k - ticks) < EXPLOSION_TIME / 2 then 1
              else s.explosion_frame k := by
  intro fuel
  induction fuel with
  | zero =>
    intro i s hf _
    refine ⟨s, ?_, rfl, rfl, rfl, ?_⟩
    · rw [age_explosions, if_neg (by omega)]
    · intro k
      rw [if_neg]
      omega
  | succ n ih =>
    intro i s hf hall
    have hilt : i < s.explosion_count := by omega
    have hx : ¬ ticks ≥ s.explosion_end_ticks i := by
      have := hall i (le_refl _) hilt
      omega
    by_cases hl : wrap32 (s.explosion_end_ticks i - ticks) < EXPLOSION_TIME / 2
    · obtain ⟨s1, h1, hc, hp, he, hfr⟩ :=
        ih (i + 1) { s with explosion_frame := set_at s.explosion_frame i 1 }
          (by show n = s.explosion_count - (i + 1); omega)
          (fun k hk1 hk2 => hall k (by omega) hk2)
      refine ⟨s1, ?_, hc, hp, he, ?_⟩
      · rw [age_explosions, if_pos hilt, if_neg hx, if_pos hl]
        exact h1
      · intro k
        rw [hfr k]
        show (if i + 1 ≤ k ∧ k < s.explosion_count
            ∧ wrap32 (s.explosion_end_ticks k - ticks) < EXPLOSION_TIME / 2 then 1
          else set_at s.explosion_frame i 1 k) = _
        by_cases hki : k = i
        · subst hki
          rw [if_neg (by omega), set_at_same, if_pos ⟨le_refl _, hilt, hl⟩]
        · rw [set_at_other _ _ hki]
          apply if_congr _ rfl rfl
          constructor
          · rintro ⟨a, b, c⟩
            exact ⟨by omega, b, c⟩
          · rintro ⟨a, b, c⟩
            exact ⟨by omega, b, c⟩
    · obtain ⟨s1, h1, hc, hp, he, hfr⟩ :=
        ih (i + 1) s (by omega) (fun k hk1 hk2 => hall k (by omega) hk2)
      refine ⟨s1, ?_, hc, hp, he, ?_⟩
      · rw [age_explosions, if_pos hilt, if_neg hx, if_neg hl]
        exact h1
      · intro k
        rw [hfr k]
        by_cases hki : k = i
        · subst hki
          rw [if_neg (by omega), if_neg (fun h => hl h.2.2)]
        · apply if_congr _ rfl rfl
          constructor
          · rintro ⟨a, b, c⟩
            exact ⟨by omega, b, c⟩
          · rintro ⟨a, b, c⟩
            exact ⟨by omega, b, c⟩

/-- C14 (explosion lifecycle), amended.  An explosion created at tick `T` is stored with the
expiry tick `wrap32 (T + EXPLOSION_TIME)`, which is `T + 1000` for tick counts in the range
of the clock.  The aging phase run at tick `ticks` on any explosion store returns, and for the
explosions with that expiry tick: at `ticks ≥ T + 1000` none is left in the store; at
`ticks < T + 1000` they are all still there (as many as before); one that is still there has
the phase flag 1 (late) when `T + 500 < ticks`, and at `ticks ≤ T + 500` the phase flag of the
slot it is in after the pass has not been written.  When the pass removes no explosion (no
stored explosion has reached its expiry tick), no explosion changes its slot, and such an
explosion keeps at `ticks ≤ T + 500` the phase flag it had before the pass: an early one
stays early. -/
theorem explosion_lifecycle [DecidableEq F] (T ticks : Int) (s : State F) (h0 : 0 ≤ T)
    (h1 : T < 2147482648) (h2 : 0 ≤ ticks) (h3 : ticks < 2147482648) :
    wrap32 (T + EXPLOSION_TIME) = T + 1000
      ∧ ∃ s1, age_explosions ticks s.explosion_count 0 s = .ok s1
        ∧ (∀ p : Vector2 F,
          (T + 1000 ≤ ticks → (p, wrap32 (T + EXPLOSION_TIME)) ∉ explosions_from s1 0)
          ∧ (ticks < T + 1000 →
              (explosions_from s1 0).countP (fun r => decide (r = (p, wrap32 (T + EXPLOSION_TIME))))
                = (explosions_from s 0).countP
                    (fun r => decide (r = (p, wrap32 (T + EXPLOSION_TIME)))))
          ∧ ∀ k, k < s1.explosion_count →
              explosion_entry s1 k = (p, wrap32 (T + EXPLOSION_TIME)) →
              (T + 500 < ticks → ticks < T + 1000 → s1.explosion_frame k = 1)
              ∧ (ticks ≤ T + 500 → s1.explosion_frame k = s.explosion_frame k))
        ∧ ((∀ j, j < s.explosion_count → ticks < s.explosion_end_ticks j) →
            s1.explosion_count = s.explosion_count
            ∧ ∀ k, k < s.explosion_count →
                s.explosion_end_ticks k = wrap32 (T + EXPLOSION_TIME) →
                explosion_entry s1 k = explosion_entry s k
                ∧ (T + 500 < ticks → s1.explosion_frame k = 1)
                ∧ (ticks ≤ T + 500 → s1.explosion_frame k = s.explosion_frame k)) := by
  have hw : wrap32 (T + EXPLOSION_TIME) = T + 1000 := by
    unfold wrap32 EXPLOSION_TIME
    omega
  have h500 : EXPLOSION_TIME / 2 = 500 := by decide
  refine ⟨hw, ?_⟩
  obtain ⟨s1, hs1, -, -, -, hperm, hfr, -⟩ := age_explosions_spec ticks _ 0 s (Nat.zero_le _) rfl
  refine ⟨s1, hs1, ?_, ?_⟩
  · intro p
    rw [hw]
    refine ⟨?_, ?_, ?_⟩
    · intro hge hmem
      have := (hperm.mem_iff).mp hmem
      rw [List.mem_filter] at this
      have h5 := this.2
      simp only [decide_eq_true_eq] at h5
      omega
    · intro hlt
      rw [hperm.countP_eq, List.countP_filter]
      apply List.countP_congr
      intro r _
      simp only [Bool.and_eq_true, decide_eq_true_eq]
      constructor
      · intro h
        exact h.1
      · intro h
        refine ⟨h, ?_⟩
        rw [h]
        exact hlt
    · intro k hk hent
      have he : s1.explosion_end_ticks k = T + 1000 := congrArg Prod.snd hent
      have hfk := hfr k (Nat.zero_le _) hk
      rw [he] at hfk
      have hd : wrap32 (T + 1000 - ticks) = T + 1000 - ticks := by
        unfold wrap32
        omega
      rw [hd, h500] at hfk
      constructor
      · intro ha hb
        rw [hfk, if_pos (by omega)]
      · intro ha
        rw [hfk, if_neg (by omega)]
  · intro hall
    obtain ⟨s2, hs2, hc, hp, he, hf⟩ := age_explosions_keeps ticks s.explosion_count 0 s rfl
      (fun k _ hk => hall k hk)
    have hs1b : age_explosions ticks s.explosion_count 0 s = .ok s1 := hs1
    rw [hs1b] at hs2
    injection hs2 with hs2
    subst hs2
    refine ⟨hc, ?_⟩
    intro k hk hend
    rw [hw] at hend
    have hlt := hall k hk
    have hd : wrap32 (s.explosion_end_ticks k - ticks) = T + 1000 - ticks := by
      rw [hend]
      unfold wrap32
      omega
    refine ⟨?_, ?_, ?_⟩
    · unfold explosion_entry
      rw [hp, he]
    · intro ha
      rw [hf k, if_pos ⟨Nat.zero_le _, hk, by rw [hd, h500]; omega⟩]
    · intro ha
      rw [hf k, if_neg (fun h => by
        have := h.2.2
        rw [hd, h500] at this
        omega)]

/-- The aging phase at tick 516 on the store that holds one explosion created at tick 0: the
explosion is still there, in its slot, and is late. -/
theorem explosion_lifecycle_witness :
    (0 : Int) ≤ 0 ∧ (0 : Int) < 2147482648 ∧ (0 : Int) ≤ 516 ∧ (516 : Int) < 2147482648
      ∧ (wrap32 (0 + EXPLOSION_TIME) = 0 + 1000
        ∧ ∃ s1, age_explosions 516 fresh_explosion.explosion_count 0 fresh_explosion = .ok s1
          ∧ (∀ p : Vector2 Frac,
            (0 + 1000 ≤ (516 : Int) → (p, wrap32 (0 + EXPLOSION_TIME)) ∉ explosions_from s1 0)
            ∧ ((516 : Int) < 0 + 1000 →
                (explosions_from s1 0).countP
                    (fun r => decide (r = (p, wrap32 (0 + EXPLOSION_TIME))))
                  = (explosions_from fresh_explosion 0).countP
                      (fun r => decide (r = (p, wrap32 (0 + EXPLOSION_TIME)))))
            ∧ ∀ k, k < s1.explosion_count →
                explosion_entry s1 k = (p, wrap32 (0 + EXPLOSION_TIME)) →
                ((0 : Int) + 500 < 516 → (516 : Int) < 0 + 1000 → s1.explosion_frame k = 1)
                ∧ ((516 : Int) ≤ 0 + 500 →
                    s1.explosion_frame k = fresh_explosion.explosion_frame k))
          ∧ ((∀ j, j < fresh_explosion.explosion_count →
                (516 : Int) < fresh_explosion.explosion_end_ticks j) →
              s1.explosion_count = fresh_explosion.explosion_count
              ∧ ∀ k, k < fresh_explosion.explosion_count →
                  fresh_explosion.explosion_end_ticks k = wrap32 (0 + EXPLOSION_TIME) →
                  explosion_entry s1 k = explosion_entry fresh_explosion k
                  ∧ ((0 : Int) + 500 < 516 → s1.explosion_frame k = 1)
                  ∧ ((516 : Int) ≤ 0 + 500 →
                      s1.explosion_frame k = fresh_explosion.explosion_frame k))) :=
  ⟨by decide, by decide, by decide, by decide,
    explosion_lifecycle 0 516 fresh_explosion (by decide) (by decide) (by decide) (by decide)⟩

/-- C14, counterexample.  First, the store `fresh_explosion` holds one explosion created at
tick `T = 0`: expiry tick 1000, phase flag 0 (early).  The aging phase run at tick
`T + 500 = 500` leaves it in the store with the phase flag 0: line 362 tests
`end - ticks < EXPLOSION_TIME / 2`, and `1000 - 500 < 500` is false.  It is late only from
the next tick on (here tick 516).  Second, the store `late_early` holds in slot 1 an explosion
created at tick `T = 900` (expiry tick 1900) that is early (phase flag 0).  The aging phase run
at tick `1000 < T + 500` removes the explosion of slot 0, which has expired, by moving the
explosion of slot 1 into slot 0, whose phase flag is 1: the explosion is still in the store and
is now late, 900 ticks before its expiry. -/
theorem late_at_half_counterexample :
    (fresh_explosion.explosion_count = 1 ∧ fresh_explosion.explosion_end_ticks 0 = 0 + 1000
      ∧ fresh_explosion.explosion_frame 0 = 0
      ∧ (∃ s1, age_explosions (0 + 500) fresh_explosion.explosion_count 0 fresh_explosion = .ok s1
          ∧ s1.explosion_count = 1 ∧ s1.explosion_end_ticks 0 = 1000
          ∧ s1.explosion_frame 0 = 0)
      ∧ ∃ s1, age_explosions 516 fresh_explosion.explosion_count 0 fresh_explosion = .ok s1
          ∧ s1.explosion_count = 1 ∧ s1.explosion_frame 0 = 1)
    ∧ (late_early.explosion_count = 2 ∧ late_early.explosion_end_ticks 1 = 900 + 1000
      ∧ late_early.explosion_frame 1 = 0 ∧ (1000 : Int) < 900 + 500
      ∧ ∃ s1, age_explosions 1000 late_early.explosion_count 0 late_early = .ok s1
          ∧ s1.explosion_count = 1
          ∧ explosion_entry s1 0 = explosion_entry late_early 1
          ∧ s1.explosion_frame 0 = 1) :=
  ⟨⟨by decide, by decide, by decide, ⟨_, rfl, by decide⟩, ⟨_, rfl, by decide⟩⟩,
    by decide, by decide, by decide, by decide, ⟨_, rfl, by decide⟩⟩

/-! ## The step with the accesses beyond `guy_picked` carried out -/

theorem closest_scan_run_total (o : Overrun F) (ops : FloatOps F) (s : State F)
    (p : Vector2 F) :
    ∀ (fuel j g0 : Nat) (d0 : F), s.guy_count - j ≤ fuel →
      ∃ r, closest_scan_run o ops s p fuel j g0 d0 = .ok r := by
  intro fuel
  induction fuel with
  | zero =>
    intro j g0 d0 hf
    exact ⟨_, by rw [closest_scan_run, if_neg (by omega)]⟩
  | succ n ih =>
    intro j g0 d0 hf
    rw [closest_scan_run]
    split
    · split
      · exact ih _ _ _ (by omega)
      · simp only
        split
        · exact ih _ _ _ (by omega)
        · exact ih _ _ _ (by omega)
    · exact ⟨_, rfl⟩

/-- Where the scan of the embedding with the fault returns, the scan with the accesses beyond
the array carried out returns the same. -/
theorem closest_scan_run_extends (o : Overrun F) (ops : FloatOps F) (s : State F)
    (p : Vector2 F) :
    ∀ (fuel j g0 : Nat) (d0 : F) (r : Nat × F), closest_scan ops s p fuel j g0 d0 = .ok r →
      closest_scan_run o ops s p fuel j g0 d0 = .ok r := by
  intro fuel
  induction fuel with
  | zero =>
    intro j g0 d0 r h
    rw [closest_scan] at h
    rw [closest_scan_run]
    exact h
  | succ n ih =>
    intro j g0 d0 r h
    rw [closest_scan] at h
    rw [closest_scan_run]
    by_cases hj : j < s.guy_count
    · rw [if_pos hj] at h ⊢
      by_cases hw : j / 64 < GUY_PICKED_WORDS
      · rw [if_pos hw] at h
        have hp : guy_is_picked_run o s j = guy_is_picked s j := by
          unfold guy_is_picked_run
          rw [if_pos hw]
        rw [hp]
        by_cases hq : guy_is_picked s j = true
        · rw [if_pos hq] at h ⊢
          exact ih _ _ _ _ h
        · rw [if_neg hq] at h ⊢
          simp only at h ⊢
          split at h
          · rename_i hc
            rw [if_pos hc]
            exact ih _ _ _ _ h
          · rename_i hc
            rw [if_neg hc]
            exact ih _ _ _ _ h
      · rw [if_neg hw] at h
        cases h
    · rw [if_neg hj] at h ⊢
      exact h

theorem assign_target_run_extends [DecidableEq F] (o : Overrun F) (ops : FloatOps F) {i : Nat}
    {s s1 : State F} (h : assign_target ops i s = .ok s1) :
    assign_target_run o ops i s = .ok s1 := by
  unfold assign_target at h
  unfold assign_target_run
  split at h
  · rename_i hi
    rw [if_pos hi]
    split at h
    · rename_i g d hscan
      rw [closest_scan_run_extends o ops s _ _ _ _ _ _ hscan]
      simp only
      unfold store_assignment at h
      unfold store_assignment_run
      rw [if_pos hi] at h ⊢
      by_cases hinf : d = ops.infinity
      · rw [if_pos hinf] at h ⊢
        exact h
      · rw [if_neg hinf] at h ⊢
        by_cases hw : g / 64 < GUY_PICKED_WORDS
        · rw [if_pos hw] at h ⊢
          exact h
        · rw [if_neg hw] at h
          cases h
    · cases h
  · cases h

theorem satellite_loop_run_extends [DecidableEq F] (o : Overrun F) (ops : FloatOps F)
    (ticks : Int) :
    ∀ (fuel i : Nat) (s s1 : State F), satellite_loop ops ticks fuel i s = .ok s1 →
      satellite_loop_run o ops ticks fuel i s = .ok s1 := by
  intro fuel
  induction fuel with
  | zero =>
    intro i s s1 h
    rw [satellite_loop] at h
    rw [satellite_loop_run]
    exact h
  | succ n ih =>
    intro i s s1 h
    rw [satellite_loop] at h
    rw [satellite_loop_run]
    split at h
    · rename_i hi
      rw [if_pos hi]
      split at h
      · rename_i sa hsa
        try rw [hsa]
        try simp only
        split at h
        · rename_i sb alive hsb
          try rw [hsb]
          try simp only
          cases alive with
          | true =>
            simp only [if_true] at h ⊢
            split at h
            · rename_i sc hsc
              rw [assign_target_run_extends o ops hsc]
              exact ih _ _ _ h
            · cases h
          | false =>
            simp only [Bool.false_eq_true, if_false] at h ⊢
            split at h
            · rename_i sc hsc
              try rw [hsc]
              exact ih _ _ _ h
            · cases h
        · cases h
      · cases h
    · rename_i hi
      rw [if_neg hi]
      exact h

/-- Where the step of the embedding with the fault returns, the step with the accesses beyond
the array carried out returns the same state, whatever these accesses do. -/
theorem tick_run_extends [DecidableEq F] (o : Overrun F) (ops : FloatOps F)
    {ticks current_ticks r1 r2 : Int} {s s1 : State F}
    (h : tick ops ticks current_ticks r1 r2 s = .ok s1) :
    tick_run o ops ticks current_ticks r1 r2 s = .ok s1 := by
  obtain ⟨sa, sb, hsa, hsb, hs1⟩ := tick_unfold ops h
  unfold tick_run
  simp only
  rw [satellite_loop_run_extends o ops ticks _ _ _ _ hsa]
  simp only
  rw [hsb, hs1]

/-- The target assignment with the accesses beyond the array carried out returns; when the
write beyond the array is as `overrun_spares` says, the assignment does not raise
`satellite_count`, leaves the spawn interval as it is and does not lower the score. -/
theorem assign_target_run_spec [DecidableEq F] (o : Overrun F) (ops : FloatOps F) {i : Nat}
    {s : State F} (hi : i < s.satellite_count) :
    ∃ s1, assign_target_run o ops i s = .ok s1
      ∧ (overrun_spares o →
          s1.satellite_count ≤ s.satellite_count
          ∧ s1.ticks_per_guy = s.ticks_per_guy ∧ s.score ≤ s1.score)
      ∧ ((∀ g t, t.guy_count ≤ (o.mark g t).guy_count) → s.guy_count ≤ s1.guy_count) := by
  obtain ⟨⟨g, d⟩, hscan⟩ := closest_scan_run_total o ops s (s.satellite_positions i)
    s.guy_count 0 0 ops.infinity (by omega)
  unfold assign_target_run
  rw [if_pos hi, hscan]
  simp only
  unfold store_assignment_run
  rw [if_pos hi]
  by_cases hinf : d = ops.infinity
  · rw [if_pos hinf]
    exact ⟨_, rfl, fun _ => ⟨le_refl _, rfl, le_refl _⟩, fun _ => le_refl _⟩
  · rw [if_neg hinf]
    by_cases hw : g / 64 < GUY_PICKED_WORDS
    · rw [if_pos hw]
      exact ⟨_, rfl, fun _ => ⟨le_refl _, rfl, le_refl _⟩, fun _ => le_refl _⟩
    · rw [if_neg hw]
      exact ⟨_, rfl,
        fun ho => ho g { s with satellite_to_guy := set_at s.satellite_to_guy i (g : Int) },
        fun hk => hk g { s with satellite_to_guy := set_at s.satellite_to_guy i (g : Int) }⟩

/-- The loop over the satellites with the accesses beyond the array carried out: when the
write beyond the array is as `overrun_spares` says, the loop returns, with the spawn interval
it started with and a score that is not lower. -/
theorem satellite_loop_run_spec [DecidableEq F] (o : Overrun F) (ops : FloatOps F)
    (ticks : Int) (ho : overrun_spares o) :
    ∀ (fuel i : Nat) (s : State F), s.satellite_count - i ≤ fuel →
      ∃ s1, satellite_loop_run o ops ticks fuel i s = .ok s1
        ∧ s1.ticks_per_guy = s.ticks_per_guy ∧ s.score ≤ s1.score
        ∧ s1.satellite_count ≤ s.satellite_count
        ∧ ((∀ g t, t.guy_count ≤ (o.mark g t).guy_count) → s.guy_count ≤ s1.guy_count) := by
  intro fuel
  induction fuel with
  | zero =>
    intro i s hf
    exact ⟨s, by rw [satellite_loop_run, if_neg (by omega)], rfl, le_refl _, le_refl _,
      fun _ => le_refl _⟩
  | succ n ih =>
    intro i s hf
    rw [satellite_loop_run]
    split
    · rename_i hi
      obtain ⟨sa, hsa⟩ := physics_step_ok ops hi
      obtain ⟨ta, -, -, hca, -, -, -⟩ := physics_step_frame hsa
      rw [hsa]
      simp only
      obtain ⟨sb, alive, hsb, hib, hcb, hab, -⟩ :=
        collision_scan_start ops ticks (i := i) (s := sa) (by omega)
      obtain ⟨tb, -, -⟩ := collision_scan_frame ops ticks i _ _ _ _ _ _ hsb
      rw [hsb]
      simp only
      have htp : sb.ticks_per_guy = s.ticks_per_guy := by rw [tb.2.2.2.2.1, ta.2.2.2.2.1]
      have hsc : sb.score = s.score := by rw [tb.2.2.2.2.2.1, ta.2.2.2.2.2.1]
      cases alive with
      | true =>
        simp only [if_true]
        obtain ⟨sc, hsc1, hfr, hgc⟩ := assign_target_run_spec o ops (i := i) (s := sb) hib
        obtain ⟨c1, c6, c7⟩ := hfr ho
        rw [hsc1]
        simp only
        obtain ⟨s1, h1, e1, e2, e3, e4⟩ := ih (i + 1) sc (by have := hab rfl; omega)
        refine ⟨s1, h1, by rw [e1, c6, htp], by omega, by omega, fun hk => ?_⟩
        have := hgc hk
        have := e4 hk
        rw [tb.2.2.2.1, ta.2.2.2.1] at *
        omega
      | false =>
        simp only [Bool.false_eq_true, if_false]
        obtain ⟨sc, hsc1⟩ : ∃ sc, delete_satellite i sb = .ok sc := ⟨_, delete_satellite_ok hib⟩
        obtain ⟨-, hcc, -⟩ := delete_satellite_record hsc1
        obtain ⟨tc, -, -⟩ := delete_satellite_frame hsc1
        rw [hsc1]
        simp only
        obtain ⟨s1, h1, e1, e2, e3, e4⟩ := ih i sc (by omega)
        refine ⟨s1, h1, by rw [e1, tc.2.2.2.2.1, htp],
          by rw [tc.2.2.2.2.2.1, hsc] at e2; exact e2, by omega, fun hk => ?_⟩
        have := e4 hk
        rw [tc.2.2.2.1, tb.2.2.2.1, ta.2.2.2.1] at this
        exact this
    · exact ⟨s, rfl, rfl, le_refl _, le_refl _, fun _ => le_refl _⟩

/-- The step with the accesses beyond the array carried out: when the write beyond the array
is as `overrun_spares` says, the step returns; the score it leaves is at least the score
before, and the spawn interval is the one before or was positive and is one less. -/
theorem tick_run_spec [DecidableEq F] (o : Overrun F) (ops : FloatOps F)
    (ticks current_ticks r1 r2 : Int) (s : State F) (ho : overrun_spares o) :
    ∃ s1, tick_run o ops ticks current_ticks r1 r2 s = .ok s1 ∧ s.score ≤ s1.score
      ∧ (s1.ticks_per_guy = s.ticks_per_guy
        ∨ (0 < s.ticks_per_guy ∧ s1.ticks_per_guy = s.ticks_per_guy - 1))
      ∧ ((∀ g t, t.guy_count ≤ (o.mark g t).guy_count) →
          ∃ gb, s.guy_count ≤ gb
            ∧ ((s1.ticks_per_guy = s.ticks_per_guy ∧ s1.guy_count = gb)
              ∨ (gb < MAX_GUYS ∧ s1.guy_count = gb + 1
                ∧ s1.ticks_per_guy
                  = if s.ticks_per_guy > 0 then s.ticks_per_guy - 1 else s.ticks_per_guy))) := by
  obtain ⟨sa, hsa, ea, eb, -, ec⟩ := satellite_loop_run_spec o ops ticks ho
    (begin_tick ops s).satellite_count 0 (begin_tick ops s) (by omega)
  obtain ⟨sb, hsb⟩ := age_explosions_total ticks (update_score sa).explosion_count 0
    (update_score sa) (by omega)
  obtain ⟨tb, -, -, -⟩ := age_explosions_frame ticks _ _ _ _ hsb
  have ht : tick_run o ops ticks current_ticks r1 r2 s
      = .ok { spawn_guy ops ticks r1 r2 sb with last_ticks := toU32 current_ticks } := by
    unfold tick_run
    simp only
    rw [hsa]
    simp only
    rw [hsb]
  have hscore : s.score ≤ sb.score := by
    rw [tb.2.2.2.2.2.1]
    show s.score ≤ max sa.score sa.guy_picked_count
    exact le_trans eb (max_ge_left _ _)
  have htp : sb.ticks_per_guy = s.ticks_per_guy := by
    rw [tb.2.2.2.2.1]
    exact ea
  refine ⟨_, ht, ?_, ?_, ?_⟩
  · show s.score ≤ (spawn_guy ops ticks r1 r2 sb).score
    rw [(spawn_guy_frame ops ticks r1 r2 sb).2.2.2.1]
    exact hscore
  · show (spawn_guy ops ticks r1 r2 sb).ticks_per_guy = s.ticks_per_guy
      ∨ (0 < s.ticks_per_guy ∧ (spawn_guy ops ticks r1 r2 sb).ticks_per_guy = s.ticks_per_guy - 1)
    unfold spawn_guy
    split
    · by_cases hp : sb.ticks_per_guy > 0
      · right
        simp only [if_pos hp]
        exact ⟨by omega, by omega⟩
      · left
        simp only [if_neg hp]
        exact htp
    · left
      exact htp
  · intro hk
    have hgb : s.guy_count ≤ sb.guy_count := by
      rw [tb.2.2.2.1]
      exact ec hk
    refine ⟨sb.guy_count, hgb, ?_⟩
    show ((spawn_guy ops ticks r1 r2 sb).ticks_per_guy = s.ticks_per_guy
        ∧ (spawn_guy ops ticks r1 r2 sb).guy_count = sb.guy_count)
      ∨ (sb.guy_count < MAX_GUYS ∧ (spawn_guy ops ticks r1 r2 sb).guy_count = sb.guy_count + 1
        ∧ (spawn_guy ops ticks r1 r2 sb).ticks_per_guy
          = if s.ticks_per_guy > 0 then s.ticks_per_guy - 1 else s.ticks_per_guy)
    unfold spawn_guy
    split
    · rename_i hc
      right
      rw [htp]
      exact ⟨hc.2, rfl, rfl⟩
    · left
      exact ⟨htp, rfl⟩

theorem count_behind_spares : overrun_spares (count_behind : Overrun F) := by
  intro g s
  unfold count_behind
  simp only
  split
  · exact ⟨le_refl _, rfl, le_refl _⟩
  · exact ⟨le_refl _, rfl, le_refl _⟩

/-- Both instances of the behaviour beyond the array are as `overrun_spares` says, and neither
lowers `guy_count`: a bit set in a natural number does not lower it. -/
theorem behind_spares :
    (overrun_spares (guy_count_behind : Overrun F)
      ∧ ∀ (g : Nat) (t : State F), t.guy_count ≤ ((guy_count_behind : Overrun F).mark g t).guy_count)
    ∧ ∀ (g : Nat) (t : State F), t.guy_count ≤ ((count_behind : Overrun F).mark g t).guy_count := by
  refine ⟨⟨?_, ?_⟩, ?_⟩
  · intro g s
    unfold guy_count_behind
    simp only
    split
    · exact ⟨le_refl _, rfl, le_refl _⟩
    · exact ⟨le_refl _, rfl, le_refl _⟩
  · intro g t
    unfold guy_count_behind
    simp only
    split
    · apply Nat.le_of_testBit
      intro i h
      rw [Nat.testBit_or, h]
      rfl
    · exact le_refl _
  · intro g t
    unfold count_behind
    simp only
    split
    · exact le_refl _
    · exact le_refl _

/-- With the accesses beyond the array carried out, the spawn interval of every state the
program reaches is between 0 and 5000, when the write beyond the array is as `overrun_spares`
says. -/
theorem continued_interval [DecidableEq F] (o : Overrun F) (ops : FloatOps F)
    (ho : overrun_spares o) {s : State F} (h : Continued o ops s) :
    0 ≤ s.ticks_per_guy ∧ s.ticks_per_guy ≤ 5000 := by
  induction h with
  | init t0 =>
    show (0 : Int) ≤ 5000 ∧ (5000 : Int) ≤ 5000
    exact ⟨by decide, by decide⟩
  | deploy p v _ ih =>
    unfold deploy
    split
    · exact ih
    · exact ih
  | tick ticks current_ticks r1 r2 _ ht ih =>
    rename_i s0 s1 hs0
    obtain ⟨s2, h2, -, hint, -⟩ := tick_run_spec o ops ticks current_ticks r1 r2 s0 ho
    rw [ht] at h2
    injection h2 with h2
    subst h2
    rcases hint with a | ⟨a, b⟩ <;> omega

/-- C13 (monotonicity).  The step is taken with the accesses beyond `guy_picked` carried out
(`tick_run`), so that the steps of a run with more than 960 targets and live satellites are
covered; where the step of the embedding with the fault returns, `tick_run` returns the same
state.  Whatever the accesses beyond the array do, as long as the write of line 346 does not
itself raise `satellite_count`, change the spawn interval or lower the score: from every state
the step returns a state whose score is at least the score before it and whose spawn interval
is at most the interval before it, and not negative when it was not negative before; a
deployment changes neither; and in every state the program reaches from the initial state by
such steps and deployments the spawn interval is between 0 and 5000. -/
theorem monotonicity [DecidableEq F] (o : Overrun F) (ops : FloatOps F) (s : State F)
    (ticks current_ticks r1 r2 : Int) (ho : overrun_spares o) :
    (∃ s1, tick_run o ops ticks current_ticks r1 r2 s = .ok s1 ∧ s.score ≤ s1.score
        ∧ s1.ticks_per_guy ≤ s.ticks_per_guy ∧ (0 ≤ s.ticks_per_guy → 0 ≤ s1.ticks_per_guy))
      ∧ (∀ s1, tick ops ticks current_ticks r1 r2 s = .ok s1 →
          tick_run o ops ticks current_ticks r1 r2 s = .ok s1)
      ∧ (∀ position velocity : Vector2 F,
          (deploy position velocity s).score = s.score
          ∧ (deploy position velocity s).ticks_per_guy = s.ticks_per_guy)
      ∧ (Continued o ops s → 0 ≤ s.ticks_per_guy ∧ s.ticks_per_guy ≤ 5000) := by
  refine ⟨?_, ?_, ?_, ?_⟩
  · obtain ⟨s1, h1, hscore, hint⟩ := tick_run_spec o ops ticks current_ticks r1 r2 s ho
    refine ⟨s1, h1, hscore, ?_, ?_⟩
    · rcases hint with a | ⟨-, b⟩ <;> omega
    · intro h0
      rcases hint with a | ⟨a, b⟩ <;> omega
  · intro s1 h1
    exact tick_run_extends o ops h1
  · intro p v
    unfold deploy
    split <;> exact ⟨rfl, rfl⟩
  · intro hr
    exact continued_interval o ops ho hr

/-- Monotonicity at `beyond_capacity`, a state with 961 targets and a live satellite, the word
behind `guy_picked` being `guy_picked_count`. -/
theorem monotonicity_witness :
    overrun_spares (count_behind : Overrun Frac)
      ∧ ((∃ s1, tick_run count_behind exact_ops 0 16 0 0 beyond_capacity = .ok s1
          ∧ beyond_capacity.score ≤ s1.score
          ∧ s1.ticks_per_guy ≤ beyond_capacity.ticks_per_guy
          ∧ (0 ≤ beyond_capacity.ticks_per_guy → 0 ≤ s1.ticks_per_guy))
        ∧ (∀ s1, tick exact_ops 0 16 0 0 beyond_capacity = .ok s1 →
            tick_run count_behind exact_ops 0 16 0 0 beyond_capacity = .ok s1)
        ∧ (∀ position velocity : Vector2 Frac,
            (deploy position velocity beyond_capacity).score = beyond_capacity.score
            ∧ (deploy position velocity beyond_capacity).ticks_per_guy
                = beyond_capacity.ticks_per_guy)
        ∧ (Continued count_behind exact_ops beyond_capacity →
            0 ≤ beyond_capacity.ticks_per_guy ∧ beyond_capacity.ticks_per_guy ≤ 5000)) :=
  ⟨count_behind_spares,
    monotonicity count_behind exact_ops beyond_capacity 0 16 0 0 count_behind_spares⟩

/-! ## Runs that fill the target store while no satellite is alive -/

/-- A step on an empty satellite store: it returns, the store is still empty, and the target
spawner has acted as line 367 says. -/
theorem tick_empty [DecidableEq F] (ops : FloatOps F) (t c r1 r2 : Int) {s : State F}
    (h0 : s.satellite_count = 0) :
    ∃ s1, tick ops t c r1 r2 s = .ok s1 ∧ s1.satellite_count = 0 ∧ s1.last_ticks = toU32 c
      ∧ s1.score = max s.score 0
      ∧ ((toU32 t ≥ toU32 (s.last_guy_ticks + s.ticks_per_guy) ∧ s.guy_count < MAX_GUYS) →
          s1.guy_count = s.guy_count + 1 ∧ s1.last_guy_ticks = toU32 t
          ∧ s1.ticks_per_guy
            = (if s.ticks_per_guy > 0 then s.ticks_per_guy - 1 else s.ticks_per_guy)
          ∧ s1.guy_magnitudes
            = set_at s.guy_magnitudes s.guy_count (ops.div (ops.lit r1 0) ops.rand_max))
      ∧ (¬ (toU32 t ≥ toU32 (s.last_guy_ticks + s.ticks_per_guy) ∧ s.guy_count < MAX_GUYS) →
          s1.guy_count = s.guy_count ∧ s1.last_guy_ticks = s.last_guy_ticks
          ∧ s1.ticks_per_guy = s.ticks_per_guy ∧ s1.guy_magnitudes = s.guy_magnitudes) := by
  have hb : (begin_tick ops s).satellite_count = 0 := h0
  have hl : satellite_loop ops t (begin_tick ops s).satellite_count 0 (begin_tick ops s)
      = .ok (begin_tick ops s) := by
    rw [hb, satellite_loop, if_neg (by omega)]
  obtain ⟨sd, hsd⟩ := age_explosions_total t (update_score (begin_tick ops s)).explosion_count 0
    (update_score (begin_tick ops s)) (by omega)
  obtain ⟨td, -, qd, -⟩ := age_explosions_frame t _ _ _ _ hsd
  have hgc : sd.guy_count = s.guy_count := td.2.2.2.1
  have hlg : sd.last_guy_ticks = s.last_guy_ticks := td.2.2.2.2.2.2.2
  have htp : sd.ticks_per_guy = s.ticks_per_guy := td.2.2.2.2.1
  have hgm : sd.guy_magnitudes = s.guy_magnitudes := td.2.2.1
  have hcnt : sd.satellite_count = 0 := by
    rw [qd.2.2.2]
    exact h0
  have ht : tick ops t c r1 r2 s
      = .ok { spawn_guy ops t r1 r2 sd with last_ticks := toU32 c } := by
    unfold tick
    simp only
    rw [hl]
    simp only
    rw [hsd]
  refine ⟨_, ht, ?_, rfl, ?_, ?_, ?_⟩
  · show (spawn_guy ops t r1 r2 sd).satellite_count = 0
    rw [(spawn_guy_frame ops t r1 r2 sd).1.2.2.2, hcnt]
  · show (spawn_guy ops t r1 r2 sd).score = max s.score 0
    rw [(spawn_guy_frame ops t r1 r2 sd).2.2.2.1, td.2.2.2.2.2.1]
    rfl
  · intro hcond
    show (spawn_guy ops t r1 r2 sd).guy_count = s.guy_count + 1
      ∧ (spawn_guy ops t r1 r2 sd).last_guy_ticks = toU32 t
      ∧ (spawn_guy ops t r1 r2 sd).ticks_per_guy
        = (if s.ticks_per_guy > 0 then s.ticks_per_guy - 1 else s.ticks_per_guy)
      ∧ (spawn_guy ops t r1 r2 sd).guy_magnitudes
        = set_at s.guy_magnitudes s.guy_count (ops.div (ops.lit r1 0) ops.rand_max)
    unfold spawn_guy
    rw [hlg, htp, hgc, hgm, if_pos hcond]
    exact ⟨rfl, rfl, rfl, rfl⟩
  · intro hcond
    show (spawn_guy ops t r1 r2 sd).guy_count = s.guy_count
      ∧ (spawn_guy ops t r1 r2 sd).last_guy_ticks = s.last_guy_ticks
      ∧ (spawn_guy ops t r1 r2 sd).ticks_per_guy = s.ticks_per_guy
      ∧ (spawn_guy ops t r1 r2 sd).guy_magnitudes = s.guy_magnitudes
    unfold spawn_guy
    rw [hlg, htp, hgc, if_neg hcond]
    exact ⟨hgc, hlg, htp, hgm⟩

/-- The first step from `two_close` returns `emptied`. -/
theorem two_close_tick : tick exact_ops 0 16 0 0 two_close = .ok emptied := rfl

theorem crowd_run_emptied (z : Nat) : crowd_run z emptied 1 := by
  have hrun : Run exact_ops emptied 16 16 := by
    have h0 : Run exact_ops (initial exact_ops 0) 0 0 := Run.init 0
    have h1 : Run exact_ops two_close 0 0 := Run.deploy _ _ h0 (by decide)
    have h2 : Run exact_ops two_close 0 16 := Run.frame 16 h1 (by decide)
    exact Run.tick 0 0 h2 (by decide) two_close_tick
  have hl : emptied.last_ticks = 16 := by decide
  refine ⟨by rw [hl]; exact hrun, by decide, by decide, ?_, by decide, by decide, by decide,
    by decide, by decide, by decide, by decide⟩
  intro j hj
  have : j = 0 := by omega
  subst this
  have h0 : emptied.guy_magnitudes 0 = exact_ops.lit 0 0 := by decide
  rw [h0]
  rfl

/-- One driver invocation 16 ms after the last one, from a state with no satellite and fewer
than `MAX_GUYS` targets: it makes one step, which returns. -/
theorem crowd_run_frame (z : Nat) {s : State Frac} {g : Nat}
    (h : crowd_run z s g) (hg : g < MAX_GUYS) :
    ∃ s1, s1.last_ticks = s.last_ticks + 16
      ∧ ((s.last_guy_ticks + s.ticks_per_guy ≤ s.last_ticks ∧ crowd_run z s1 (g + 1))
        ∨ (s.last_ticks < s.last_guy_ticks + s.ticks_per_guy ∧ crowd_run z s1 g
            ∧ s1.last_guy_ticks = s.last_guy_ticks ∧ s1.ticks_per_guy = s.ticks_per_guy)) := by
  obtain ⟨hrun, h1, hgc, hmag, hsc, hlg0, hlg, htp0, htp, hl, hb⟩ := h
  have hgi : (g : Int) < 1000 := by
    have : g < 1000 := hg
    omega
  have hg1 : 1 ≤ g := by
    by_contra hc
    have : g = 0 := by omega
    subst this
    simp at hb
    omega
  have hL0 : 0 ≤ s.last_ticks := by omega
  have hL1 : s.last_ticks < 6000000 := by omega
  have hidle : wrap32 (s.last_ticks - s.last_ticks) < TICKS_PER_FRAME := by
    rw [sub_self]
    decide
  have hframe := Run.frame (s.last_ticks + 16) hrun hidle
  rw [wrap32_of_int_range (n := s.last_ticks) (by omega) (by omega),
    toU32_of_int_range (n := s.last_ticks + 16) (by omega) (by omega),
    wrap32_of_int_range (n := s.last_ticks + 16) (by omega) (by omega)] at hframe
  have hguard : wrap32 (s.last_ticks + 16 - s.last_ticks) ≥ TICKS_PER_FRAME := by
    rw [show s.last_ticks + 16 - s.last_ticks = 16 by omega]
    decide
  obtain ⟨s1, ht, hc1, hlt1, hsc1, hyes, hno⟩ :=
    tick_empty exact_ops s.last_ticks (s.last_ticks + 16) (crowd_rand z g) 0 h1
  have hsc2 : s1.score = 0 := by
    rw [hsc1, hsc]
    rfl
  have hrun1 := Run.tick (crowd_rand z g) 0 hframe hguard ht
  rw [ticks_per_frame_eq, wrap32_of_int_range (n := s.last_ticks + 16) (by omega) (by omega)]
    at hrun1
  rw [toU32_of_int_range (n := s.last_ticks + 16) (by omega) (by omega)] at hlt1
  rw [toU32_of_int_range (n := s.last_ticks) (by omega) (by omega),
    toU32_of_int_range (n := s.last_guy_ticks + s.ticks_per_guy) (by omega) (by omega)]
    at hyes hno
  have hmax : s.guy_count < MAX_GUYS := by rw [hgc]; exact hg
  refine ⟨s1, hlt1, ?_⟩
  by_cases hcond : s.last_guy_ticks + s.ticks_per_guy ≤ s.last_ticks
  · obtain ⟨e1, e2, e3, e4⟩ := hyes ⟨hcond, hmax⟩
    refine Or.inl ⟨hcond, ?_, hc1, by rw [e1, hgc], ?_, hsc2, ?_, ?_, ?_, ?_, ?_, ?_⟩
    · rw [hlt1]
      exact hrun1
    · intro j hj
      rw [e4, hgc]
      by_cases hjg : j = g
      · subst hjg
        rw [set_at_same]
        unfold crowd_magnitude
        rw [if_neg (by omega)]
      · rw [set_at_other _ _ hjg]
        exact hmag j (by omega)
    · rw [e2]; exact hL0
    · rw [e2, hlt1]; omega
    · rw [e3]; split_ifs <;> omega
    · rw [e3]; split_ifs <;> omega
    · rw [hlt1, e2, e3]; split_ifs <;> omega
    · rw [e2]
      push_cast
      omega
  · have hnc : ¬ (s.last_ticks ≥ s.last_guy_ticks + s.ticks_per_guy ∧ s.guy_count < MAX_GUYS) :=
      fun hh => hcond hh.1
    obtain ⟨e1, e2, e3, e4⟩ := hno hnc
    refine Or.inr ⟨by omega, ⟨?_, hc1, by rw [e1, hgc], ?_, hsc2, ?_, ?_, ?_, ?_, ?_, ?_⟩, e2, e3⟩
    · rw [hlt1]
      exact hrun1
    · intro j hj
      rw [e4]
      exact hmag j hj
    · rw [e2]; exact hlg0
    · rw [e2, hlt1]; omega
    · rw [e3]; exact htp0
    · rw [e3]; exact htp
    · rw [hlt1, e2, e3]; omega
    · rw [e2]; exact hb

/-- From a state with no satellite and `g < MAX_GUYS` targets the program reaches a state with
no satellite and `g + 1` targets. -/
theorem crowd_run_next (z : Nat) {g : Nat} (hg : g < MAX_GUYS) :
    ∀ (m : Nat) (s : State Frac), crowd_run z s g →
      s.last_guy_ticks + s.ticks_per_guy - s.last_ticks ≤ 16 * (m : Int) →
      ∃ s1, crowd_run z s1 (g + 1) := by
  intro m
  induction m with
  | zero =>
    intro s h hm
    obtain ⟨s1, -, ⟨-, h1⟩ | ⟨hlt, -⟩⟩ := crowd_run_frame z h hg
    · exact ⟨s1, h1⟩
    · simp only [Nat.cast_zero, mul_zero] at hm
      omega
  | succ n ih =>
    intro s h hm
    obtain ⟨s1, hl1, ⟨-, h1⟩ | ⟨-, h1, e2, e3⟩⟩ := crowd_run_frame z h hg
    · exact ⟨s1, h1⟩
    · apply ih s1 h1
      rw [hl1, e2, e3]
      push_cast at hm
      omega

/-- The program reaches, for every `g` from 1 to `MAX_GUYS`, a state with no satellite and `g`
targets whose magnitudes are `crowd_magnitude z`. -/
theorem crowd_run_reaches (z : Nat) :
    ∀ n : Nat, n < MAX_GUYS → ∃ s, crowd_run z s (n + 1) := by
  intro n
  induction n with
  | zero =>
    intro _
    exact ⟨_, crowd_run_emptied z⟩
  | succ k ih =>
    intro hk
    obtain ⟨s, hs⟩ := ih (by omega)
    have hbound : s.last_guy_ticks + s.ticks_per_guy - s.last_ticks ≤ 16 * ((313 : Nat) : Int) := by
      obtain ⟨-, -, -, -, -, h0, h1, h2, h3, -, -⟩ := hs
      push_cast
      omega
    exact crowd_run_next z (by omega) 313 s hs hbound

/-- The deployment of `n` satellites on an empty store: the store then holds `n` resting
satellites at the positions `near_origin`, and nothing else has changed. -/
theorem deploy_near_origin_spec (s : State Frac) (h0 : s.satellite_count = 0) :
    ∀ n, n ≤ MAX_SATELLITES →
      (deploy_near_origin n s).satellite_count = n
        ∧ (∀ k, k < n → (deploy_near_origin n s).satellite_positions k = near_origin k
            ∧ (deploy_near_origin n s).satellite_velocities k = ⟨⟨0, 1⟩, ⟨0, 1⟩⟩)
        ∧ same_targets s (deploy_near_origin n s)
        ∧ same_explosions s (deploy_near_origin n s) := by
  intro n
  induction n with
  | zero =>
    intro _
    exact ⟨h0, fun k hk => absurd hk (by omega), same_targets_refl s, same_explosions_refl s⟩
  | succ m ih =>
    intro hm
    obtain ⟨hc, hp, ht, he⟩ := ih (by omega)
    have hlt : (deploy_near_origin m s).satellite_count < MAX_SATELLITES := by omega
    have hd : deploy_near_origin (m + 1) s
        = { deploy_near_origin m s with
            satellite_positions := set_at (deploy_near_origin m s).satellite_positions
              (deploy_near_origin m s).satellite_count (near_origin m)
            satellite_velocities := set_at (deploy_near_origin m s).satellite_velocities
              (deploy_near_origin m s).satellite_count ⟨⟨0, 1⟩, ⟨0, 1⟩⟩
            satellite_count := (deploy_near_origin m s).satellite_count + 1 } := by
      show deploy (near_origin m) ⟨⟨0, 1⟩, ⟨0, 1⟩⟩ (deploy_near_origin m s) = _
      unfold deploy
      rw [if_pos hlt]
    rw [hd]
    refine ⟨by simp only; omega, ?_, ht, he⟩
    intro k hk
    simp only
    rw [hc]
    by_cases hkm : k = m
    · subst hkm
      rw [set_at_same, set_at_same]
      exact ⟨rfl, rfl⟩
    · rw [set_at_other _ _ hkm, set_at_other _ _ hkm]
      exact hp k (by omega)

theorem run_deploy_near_origin {s : State Frac} {t c : Int} (hr : Run exact_ops s t c)
    (hidle : wrap32 (c - t) < TICKS_PER_FRAME) :
    ∀ n, Run exact_ops (deploy_near_origin n s) t c := by
  intro n
  induction n with
  | zero => exact hr
  | succ m ih => exact Run.deploy _ _ ih hidle

/-- The program reaches, between two driver invocations, a state with the score 0, `g` targets
of the magnitudes `crowd_magnitude z` and `n` resting satellites at the positions
`near_origin`. -/
theorem crowd_state (z g n : Nat) (hg1 : 1 ≤ g) (hg : g ≤ MAX_GUYS) (hn : n ≤ MAX_SATELLITES) :
    ∃ s : State Frac, Run exact_ops s s.last_ticks s.last_ticks
      ∧ s.satellite_count = n ∧ s.guy_count = g
      ∧ (∀ j, j < g → s.guy_magnitudes j = crowd_magnitude z j) ∧ s.score = 0
      ∧ (∀ k, k < n → s.satellite_positions k = near_origin k
          ∧ s.satellite_velocities k = ⟨⟨0, 1⟩, ⟨0, 1⟩⟩) := by
  obtain ⟨s, hs⟩ := crowd_run_reaches z (g - 1) (by omega)
  rw [show g - 1 + 1 = g by omega] at hs
  obtain ⟨hrun, h0, hgc, hmag, hsc, -⟩ := hs
  obtain ⟨hc, hp, ht, -⟩ := deploy_near_origin_spec s h0 n hn
  have hidle : wrap32 (s.last_ticks - s.last_ticks) < TICKS_PER_FRAME := by
    rw [sub_self]
    decide
  have hr := run_deploy_near_origin hrun hidle n
  obtain ⟨-, -, t3, t4, -, t6, t7, -⟩ := ht
  refine ⟨deploy_near_origin n s, ?_, hc, by rw [t4, hgc], ?_, by rw [t6, hsc], hp⟩
  · rw [t7]
    exact hr
  · intro j hj
    rw [t3]
    exact hmag j hj

/-! ## The target assignment of resting satellites near the origin -/

/-- The inner collision loop of a satellite that is within the threshold of no later
satellite: it returns the store as it is, with `alive` as it was. -/
theorem collision_scan_clear (ops : FloatOps F) (ticks : Int) (i : Nat) :
    ∀ (fuel j : Nat) (alive : Bool) (s : State F), i < s.satellite_count →
      s.satellite_count - j ≤ fuel →
      (∀ k, j ≤ k → k < s.satellite_count →
        collides ops (s.satellite_positions i) (s.satellite_positions k) = false) →
      collision_scan ops ticks i fuel j alive s = .ok (s, alive) := by
  intro fuel
  induction fuel with
  | zero =>
    intro j alive s hi hf _
    rw [collision_scan, if_neg (by omega)]
  | succ n ih =>
    intro j alive s hi hf hc
    rw [collision_scan]
    by_cases hj : j < s.satellite_count
    · rw [if_pos hj, if_pos hi, hc j (le_refl _) hj]
      simp only [Bool.false_eq_true, if_false]
      exact ih (j + 1) alive s hi (by omega) (fun k hk1 hk2 => hc k (by omega) hk2)
    · rw [if_neg hj]

/-- The physics step and the inner collision loop of one of up to four resting satellites at
the positions `near_origin`: the satellite stays where it is and is hit by no later one. -/
theorem near_origin_alive (ticks : Int) {s : State Frac} {i : Nat}
    (hi : i < s.satellite_count) (h4 : s.satellite_count ≤ 4)
    (hp : ∀ k, i ≤ k → k < s.satellite_count → s.satellite_positions k = near_origin k
      ∧ s.satellite_velocities k = ⟨⟨0, 1⟩, ⟨0, 1⟩⟩) :
    ∃ sa, physics_step exact_ops i s = .ok sa
      ∧ collision_scan exact_ops ticks i (sa.satellite_count - (i + 1)) (i + 1) true sa
          = .ok (sa, true)
      ∧ sa.satellite_positions i = near_origin i
      ∧ (∀ k, k ≠ i → satellite_record sa k = satellite_record s k)
      ∧ same_targets s sa ∧ same_picked s sa
      ∧ sa.satellite_count = s.satellite_count ∧ sa.satellite_to_guy = s.satellite_to_guy := by
  obtain ⟨sa, hsa⟩ := physics_step_ok exact_ops (i := i) (s := s) hi
  obtain ⟨ta, pa, -, ca, ga, -, hra⟩ := physics_step_frame hsa
  have hpi : sa.satellite_positions i = near_origin i := by
    unfold physics_step at hsa
    rw [if_pos hi] at hsa
    injection hsa with hsa
    subst hsa
    simp only
    rw [set_at_same, (hp i (le_refl _) hi).1, (hp i (le_refl _) hi).2]
    have hi4 : i = 0 ∨ i = 1 ∨ i = 2 ∨ i = 3 := by omega
    rcases hi4 with h | h | h | h <;> subst h <;> decide
  refine ⟨sa, hsa, ?_, hpi, hra, ta, pa, ca, ga⟩
  apply collision_scan_clear exact_ops ticks i _ _ _ _ (by omega) (by omega)
  intro k hk1 hk2
  have hpk : sa.satellite_positions k = near_origin k := by
    have := congrArg Prod.fst (hra k (by omega))
    simp only [satellite_record] at this
    rw [this]
    exact (hp k (by omega) (by omega)).1
  rw [hpi, hpk]
  have hik : (i = 0 ∧ (k = 1 ∨ k = 2 ∨ k = 3)) ∨ (i = 1 ∧ (k = 2 ∨ k = 3)) ∨ (i = 2 ∧ k = 3) := by
    omega
  rcases hik with ⟨h, h1 | h1 | h1⟩ | ⟨h, h1 | h1⟩ | ⟨h, h1⟩ <;> subst h <;> subst h1 <;> decide

theorem guy_distance_exact (s : State Frac) (p : Vector2 Frac) (j : Nat) :
    guy_distance exact_ops s p j = target_distance (s.guy_magnitudes j) p := rfl

/-- The scan over the targets passes the targets that are claimed or not nearer than the
closest one so far. -/
theorem closest_scan_run_skip (o : Overrun F) (ops : FloatOps F) (s : State F) (p : Vector2 F) :
    ∀ (n fuel j g : Nat) (d : F), j + n ≤ s.guy_count → s.guy_count - j ≤ fuel →
      (∀ k, j ≤ k → k < j + n → guy_is_picked_run o s k = true
        ∨ (ops.lt (guy_distance ops s p k) d && ops.lt (guy_distance ops s p k) (ops.lit 1 0))
            = false) →
      closest_scan_run o ops s p fuel j g d = closest_scan_run o ops s p (fuel - n) (j + n) g d := by
  intro n
  induction n with
  | zero =>
    intro fuel j g d _ _ _
    rfl
  | succ m ih =>
    intro fuel j g d hj hf hc
    obtain ⟨f, hfe⟩ : ∃ f, fuel = f + 1 := ⟨fuel - 1, by omega⟩
    subst hfe
    rw [closest_scan_run, if_pos (by omega)]
    have hrest := ih f (j + 1) g d (by omega) (by omega) (fun k hk1 hk2 => hc k (by omega) (by omega))
    rw [show f + 1 - (m + 1) = f - m by omega, show j + (m + 1) = j + 1 + m by omega]
    rcases hc j (le_refl _) (by omega) with h | h
    · rw [if_pos h]
      exact hrest
    · by_cases hq : guy_is_picked_run o s j = true
      · rw [if_pos hq]
        exact hrest
      · rw [if_neg hq]
        simp only
        rw [h]
        simp only [Bool.false_eq_true, if_false]
        exact hrest

/-- The scan over the targets takes an unclaimed target that is nearer than the closest one so
far and nearer than 1. -/
theorem closest_scan_run_take (o : Overrun F) (ops : FloatOps F) (s : State F) (p : Vector2 F)
    (fuel j g : Nat) (d : F) (hj : j < s.guy_count) (hf : s.guy_count - j ≤ fuel)
    (hq : guy_is_picked_run o s j = false)
    (hc : (ops.lt (guy_distance ops s p j) d && ops.lt (guy_distance ops s p j) (ops.lit 1 0))
      = true) :
    closest_scan_run o ops s p fuel j g d
      = closest_scan_run o ops s p (fuel - 1) (j + 1) j (guy_distance ops s p j) := by
  obtain ⟨f, hfe⟩ : ∃ f, fuel = f + 1 := ⟨fuel - 1, by omega⟩
  subst hfe
  rw [closest_scan_run, if_pos hj, hq]
  simp only [Bool.false_eq_true, if_false]
  rw [hc]
  simp only [if_true]
  rfl

theorem closest_scan_run_end (o : Overrun F) (ops : FloatOps F) (s : State F) (p : Vector2 F)
    (fuel j g : Nat) (d : F) (hj : ¬ j < s.guy_count) :
    closest_scan_run o ops s p fuel j g d = .ok (g, d) := by
  cases fuel with
  | zero => rw [closest_scan_run, if_neg hj]
  | succ f => rw [closest_scan_run, if_neg hj]

theorem crowd_magnitude_cases (z j : Nat) (hj : 1 ≤ j) :
    (j = z ∧ crowd_magnitude z j = ⟨0, 2147483647⟩)
      ∨ (j ≠ z ∧ crowd_magnitude z j = ⟨2147483647, 2147483647⟩) := by
  unfold crowd_magnitude crowd_rand
  rw [if_neg (by omega)]
  by_cases h : j = z
  · left
    rw [if_pos h]
    exact ⟨h, by decide⟩
  · right
    rw [if_neg h]
    exact ⟨h, by decide⟩

/-- The scan of a satellite at one of the positions `near_origin` when the first target is
unclaimed: the first target, at the origin, is the result, whatever the accesses beyond the
array give. -/
theorem crowd_scan_first (o : Overrun Frac) (z : Nat) {s : State Frac} {i : Nat} (hi : i < 4)
    (hg : 1 ≤ s.guy_count)
    (hmag : ∀ j, j < s.guy_count → s.guy_magnitudes j = crowd_magnitude z j)
    (h0 : guy_is_picked s 0 = false) :
    closest_scan_run o exact_ops s (near_origin i) s.guy_count 0 0 exact_ops.infinity
      = .ok (0, target_distance ⟨0, 1⟩ (near_origin i)) := by
  have hi4 : i = 0 ∨ i = 1 ∨ i = 2 ∨ i = 3 := by omega
  have hm0 : s.guy_magnitudes 0 = ⟨0, 1⟩ := by
    rw [hmag 0 (by omega)]
    rfl
  have hq0 : guy_is_picked_run o s 0 = false := by
    unfold guy_is_picked_run
    rw [if_pos (by decide)]
    exact h0
  rw [closest_scan_run_take o exact_ops s _ _ 0 0 _ (by omega) (by omega) hq0 (by
    rw [guy_distance_exact, hm0]
    rcases hi4 with h | h | h | h <;> subst h <;> decide)]
  rw [guy_distance_exact, hm0]
  rw [closest_scan_run_skip o exact_ops s _ (s.guy_count - 1) _ (0 + 1) 0 _ (by omega) (by omega)
    (by
      intro k hk1 hk2
      right
      rw [guy_distance_exact, hmag k (by omega)]
      rcases crowd_magnitude_cases z k (by omega) with ⟨-, h⟩ | ⟨-, h⟩ <;> rw [h] <;>
        rcases hi4 with h | h | h | h <;> subst h <;> decide)]
  exact closest_scan_run_end o exact_ops s _ _ _ _ _ (by omega)

/-- The scan of a satellite at one of the positions `near_origin` when the first target and
the targets up to `c` are claimed and target `c`, at the distance 0.5 from the origin, is not:
the result is target `z ≥ 960`, at the origin, when the test beyond the array finds it
unclaimed, and target `c` when not. -/
theorem crowd_scan_next (o : Overrun Frac) (z c : Nat) {s : State Frac} {i : Nat} (hi : i < 4)
    (hmag : ∀ j, j < s.guy_count → s.guy_magnitudes j = crowd_magnitude z j)
    (hc1 : 1 ≤ c) (hc : c < 64 * GUY_PICKED_WORDS) (hzw : 64 * GUY_PICKED_WORDS ≤ z)
    (hz : z < s.guy_count)
    (hp : ∀ k, k < c → guy_is_picked s k = true) (hu : guy_is_picked s c = false) :
    closest_scan_run o exact_ops s (near_origin i) s.guy_count 0 0 exact_ops.infinity
      = .ok (if o.test s z then (c, target_distance ⟨2147483647, 2147483647⟩ (near_origin i))
          else (z, target_distance ⟨0, 2147483647⟩ (near_origin i))) := by
  have hi4 : i = 0 ∨ i = 1 ∨ i = 2 ∨ i = 3 := by omega
  have hcap : 64 * GUY_PICKED_WORDS = 960 := by decide
  have hrun : ∀ k, k < 960 → guy_is_picked_run o s k = guy_is_picked s k := by
    intro k hk
    unfold guy_is_picked_run
    rw [if_pos (by unfold GUY_PICKED_WORDS MAX_GUYS; omega)]
  have hrunz : guy_is_picked_run o s z = o.test s z := by
    unfold guy_is_picked_run
    rw [if_neg (by unfold GUY_PICKED_WORDS MAX_GUYS; omega)]
  have hmc : s.guy_magnitudes c = ⟨2147483647, 2147483647⟩ := by
    rw [hmag c (by omega)]
    rcases crowd_magnitude_cases z c hc1 with ⟨h, -⟩ | ⟨-, h⟩
    · omega
    · exact h
  have hmz : s.guy_magnitudes z = ⟨0, 2147483647⟩ := by
    rw [hmag z hz]
    rcases crowd_magnitude_cases z z (by omega) with ⟨-, h⟩ | ⟨h, -⟩
    · exact h
    · exact absurd rfl h
  have hfar : ∀ k, 1 ≤ k → k < s.guy_count → k ≠ z →
      s.guy_magnitudes k = ⟨2147483647, 2147483647⟩ := by
    intro k hk1 hk2 hk3
    rw [hmag k hk2]
    rcases crowd_magnitude_cases z k hk1 with ⟨h, -⟩ | ⟨-, h⟩
    · exact absurd h hk3
    · exact h
  -- the claimed targets below `c`
  rw [closest_scan_run_skip o exact_ops s _ c _ 0 0 _ (by omega) (by omega)
    (fun k _ hk2 => Or.inl (by rw [hrun k (by omega)]; exact hp k (by omega)))]
  -- target `c`
  rw [closest_scan_run_take o exact_ops s _ _ (0 + c) 0 _ (by omega) (by omega)
    (by rw [hrun (0 + c) (by omega), Nat.zero_add]; exact hu) (by
      rw [guy_distance_exact, Nat.zero_add, hmc]
      rcases hi4 with h | h | h | h <;> subst h <;> decide)]
  rw [guy_distance_exact, Nat.zero_add, hmc]
  -- the targets between `c` and `z`
  rw [closest_scan_run_skip o exact_ops s _ (z - (c + 1)) _ (c + 1) c _ (by omega) (by omega)
    (by
      intro k hk1 hk2
      right
      rw [guy_distance_exact, hfar k (by omega) (by omega) (by omega)]
      rcases hi4 with h | h | h | h <;> subst h <;> decide)]
  rw [show c + 1 + (z - (c + 1)) = z by omega]
  by_cases ht : o.test s z = true
  · -- target `z` looks claimed
    rw [if_pos ht]
    rw [closest_scan_run_skip o exact_ops s _ (s.guy_count - z) _ z c _ (by omega) (by omega)
      (by
        intro k hk1 hk2
        by_cases hkz : k = z
        · left
          rw [hkz, hrunz]
          exact ht
        · right
          rw [guy_distance_exact, hfar k (by omega) (by omega) hkz]
          rcases hi4 with h | h | h | h <;> subst h <;> decide)]
    exact closest_scan_run_end o exact_ops s _ _ _ _ _ (by omega)
  · -- target `z` looks unclaimed and is nearer
    rw [if_neg ht]
    rw [closest_scan_run_take o exact_ops s _ _ z c _ hz (by omega)
      (by rw [hrunz]; simpa using ht) (by
        rw [guy_distance_exact, hmz]
        rcases hi4 with h | h | h | h <;> subst h <;> decide)]
    rw [guy_distance_exact, hmz]
    rw [closest_scan_run_skip o exact_ops s _ (s.guy_count - (z + 1)) _ (z + 1) z _ (by omega)
      (by omega)
      (by
        intro k hk1 hk2
        right
        rw [guy_distance_exact, hfar k (by omega) (by omega) (by omega)]
        rcases hi4 with h | h | h | h <;> subst h <;> decide)]
    exact closest_scan_run_end o exact_ops s _ _ _ _ _ (by omega)

/-- One round of the loop over the satellites for a satellite that survives its inner collision
loop. -/
theorem satellite_loop_run_alive [DecidableEq F] (o : Overrun F) (ops : FloatOps F)
    (ticks : Int) (fuel i : Nat) {s sa sc : State F} (hi : i < s.satellite_count)
    (h1 : physics_step ops i s = .ok sa)
    (h2 : collision_scan ops ticks i (sa.satellite_count - (i + 1)) (i + 1) true sa
      = .ok (sa, true))
    (h3 : assign_target_run o ops i sa = .ok sc) :
    satellite_loop_run o ops ticks (fuel + 1) i s = satellite_loop_run o ops ticks fuel (i + 1) sc := by
  rw [satellite_loop_run, if_pos hi, h1]
  simp only
  rw [h2]
  simp only [if_true, h3]

theorem target_distance_finite (m : Frac) (i : Nat) (hi : i < 4)
    (hm : m = ⟨0, 1⟩ ∨ m = ⟨0, 2147483647⟩ ∨ m = ⟨2147483647, 2147483647⟩) :
    target_distance m (near_origin i) ≠ exact_ops.infinity := by
  have hi4 : i = 0 ∨ i = 1 ∨ i = 2 ∨ i = 3 := by omega
  rcases hm with h | h | h <;> subst h <;>
    rcases hi4 with h | h | h | h <;> subst h <;> decide

/-- The round of the loop over the satellites for the first satellite of a store in the form
`crowd_form` when the first target is unclaimed: the satellite survives and claims the first
target. -/
theorem crowd_step_first (o : Overrun Frac) (ticks : Int) (fuel : Nat) {z g n : Nat}
    {s : State Frac} (hf : crowd_form z g n 0 s) (hn : 0 < n) (hg : 1 ≤ g)
    (h0 : guy_is_picked s 0 = false) :
    ∃ sc, satellite_loop_run o exact_ops ticks (fuel + 1) 0 s
        = satellite_loop_run o exact_ops ticks fuel 1 sc
      ∧ crowd_form z g n 1 sc ∧ same_targets s sc
      ∧ sc.satellite_to_guy 0 = 0
      ∧ (∀ k, guy_is_picked sc k = (decide (k = 0) || guy_is_picked s k))
      ∧ sc.guy_picked_count = s.guy_picked_count + 1 := by
  obtain ⟨c1, c2, c3, c4, c5⟩ := hf
  obtain ⟨sa, hsa, hscan, hpi, hra, ta, pa, ca, ga⟩ := near_origin_alive ticks (s := s) (i := 0)
    (by omega) (by omega) (fun k hk1 hk2 => c5 k hk1 (by omega))
  have hga : sa.guy_count = g := by rw [ta.2.2.2.1, c3]
  have hma : ∀ j, j < sa.guy_count → sa.guy_magnitudes j = crowd_magnitude z j := by
    intro j hj
    rw [ta.2.2.1]
    exact c4 j (by omega)
  have h0a : guy_is_picked sa 0 = false := by
    unfold guy_is_picked at h0 ⊢
    rw [pa.1]
    exact h0
  have hassign : assign_target_run o exact_ops 0 sa = .ok { sa with
      satellite_to_guy := set_at sa.satellite_to_guy 0 ((0 : Nat) : Int)
      guy_picked := set_at sa.guy_picked (0 / 64) (sa.guy_picked (0 / 64) ||| (1 <<< (0 % 64)))
      guy_picked_count := sa.guy_picked_count + 1 } := by
    unfold assign_target_run
    rw [if_pos (by omega), hpi, crowd_scan_first o z (by omega) (by omega) hma h0a]
    simp only
    unfold store_assignment_run
    rw [if_pos (by omega), if_neg (target_distance_finite _ 0 (by omega) (Or.inl rfl)),
      if_pos (by decide)]
  refine ⟨_, satellite_loop_run_alive o exact_ops ticks fuel 0 (by omega) hsa hscan hassign,
    ⟨by rw [← c1, ← ca], c2, hga, fun j hj => hma j (by omega), ?_⟩, ta, ?_, ?_, ?_⟩
  · intro k hk1 hk2
    have hrec := hra k (by omega)
    have hpk : sa.satellite_positions k = s.satellite_positions k := congrArg Prod.fst hrec
    have hvk : sa.satellite_velocities k = s.satellite_velocities k :=
      congrArg (fun r => r.2.1) hrec
    show sa.satellite_positions k = _ ∧ sa.satellite_velocities k = _
    rw [hpk, hvk]
    exact c5 k (by omega) hk2
  · show set_at sa.satellite_to_guy 0 ((0 : Nat) : Int) 0 = 0
    rw [set_at_same]
    rfl
  · intro k
    rw [guy_is_picked_after_claim sa 0 k _ rfl]
    congr 1
    unfold guy_is_picked
    rw [pa.1]
  · show sa.guy_picked_count + 1 = _
    rw [pa.2]

/-- The round of the loop over the satellites for satellite `i` of a store in the form
`crowd_form` when the first target and the targets up to `c` are claimed, target `c` is not,
and the test beyond the array finds target `z` claimed: the satellite survives and claims
target `c`. -/
theorem crowd_step_skip (o : Overrun Frac) (ticks : Int) (fuel : Nat) {z g n i c : Nat}
    {s : State Frac} (hf : crowd_form z g n i s) (hi : i < n)
    (hc1 : 1 ≤ c) (hc : c < 64 * GUY_PICKED_WORDS) (hzw : 64 * GUY_PICKED_WORDS ≤ z) (hz : z < g)
    (hp : ∀ k, k < c → guy_is_picked s k = true) (hu : guy_is_picked s c = false)
    (ht : ∀ t, same_picked s t → same_targets s t → o.test t z = true) :
    ∃ sc, satellite_loop_run o exact_ops ticks (fuel + 1) i s
        = satellite_loop_run o exact_ops ticks fuel (i + 1) sc
      ∧ crowd_form z g n (i + 1) sc ∧ same_targets s sc
      ∧ sc.satellite_to_guy i = (c : Int)
      ∧ (∀ k, k < i → sc.satellite_to_guy k = s.satellite_to_guy k)
      ∧ (∀ k, guy_is_picked sc k = (decide (k = c) || guy_is_picked s k))
      ∧ sc.guy_picked_count = s.guy_picked_count + 1 := by
  obtain ⟨c1, c2, c3, c4, c5⟩ := hf
  obtain ⟨sa, hsa, hscan, hpi, hra, ta, pa, ca, ga⟩ := near_origin_alive ticks (s := s) (i := i)
    (by omega) (by omega) (fun k hk1 hk2 => c5 k hk1 (by omega))
  have hga : sa.guy_count = g := by rw [ta.2.2.2.1, c3]
  have hma : ∀ j, j < sa.guy_count → sa.guy_magnitudes j = crowd_magnitude z j := by
    intro j hj
    rw [ta.2.2.1]
    exact c4 j (by omega)
  have hpa : ∀ k, guy_is_picked sa k = guy_is_picked s k := by
    intro k
    unfold guy_is_picked
    rw [pa.1]
  have hassign : assign_target_run o exact_ops i sa = .ok { sa with
      satellite_to_guy := set_at sa.satellite_to_guy i (c : Int)
      guy_picked := set_at sa.guy_picked (c / 64) (sa.guy_picked (c / 64) ||| (1 <<< (c % 64)))
      guy_picked_count := sa.guy_picked_count + 1 } := by
    unfold assign_target_run
    rw [if_pos (by omega), hpi, crowd_scan_next o z c (by omega) hma hc1 hc hzw (by omega)
      (fun k hk => by rw [hpa]; exact hp k hk) (by rw [hpa]; exact hu), if_pos (ht sa pa ta)]
    simp only
    unfold store_assignment_run
    rw [if_pos (by omega),
      if_neg (target_distance_finite _ i (by omega) (Or.inr (Or.inr rfl))),
      if_pos (by unfold GUY_PICKED_WORDS MAX_GUYS at hc ⊢; omega)]
  refine ⟨_, satellite_loop_run_alive o exact_ops ticks fuel i (by omega) hsa hscan hassign,
    ⟨by rw [← c1, ← ca], c2, hga, fun j hj => hma j (by omega), ?_⟩, ta, ?_, ?_, ?_, ?_⟩
  · intro k hk1 hk2
    have hrec := hra k (by omega)
    have hpk : sa.satellite_positions k = s.satellite_positions k := congrArg Prod.fst hrec
    have hvk : sa.satellite_velocities k = s.satellite_velocities k :=
      congrArg (fun r => r.2.1) hrec
    show sa.satellite_positions k = _ ∧ sa.satellite_velocities k = _
    rw [hpk, hvk]
    exact c5 k (by omega) hk2
  · show set_at sa.satellite_to_guy i (c : Int) i = c
    rw [set_at_same]
  · intro k hk
    show set_at sa.satellite_to_guy i (c : Int) k = _
    rw [set_at_other _ _ (by omega), ga]
  · intro k
    rw [guy_is_picked_after_claim sa c k _ rfl, hpa]
  · show sa.guy_picked_count + 1 = _
    rw [pa.2]

/-- The round of the loop over the satellites for satellite `i` of a store in the form
`crowd_form` when the first target and the targets up to `c` are claimed, target `c` is not,
and the test beyond the array finds target `z` unclaimed: the satellite survives and claims
target `z`, the nearer one, with the write beyond the array. -/
theorem crowd_step_take (o : Overrun Frac) (ticks : Int) (fuel : Nat) {z g n i c : Nat}
    {s : State Frac} (hf : crowd_form z g n i s) (hi : i < n)
    (hc1 : 1 ≤ c) (hc : c < 64 * GUY_PICKED_WORDS) (hzw : 64 * GUY_PICKED_WORDS ≤ z) (hz : z < g)
    (hp : ∀ k, k < c → guy_is_picked s k = true) (hu : guy_is_picked s c = false)
    (ht : ∀ t, same_picked s t → same_targets s t → o.test t z = false) :
    ∃ t, satellite_loop_run o exact_ops ticks (fuel + 1) i s
        = satellite_loop_run o exact_ops ticks fuel (i + 1)
            { o.mark z t with guy_picked_count := (o.mark z t).guy_picked_count + 1 }
      ∧ crowd_form z g n (i + 1) t ∧ same_targets s t ∧ same_picked s t
      ∧ t.satellite_to_guy i = (z : Int)
      ∧ (∀ k, k < i → t.satellite_to_guy k = s.satellite_to_guy k) := by
  obtain ⟨c1, c2, c3, c4, c5⟩ := hf
  obtain ⟨sa, hsa, hscan, hpi, hra, ta, pa, ca, ga⟩ := near_origin_alive ticks (s := s) (i := i)
    (by omega) (by omega) (fun k hk1 hk2 => c5 k hk1 (by omega))
  have hga : sa.guy_count = g := by rw [ta.2.2.2.1, c3]
  have hma : ∀ j, j < sa.guy_count → sa.guy_magnitudes j = crowd_magnitude z j := by
    intro j hj
    rw [ta.2.2.1]
    exact c4 j (by omega)
  have hpa : ∀ k, guy_is_picked sa k = guy_is_picked s k := by
    intro k
    unfold guy_is_picked
    rw [pa.1]
  have hassign : assign_target_run o exact_ops i sa = .ok
      { o.mark z { sa with satellite_to_guy := set_at sa.satellite_to_guy i (z : Int) } with
        guy_picked_count :=
          (o.mark z { sa with satellite_to_guy := set_at sa.satellite_to_guy i (z : Int) }
            ).guy_picked_count + 1 } := by
    unfold assign_target_run
    rw [if_pos (by omega), hpi, crowd_scan_next o z c (by omega) hma hc1 hc hzw (by omega)
      (fun k hk => by rw [hpa]; exact hp k hk) (by rw [hpa]; exact hu),
      if_neg (by rw [ht sa pa ta]; simp)]
    simp only
    unfold store_assignment_run
    rw [if_pos (by omega),
      if_neg (target_distance_finite _ i (by omega) (Or.inr (Or.inl rfl))),
      if_neg (by unfold GUY_PICKED_WORDS MAX_GUYS at hzw ⊢; omega)]
  refine ⟨{ sa with satellite_to_guy := set_at sa.satellite_to_guy i (z : Int) },
    satellite_loop_run_alive o exact_ops ticks fuel i (by omega) hsa hscan hassign,
    ⟨by rw [← c1, ← ca], c2, hga, fun j hj => hma j (by omega), ?_⟩, ta, pa, ?_, ?_⟩
  · intro k hk1 hk2
    have hrec := hra k (by omega)
    have hpk : sa.satellite_positions k = s.satellite_positions k := congrArg Prod.fst hrec
    have hvk : sa.satellite_velocities k = s.satellite_velocities k :=
      congrArg (fun r => r.2.1) hrec
    show sa.satellite_positions k = _ ∧ sa.satellite_velocities k = _
    rw [hpk, hvk]
    exact c5 k (by omega) hk2
  · show set_at sa.satellite_to_guy i (z : Int) i = z
    rw [set_at_same]
  · intro k hk
    show set_at sa.satellite_to_guy i (z : Int) k = _
    rw [set_at_other _ _ (by omega), ga]

/-- With up to four resting satellites at the positions `near_origin` and more targets than
`guy_picked` has bits, the first satellite survives its inner collision loop and its target
assignment ends in the read of `guy_picked` out of bounds: so do the loop over the satellites
and the step, whatever the clocks and the results of `rand()`. -/
theorem near_origin_overflow (ticks current_ticks r1 r2 : Int) {s : State Frac}
    (h1 : 1 ≤ s.satellite_count) (h4 : s.satellite_count ≤ 4)
    (hp : ∀ k, k < s.satellite_count → s.satellite_positions k = near_origin k
      ∧ s.satellite_velocities k = ⟨⟨0, 1⟩, ⟨0, 1⟩⟩)
    (hg : 64 * GUY_PICKED_WORDS < s.guy_count) :
    satellite_loop exact_ops ticks (begin_tick exact_ops s).satellite_count 0
        (begin_tick exact_ops s) = .error .guy_picked_index
      ∧ tick exact_ops ticks current_ticks r1 r2 s = .error .guy_picked_index := by
  have hloop : satellite_loop exact_ops ticks (begin_tick exact_ops s).satellite_count 0
      (begin_tick exact_ops s) = .error .guy_picked_index := by
    obtain ⟨sa, hsa, hscan, -, -, ta, -, ca, -⟩ := near_origin_alive ticks
      (s := begin_tick exact_ops s) (i := 0) h1 h4 (fun k _ hk => hp k hk)
    have hover : assign_target exact_ops 0 sa = .error .guy_picked_index :=
      assign_target_overflow exact_ops (by rw [ca]; exact h1) (by rw [ta.2.2.2.1]; exact hg)
    obtain ⟨m, hm⟩ : ∃ m, (begin_tick exact_ops s).satellite_count = m + 1 :=
      ⟨s.satellite_count - 1, by show s.satellite_count = _; omega⟩
    rw [hm, satellite_loop, if_pos (by omega), hsa]
    simp only
    rw [hscan]
    simp only [if_true, hover]
  refine ⟨hloop, ?_⟩
  unfold tick
  simp only
  rw [hloop]

theorem guy_is_picked_zero {s : State F} (h : s.guy_picked = fun _ => 0) (k : Nat) :
    guy_is_picked s k = false := by
  unfold guy_is_picked
  rw [h]
  simp

theorem guy_is_picked_congr {s t : State F} (h : t.guy_picked = s.guy_picked) (k : Nat) :
    guy_is_picked t k = guy_is_picked s k := by
  unfold guy_is_picked
  rw [h]

/-- The round of `crowd_step_take` when the word behind `guy_picked` is `guy_picked_count`:
the write beyond the array sets bit `z % 64` of the claimed count, which is then incremented;
nothing else differs from a claim, and no bit of `guy_picked` is set. -/
theorem crowd_step_take_count (ticks : Int) (fuel : Nat) {z g n i c : Nat}
    {s : State Frac} (hf : crowd_form z g n i s) (hi : i < n)
    (hc1 : 1 ≤ c) (hc : c < 64 * GUY_PICKED_WORDS) (hzw : 64 * GUY_PICKED_WORDS ≤ z) (hz : z < g)
    (hz32 : z % 64 < 32)
    (hp : ∀ k, k < c → guy_is_picked s k = true) (hu : guy_is_picked s c = false)
    (ht : (toU32 s.guy_picked_count).toNat.testBit (z % 64) = false) :
    ∃ sc, satellite_loop_run count_behind exact_ops ticks (fuel + 1) i s
        = satellite_loop_run count_behind exact_ops ticks fuel (i + 1) sc
      ∧ crowd_form z g n (i + 1) sc ∧ same_targets s sc
      ∧ sc.guy_picked = s.guy_picked
      ∧ sc.satellite_to_guy i = (z : Int)
      ∧ (∀ k, k < i → sc.satellite_to_guy k = s.satellite_to_guy k)
      ∧ sc.guy_picked_count = with_bit s.guy_picked_count (z % 64) + 1 := by
  obtain ⟨t, h, ft, tt, pt, gt, gt0⟩ := crowd_step_take count_behind ticks fuel hf hi hc1 hc hzw hz
    hp hu (fun t1 h1 _ => by
      show (toU32 t1.guy_picked_count).toNat.testBit (z % 64) = false
      rw [h1.2]
      exact ht)
  have hm : (count_behind : Overrun Frac).mark z t
      = { t with guy_picked_count := with_bit t.guy_picked_count (z % 64) } := by
    show (if z % 64 < 32 then _ else _) = _
    rw [if_pos hz32]
  rw [hm] at h
  refine ⟨_, h, ?_, ?_, ?_, ?_, ?_, ?_⟩
  · exact ⟨ft.1, ft.2.1, ft.2.2.1, ft.2.2.2.1, ft.2.2.2.2⟩
  · exact ⟨tt.1, tt.2.1, tt.2.2.1, tt.2.2.2.1, tt.2.2.2.2.1, tt.2.2.2.2.2.1, tt.2.2.2.2.2.2.1,
      tt.2.2.2.2.2.2.2⟩
  · exact pt.1
  · exact gt
  · exact gt0
  · show with_bit t.guy_picked_count (z % 64) + 1 = _
    rw [pt.2]

/-- The round of `crowd_step_take` when the word behind `guy_picked` is `guy_count`: the write
beyond the array sets bit `z % 64` of `guy_count`. -/
theorem crowd_step_take_guy_count (ticks : Int) (fuel : Nat) {z g n i c : Nat}
    {s : State Frac} (hf : crowd_form z g n i s) (hi : i < n)
    (hc1 : 1 ≤ c) (hc : c < 64 * GUY_PICKED_WORDS) (hzw : 64 * GUY_PICKED_WORDS ≤ z) (hz : z < g)
    (hz31 : z % 64 < 31)
    (hp : ∀ k, k < c → guy_is_picked s k = true) (hu : guy_is_picked s c = false)
    (ht : g.testBit (z % 64) = false) :
    ∃ sc, satellite_loop_run guy_count_behind exact_ops ticks (fuel + 1) i s
        = satellite_loop_run guy_count_behind exact_ops ticks fuel (i + 1) sc
      ∧ sc.satellite_count = n ∧ sc.guy_count = g ||| (1 <<< (z % 64))
      ∧ sc.score = s.score
      ∧ sc.ticks_per_guy = s.ticks_per_guy
      ∧ sc.satellite_to_guy i = (z : Int)
      ∧ (∀ k, k < i → sc.satellite_to_guy k = s.satellite_to_guy k)
      ∧ sc.guy_picked_count = s.guy_picked_count + 1 := by
  obtain ⟨t, h, ft, tt, pt, gt, gt0⟩ := crowd_step_take guy_count_behind ticks fuel hf hi hc1 hc
    hzw hz hp hu (fun t1 _ h1 => by
      show t1.guy_count.testBit (z % 64) = false
      rw [h1.2.2.2.1, hf.2.2.1]
      exact ht)
  have hm : (guy_count_behind : Overrun Frac).mark z t
      = { t with guy_count := t.guy_count ||| (1 <<< (z % 64)) } := by
    show (if z % 64 < 31 then _ else _) = _
    rw [if_pos hz31]
  rw [hm] at h
  refine ⟨_, h, ?_, ?_, ?_, ?_, ?_, ?_, ?_⟩
  · exact ft.1
  · show t.guy_count ||| (1 <<< (z % 64)) = _
    rw [ft.2.2.1]
  · show t.score = s.score
    exact tt.2.2.2.2.2.1
  · show t.ticks_per_guy = s.ticks_per_guy
    exact tt.2.2.2.2.1
  · exact gt
  · exact gt0
  · show t.guy_picked_count + 1 = _
    rw [pt.2]

/-- The loop over the satellites on four resting satellites at the positions `near_origin` and
961 targets of which the first and the last (target 960) lie at the origin, the word behind
`guy_picked` being `guy_picked_count`.  Satellite 0 claims target 0; satellite 1 finds bit 0 of
the claimed count 1 set, takes target 960 for claimed and claims target 1; satellites 2 and 3
find bit 0 of the claimed counts 2 and 4 clear and both claim target 960.  The claimed count is
left at 6. -/
theorem crowd_four_loop (ticks : Int) {s : State Frac} (hf : crowd_form 960 961 4 0 s)
    (hgp : s.guy_picked = fun _ => 0) (hcnt : s.guy_picked_count = 0) :
    ∃ s1, satellite_loop_run count_behind exact_ops ticks 4 0 s = .ok s1
      ∧ s1.satellite_count = 4 ∧ s1.satellite_to_guy 0 = 0 ∧ s1.satellite_to_guy 1 = 1
      ∧ s1.satellite_to_guy 2 = 960 ∧ s1.satellite_to_guy 3 = 960
      ∧ s1.guy_picked_count = 6 ∧ s1.score = s.score ∧ s1.guy_count = 961 := by
  have hz := guy_is_picked_zero hgp
  obtain ⟨sa, ha, fa, ta, ga, pa, ca⟩ := crowd_step_first count_behind ticks 3 hf (by decide)
    (by decide) (hz 0)
  rw [hcnt] at ca
  have pa0 : guy_is_picked sa 0 = true := by rw [pa 0]; rfl
  have pa1 : guy_is_picked sa 1 = false := by rw [pa 1, hz 1]; rfl
  obtain ⟨sb, hb, fb, tb, gb, gb0, pb, cb⟩ := crowd_step_skip count_behind ticks 2 (c := 1) fa
    (by decide) (by decide) (by decide) (by decide) (by decide)
    (fun k hk => by
      have : k = 0 := by omega
      rw [this]
      exact pa0)
    pa1
    (fun t ht _ => by
      show (toU32 t.guy_picked_count).toNat.testBit (960 % 64) = true
      rw [ht.2, ca]
      decide)
  rw [ca] at cb
  have pb0 : guy_is_picked sb 0 = true := by rw [pb 0, pa0]; rfl
  have pb1 : guy_is_picked sb 1 = true := by rw [pb 1]; rfl
  have pb2 : guy_is_picked sb 2 = false := by rw [pb 2, pa 2, hz 2]; rfl
  obtain ⟨sc, hc, fc, tc, pc, gc, gc0, cc⟩ := crowd_step_take_count ticks 1 (c := 2) fb
    (by decide) (by decide) (by decide) (by decide) (by decide) (by decide)
    (fun k hk => by
      have : k = 0 ∨ k = 1 := by omega
      rcases this with h | h <;> rw [h]
      · exact pb0
      · exact pb1)
    pb2
    (by rw [cb]; decide)
  rw [cb] at cc
  have hcc : sc.guy_picked_count = 4 := by rw [cc]; decide
  obtain ⟨sd, hd, fd, td, pd, gd, gd0, cd⟩ := crowd_step_take_count ticks 0 (c := 2) fc
    (by decide) (by decide) (by decide) (by decide) (by decide) (by decide)
    (fun k hk => by
      rw [guy_is_picked_congr pc k]
      have : k = 0 ∨ k = 1 := by omega
      rcases this with h | h <;> rw [h]
      · exact pb0
      · exact pb1)
    (by rw [guy_is_picked_congr pc 2]; exact pb2)
    (by rw [hcc]; decide)
  rw [hcc] at cd
  refine ⟨sd, ?_, fd.1, ?_, ?_, ?_, gd, by rw [cd]; decide, ?_, fd.2.2.1⟩
  · rw [show (4 : Nat) = 3 + 1 from rfl, ha, hb, hc, hd, satellite_loop_run, if_neg]
    rw [fd.1]
    decide
  · rw [gd0 0 (by decide), gc0 0 (by decide), gb0 0 (by decide), ga]
  · rw [gd0 1 (by decide), gc0 1 (by decide), gb]
    rfl
  · rw [gd0 2 (by decide), gc]
    rfl
  · rw [td.2.2.2.2.2.1, tc.2.2.2.2.2.1, tb.2.2.2.2.2.1, ta.2.2.2.2.2.1]

/-- The loop over the satellites on two resting satellites at the positions `near_origin` and
971 targets of which the first and the last (target 970) lie at the origin, the word behind
`guy_picked` being `guy_count`: the satellites claim the targets 0 and 970, and the write
beyond the array sets bit 10 of `guy_count`, which is left at 971 + 1024 = 1995. -/
theorem crowd_two_loop (ticks : Int) {s : State Frac} (hf : crowd_form 970 971 2 0 s)
    (hgp : s.guy_picked = fun _ => 0) :
    ∃ s1, satellite_loop_run guy_count_behind exact_ops ticks 2 0 s = .ok s1
      ∧ s1.satellite_count = 2 ∧ s1.satellite_to_guy 0 = 0 ∧ s1.satellite_to_guy 1 = 970
      ∧ s1.guy_count = 1995 := by
  have hz := guy_is_picked_zero hgp
  obtain ⟨sa, ha, fa, ta, ga, pa, ca⟩ := crowd_step_first guy_count_behind ticks 1 hf (by decide)
    (by decide) (hz 0)
  have pa0 : guy_is_picked sa 0 = true := by rw [pa 0]; rfl
  have pa1 : guy_is_picked sa 1 = false := by rw [pa 1, hz 1]; rfl
  obtain ⟨sc, hc, c1, c2, -, -, gc, gc0, -⟩ := crowd_step_take_guy_count ticks 0 (c := 1) fa
    (by decide) (by decide) (by decide) (by decide) (by decide) (by decide)
    (fun k hk => by
      have : k = 0 := by omega
      rw [this]
      exact pa0)
    pa1 (by decide)
  refine ⟨sc, ?_, c1, ?_, ?_, ?_⟩
  · rw [show (2 : Nat) = 1 + 1 from rfl, ha, hc, satellite_loop_run, if_neg]
    rw [c1]
    decide
  · rw [gc0 0 (by decide), ga]
  · rw [gc]
    rfl
  · rw [c2]
    decide

/-- The rest of a step once the loop over the satellites has returned: the step returns, with
the satellites the loop has left, the score `max score guy_picked_count` and, after the
explosion aging, the target spawner. -/
theorem tick_run_after_loop [DecidableEq F] (o : Overrun F) (ops : FloatOps F)
    (ticks current_ticks r1 r2 : Int) {s sa : State F}
    (h : satellite_loop_run o ops ticks (begin_tick ops s).satellite_count 0 (begin_tick ops s)
      = .ok sa) :
    ∃ sb s1, tick_run o ops ticks current_ticks r1 r2 s = .ok s1
      ∧ s1 = { spawn_guy ops ticks r1 r2 sb with last_ticks := toU32 current_ticks }
      ∧ s1.satellite_count = sa.satellite_count ∧ s1.satellite_to_guy = sa.satellite_to_guy
      ∧ s1.score = max sa.score sa.guy_picked_count
      ∧ sb.guy_count = sa.guy_count ∧ sb.ticks_per_guy = sa.ticks_per_guy := by
  obtain ⟨sb, hsb⟩ := age_explosions_total ticks (update_score sa).explosion_count 0
    (update_score sa) (by omega)
  obtain ⟨tb, -, qb, -⟩ := age_explosions_frame ticks _ _ _ _ hsb
  obtain ⟨qc, -, -, hscore, -⟩ := spawn_guy_frame ops ticks r1 r2 sb
  refine ⟨sb, _, ?_, rfl, ?_, ?_, ?_, tb.2.2.2.1, tb.2.2.2.2.1⟩
  · unfold tick_run
    simp only
    rw [h]
    simp only
    rw [hsb]
  · exact qc.2.2.2.trans qb.2.2.2
  · exact qc.2.2.1.trans qb.2.2.1
  · show (spawn_guy ops ticks r1 r2 sb).score = _
    rw [hscore, tb.2.2.2.2.2.1]
    rfl

/-! ## Steps of runs that have outgrown the claimed marker -/

theorem crowd_form_begin {z g n : Nat} {s : State Frac} (hn : n ≤ 4)
    (h1 : s.satellite_count = n) (h2 : s.guy_count = g)
    (h3 : ∀ j, j < g → s.guy_magnitudes j = crowd_magnitude z j)
    (h4 : ∀ k, k < n → s.satellite_positions k = near_origin k
      ∧ s.satellite_velocities k = ⟨⟨0, 1⟩, ⟨0, 1⟩⟩) :
    crowd_form z g n 0 (begin_tick exact_ops s) :=
  ⟨h1, hn, h2, h3, fun k _ hk => h4 k hk⟩

/-! ## Invariants of the step with the accesses beyond `guy_picked` carried out -/

theorem closest_scan_run_result (o : Overrun F) (ops : FloatOps F) (s : State F)
    (p : Vector2 F) :
    ∀ (fuel j g0 : Nat) (d0 : F) (g : Nat) (d : F),
      closest_scan_run o ops s p fuel j g0 d0 = .ok (g, d) →
      (g = g0 ∧ d = d0) ∨ g < s.guy_count := by
  intro fuel
  induction fuel with
  | zero =>
    intro j g0 d0 g d h
    unfold closest_scan_run at h
    split at h
    · cases h
    · injection h with h
      injection h with h1 h2
      exact Or.inl ⟨h1.symm, h2.symm⟩
  | succ n ih =>
    intro j g0 d0 g d h
    rw [closest_scan_run] at h
    split at h
    · rename_i hj
      split at h
      · exact ih _ _ _ _ _ h
      · simp only at h
        split at h
        · rcases ih _ _ _ _ _ h with ⟨h1, -⟩ | h1
          · exact Or.inr (by omega)
          · exact Or.inr h1
        · exact ih _ _ _ _ _ h
    · injection h with h
      injection h with h1 h2
      exact Or.inl ⟨h1.symm, h2.symm⟩

/-- What the target assignment with the accesses beyond the array carried out does to the
assigned indices and to the three counts: slot `i` of `satellite_to_guy` receives none or the
index of a target, and nothing else of these changes, before the write beyond the array if
there is one. -/
theorem assign_target_run_effect [DecidableEq F] (o : Overrun F) (ops : FloatOps F) {i : Nat}
    {s s1 : State F} (h : assign_target_run o ops i s = .ok s1) :
    ∃ v : Int, (v = -1 ∨ (0 ≤ v ∧ v < s.guy_count)) ∧
      ((s1.satellite_to_guy = set_at s.satellite_to_guy i v ∧ s1.guy_count = s.guy_count
          ∧ s1.satellite_count = s.satellite_count ∧ s1.explosion_count = s.explosion_count)
        ∨ ∃ (g : Nat) (t : State F), t.satellite_to_guy = set_at s.satellite_to_guy i v
          ∧ t.guy_count = s.guy_count ∧ t.satellite_count = s.satellite_count
          ∧ t.explosion_count = s.explosion_count
          ∧ s1.satellite_to_guy = (o.mark g t).satellite_to_guy
          ∧ s1.guy_count = (o.mark g t).guy_count
          ∧ s1.satellite_count = (o.mark g t).satellite_count
          ∧ s1.explosion_count = (o.mark g t).explosion_count) := by
  unfold assign_target_run at h
  split at h
  · rename_i hi
    split at h
    · rename_i g d hscan
      unfold store_assignment_run at h
      rw [if_pos hi] at h
      by_cases hinf : d = ops.infinity
      · rw [if_pos hinf] at h
        injection h with h
        subst h
        exact ⟨-1, Or.inl rfl, Or.inl ⟨rfl, rfl, rfl, rfl⟩⟩
      · rw [if_neg hinf] at h
        have hg : g < s.guy_count := by
          rcases closest_scan_run_result o ops s _ _ _ _ _ _ _ hscan with ⟨-, h2⟩ | h2
          · exact absurd h2 hinf
          · exact h2
        refine ⟨(g : Int), Or.inr ⟨by omega, by omega⟩, ?_⟩
        by_cases hw : g / 64 < GUY_PICKED_WORDS
        · rw [if_pos hw] at h
          injection h with h
          subst h
          exact Or.inl ⟨rfl, rfl, rfl, rfl⟩
        · rw [if_neg hw] at h
          injection h with h
          subst h
          exact Or.inr ⟨g, { s with satellite_to_guy := set_at s.satellite_to_guy i (g : Int) },
            rfl, rfl, rfl, rfl, rfl, rfl, rfl, rfl⟩
    · cases h
  · cases h

theorem satellite_loop_run_invariant [DecidableEq F] (o : Overrun F) (ops : FloatOps F)
    (ticks : Int) (Inv : State F → Prop)
    (h_alive : ∀ i s s1 s2 s3, Inv s → physics_step ops i s = .ok s1 →
      collision_scan ops ticks i (s1.satellite_count - (i + 1)) (i + 1) true s1 = .ok (s2, true) →
      assign_target_run o ops i s2 = .ok s3 → Inv s3)
    (h_dead : ∀ i s s1 s2 s3, Inv s → physics_step ops i s = .ok s1 →
      collision_scan ops ticks i (s1.satellite_count - (i + 1)) (i + 1) true s1 = .ok (s2, false) →
      delete_satellite i s2 = .ok s3 → Inv s3) :
    ∀ (fuel i : Nat) (s s1 : State F), Inv s → satellite_loop_run o ops ticks fuel i s = .ok s1 →
      Inv s1 := by
  intro fuel
  induction fuel with
  | zero =>
    intro i s s1 hinv h
    unfold satellite_loop_run at h
    split at h
    · cases h
    · injection h with h
      subst h
      exact hinv
  | succ n ih =>
    intro i s s1 hinv h
    rw [satellite_loop_run] at h
    split at h
    · split at h
      · rename_i sa hsa
        split at h
        · rename_i sb alive hsb
          split at h
          · rename_i halive
            subst halive
            split at h
            · rename_i sc hsc
              exact ih _ _ _ (h_alive _ _ _ _ _ hinv hsa hsb hsc) h
            · cases h
          · rename_i halive
            have : alive = false := by simpa using halive
            subst this
            split at h
            · rename_i sc hsc
              exact ih _ _ _ (h_dead _ _ _ _ _ hinv hsa hsb hsc) h
            · cases h
        · cases h
      · cases h
    · injection h with h
      subst h
      exact hinv

/-- The loop over the satellites with the accesses beyond the array carried out returns when
the write beyond the array does not raise `satellite_count`. -/
theorem satellite_loop_run_total [DecidableEq F] (o : Overrun F) (ops : FloatOps F)
    (ticks : Int) (ho : ∀ (g : Nat) (s : State F), (o.mark g s).satellite_count ≤ s.satellite_count) :
    ∀ (fuel i : Nat) (s : State F), s.satellite_count - i ≤ fuel →
      ∃ s1, satellite_loop_run o ops ticks fuel i s = .ok s1 := by
  intro fuel
  induction fuel with
  | zero =>
    intro i s hf
    exact ⟨s, by rw [satellite_loop_run, if_neg (by omega)]⟩
  | succ n ih =>
    intro i s hf
    rw [satellite_loop_run]
    split
    · rename_i hi
      obtain ⟨sa, hsa⟩ := physics_step_ok ops hi
      obtain ⟨-, -, -, hca, -, -, -⟩ := physics_step_frame hsa
      rw [hsa]
      simp only
      obtain ⟨sb, alive, hsb, hib, hcb, hab, -⟩ :=
        collision_scan_start ops ticks (i := i) (s := sa) (by omega)
      rw [hsb]
      simp only
      cases alive with
      | true =>
        simp only [if_true]
        obtain ⟨sc, hsc1, -, -⟩ := assign_target_run_spec o ops (i := i) (s := sb) hib
        rw [hsc1]
        simp only
        obtain ⟨v, -, hv⟩ := assign_target_run_effect o ops hsc1
        have hcc : sc.satellite_count ≤ sb.satellite_count := by
          rcases hv with ⟨-, -, e, -⟩ | ⟨g, t, -, -, e1, -, -, -, e2, -⟩
          · omega
          · rw [e2, ← e1]
            exact ho g t
        exact ih (i + 1) sc (by have := hab rfl; omega)
      | false =>
        simp only [Bool.false_eq_true, if_false]
        obtain ⟨sc, hsc1⟩ : ∃ sc, delete_satellite i sb = .ok sc := ⟨_, delete_satellite_ok hib⟩
        obtain ⟨-, hcc, -⟩ := delete_satellite_record hsc1
        rw [hsc1]
        simp only
        exact ih i sc (by omega)
    · exact ⟨s, rfl⟩

/-- The loop over the satellites with the accesses beyond the array carried out keeps the three
stores within their capacities when the write beyond the array raises none of the counts. -/
theorem satellite_loop_run_capacity [DecidableEq F] (o : Overrun F) (ops : FloatOps F)
    (ticks : Int) (ho : overrun_keeps_counts o) {fuel i : Nat} {s s1 : State F}
    (h : satellite_loop_run o ops ticks fuel i s = .ok s1) (hw : within_capacity s) :
    within_capacity s1 := by
  refine satellite_loop_run_invariant o ops ticks within_capacity ?_ ?_ fuel i s s1 hw h
  · intro i t t1 t2 t3 ⟨w1, w2, w3⟩ h1 h2 h3
    obtain ⟨ta, -, ea, ca, -, hi, -⟩ := physics_step_frame h1
    obtain ⟨tb, -, -⟩ := collision_scan_frame ops ticks i _ _ _ _ _ _ h2
    obtain ⟨sb, ab, hb, -, hcb, -, -⟩ := collision_scan_start ops ticks (i := i) (s := t1)
      (by omega)
    rw [h2] at hb
    injection hb with hb
    injection hb with hb1 hb2
    subst hb1
    obtain ⟨-, heb⟩ := collision_scan_explosion_count ops ticks (by omega) h2
    have e2 : t2.explosion_count ≤ MAX_EXPLOSIONS := heb (by rw [ea.2.2.2]; exact w3)
    have g2 : t2.guy_count ≤ MAX_GUYS := by rw [tb.2.2.2.1, ta.2.2.2.1]; exact w2
    have c2 : t2.satellite_count ≤ MAX_SATELLITES := by omega
    obtain ⟨v, -, hv⟩ := assign_target_run_effect o ops h3
    rcases hv with ⟨-, a, b, c⟩ | ⟨g, t, -, a, b, c, -, a1, b1, c1⟩
    · exact ⟨by omega, by omega, by omega⟩
    · obtain ⟨m1, m2, m3⟩ := ho g t
      exact ⟨by omega, by omega, by omega⟩
  · intro i t t1 t2 t3 ⟨w1, w2, w3⟩ h1 h2 h3
    obtain ⟨ta, -, ea, ca, -, hi, -⟩ := physics_step_frame h1
    obtain ⟨tb, -, -⟩ := collision_scan_frame ops ticks i _ _ _ _ _ _ h2
    obtain ⟨sb, ab, hb, -, hcb, -, -⟩ := collision_scan_start ops ticks (i := i) (s := t1)
      (by omega)
    rw [h2] at hb
    injection hb with hb
    injection hb with hb1 hb2
    subst hb1
    obtain ⟨-, heb⟩ := collision_scan_explosion_count ops ticks (by omega) h2
    have e2 : t2.explosion_count ≤ MAX_EXPLOSIONS := heb (by rw [ea.2.2.2]; exact w3)
    have g2 : t2.guy_count ≤ MAX_GUYS := by rw [tb.2.2.2.1, ta.2.2.2.1]; exact w2
    obtain ⟨tc, -, ec⟩ := delete_satellite_frame h3
    obtain ⟨-, cc, -⟩ := delete_satellite_record h3
    exact ⟨by omega, by rw [tc.2.2.2.1]; exact g2, by rw [ec.2.2.2]; exact e2⟩

/-- The step with the accesses beyond the array carried out returns and keeps the three stores
within their capacities when the write beyond the array raises none of the counts. -/
theorem tick_run_capacity [DecidableEq F] (o : Overrun F) (ops : FloatOps F)
    (ticks current_ticks r1 r2 : Int) (s : State F) (ho : overrun_keeps_counts o)
    (hw : within_capacity s) :
    ∃ s1, tick_run o ops ticks current_ticks r1 r2 s = .ok s1 ∧ within_capacity s1 := by
  obtain ⟨sa, hsa⟩ := satellite_loop_run_total o ops ticks (fun g t => (ho g t).1)
    (begin_tick ops s).satellite_count 0 (begin_tick ops s) (by omega)
  obtain ⟨w1, w2, w3⟩ := satellite_loop_run_capacity o ops ticks ho hsa
    (show within_capacity (begin_tick ops s) from hw)
  obtain ⟨sb, hsb⟩ := age_explosions_total ticks (update_score sa).explosion_count 0
    (update_score sa) (by omega)
  obtain ⟨tb, -, qb, cb⟩ := age_explosions_frame ticks _ _ _ _ hsb
  obtain ⟨qc, ec, -, -, -, -, gc⟩ := spawn_guy_frame ops ticks r1 r2 sb
  refine ⟨{ spawn_guy ops ticks r1 r2 sb with last_ticks := toU32 current_ticks }, ?_, ?_, ?_, ?_⟩
  · unfold tick_run
    simp only
    rw [hsa]
    simp only
    rw [hsb]
  · show (spawn_guy ops ticks r1 r2 sb).satellite_count ≤ MAX_SATELLITES
    rw [qc.2.2.2, qb.2.2.2]
    exact w1
  · show (spawn_guy ops ticks r1 r2 sb).guy_count ≤ MAX_GUYS
    exact gc (by rw [tb.2.2.2.1]; exact w2)
  · show (spawn_guy ops ticks r1 r2 sb).explosion_count ≤ MAX_EXPLOSIONS
    rw [ec.2.2.2]
    exact le_trans cb w3

/-- With the accesses beyond the array carried out, the three stores of every state the program
reaches are within their capacities, when the write beyond the array raises none of the
counts. -/
theorem continued_within_capacity [DecidableEq F] (o : Overrun F) (ops : FloatOps F)
    (ho : overrun_keeps_counts o) {s : State F} (h : Continued o ops s) :
    within_capacity s := by
  induction h with
  | init t0 => exact initial_within_capacity ops t0
  | deploy p v _ ih => exact deploy_within_capacity p v ih
  | tick ticks current_ticks r1 r2 _ ht ih =>
    rename_i s0 s1 hs0
    obtain ⟨s2, h2, w2⟩ := tick_run_capacity o ops ticks current_ticks r1 r2 s0 ho ih
    rw [ht] at h2
    injection h2 with h2
    subst h2
    exact w2

/-- The write beyond the array of `count_behind` changes `guy_picked_count` alone: it raises
none of the counts of the stores and leaves the assigned indices and `guy_count` as they
are. -/
theorem count_behind_keeps :
    overrun_keeps_counts (count_behind : Overrun F)
      ∧ overrun_keeps_assignments (count_behind : Overrun F) := by
  constructor
  · intro g s
    unfold count_behind
    simp only
    split
    · exact ⟨le_refl _, le_refl _, le_refl _⟩
    · exact ⟨le_refl _, le_refl _, le_refl _⟩
  · intro g s
    unfold count_behind
    simp only
    split
    · exact ⟨rfl, le_refl _⟩
    · exact ⟨rfl, le_refl _⟩

/-- C1 (claim exclusivity), the failing input, after the cases in which the claim holds.
First: from every state with at most 960 targets the assignment phase of a step returns, and
no two live satellites hold the same target index after it.  Second: a run of the program
reaches, between two driver invocations, a state with 961 targets (within `MAX_GUYS`), of which
the targets 0 and 960 lie at the origin and all others at the distance 0.5 from it, and four
resting satellites at the distance 0.1 from the origin, no two of them within the collision
threshold.  From that state the assignment phase of every step reads `guy_picked[15]`, one word
behind the `MAX_GUYS / 64 = 15` words of the array: in the embedding with the fault it ends
there, and with the word behind the array being `guy_picked_count`, the variable declared next,
it returns with the satellites 2 and 3 both holding target 960, so that claim exclusivity does
not hold. -/
theorem claim_exclusivity_overflow [DecidableEq F] (ops : FloatOps F) :
    (∀ (s : State F) (ticks : Int), s.guy_count ≤ 64 * GUY_PICKED_WORDS →
      ∃ s1, satellite_loop ops ticks (begin_tick ops s).satellite_count 0 (begin_tick ops s)
          = .ok s1
        ∧ claims_exclusive s1 s1.satellite_count)
    ∧ ∃ s : State Frac, (∃ t c, Run exact_ops s t c)
      ∧ s.satellite_count = 4 ∧ s.guy_count = 961 ∧ s.guy_count ≤ MAX_GUYS
      ∧ (∀ j, j < 961 → s.guy_magnitudes j = crowd_magnitude 960 j)
      ∧ (∀ k, k < 4 → s.satellite_positions k = near_origin k
          ∧ s.satellite_velocities k = ⟨⟨0, 1⟩, ⟨0, 1⟩⟩)
      ∧ ∀ ticks : Int,
          satellite_loop exact_ops ticks (begin_tick exact_ops s).satellite_count 0
              (begin_tick exact_ops s) = .error .guy_picked_index
          ∧ ∃ s1, satellite_loop_run count_behind exact_ops ticks
                (begin_tick exact_ops s).satellite_count 0 (begin_tick exact_ops s) = .ok s1
            ∧ s1.satellite_count = 4
            ∧ s1.satellite_to_guy 2 = 960 ∧ s1.satellite_to_guy 3 = 960
            ∧ ¬ claims_exclusive s1 s1.satellite_count := by
  refine ⟨fun s ticks hg => claim_exclusivity_below_capacity ops ticks s hg, ?_⟩
  obtain ⟨s, hrun, hc, hg, hmag, -, hpos⟩ := crowd_state 960 961 4 (by decide) (by decide)
    (by decide)
  refine ⟨s, ⟨_, _, hrun⟩, hc, hg, by rw [hg]; decide, hmag, hpos, ?_⟩
  intro ticks
  refine ⟨(near_origin_overflow ticks 0 0 0 (by omega) (by omega)
    (fun k hk => hpos k (by omega)) (by rw [hg]; decide)).1, ?_⟩
  obtain ⟨s1, h1, c1, -, -, g2, g3, -⟩ := crowd_four_loop ticks
    (crowd_form_begin (by decide) hc hg hmag hpos) rfl rfl
  have hb : (begin_tick exact_ops s).satellite_count = 4 := hc
  refine ⟨s1, by rw [hb]; exact h1, c1, g2, g3, ?_⟩
  intro hx
  have := hx 2 3 (by omega) (by omega) (by decide) (by rw [g2, g3])
  rw [g2] at this
  exact absurd this (by decide)

/-- C5 (store bounds invariant), the failing input, after the runs in which the claim holds.
The step is taken with the accesses beyond `guy_picked` carried out (`tick_run`).  First: as
long as the write of line 346 beyond the array raises none of the three counts, the three
stores of every state the program reaches are within their capacities, and every step from
such a state returns, with no access outside the live part of a store, a state within the
capacities; the write raises none of them when the word behind the array is
`guy_picked_count`.  Second: a run of the program reaches, between two driver invocations, a
state within the three capacities with 971 targets, of which the targets 0 and 970 lie at the
origin and all others at the distance 0.5 from it, and two resting satellites at the distance
0.1 from the origin.  Every step from that state reads `guy_picked[15]`, an index outside the
15 words of the array: in the embedding with the fault it ends there, and with the word behind
the array being `guy_count` it returns a state with `guy_count = 1995`, above `MAX_GUYS`: the
second satellite claims target 970, and the write of line 346 sets bit 10 of `guy_count`. -/
theorem store_bounds_overflow [DecidableEq F] (ops : FloatOps F) :
    (∀ o : Overrun F, overrun_keeps_counts o → ∀ s : State F, Continued o ops s →
        within_capacity s
        ∧ ∀ ticks current_ticks r1 r2 : Int,
            ∃ s1, tick_run o ops ticks current_ticks r1 r2 s = .ok s1 ∧ within_capacity s1)
    ∧ overrun_keeps_counts (count_behind : Overrun F)
    ∧ ∃ s : State Frac, (∃ t c, Run exact_ops s t c) ∧ within_capacity s
      ∧ s.satellite_count = 2 ∧ s.guy_count = 971
      ∧ (∀ j, j < 971 → s.guy_magnitudes j = crowd_magnitude 970 j)
      ∧ (∀ k, k < 2 → s.satellite_positions k = near_origin k
          ∧ s.satellite_velocities k = ⟨⟨0, 1⟩, ⟨0, 1⟩⟩)
      ∧ ∀ ticks current_ticks r1 r2 : Int,
          tick exact_ops ticks current_ticks r1 r2 s = .error .guy_picked_index
          ∧ ∃ s1, tick_run guy_count_behind exact_ops ticks current_ticks r1 r2 s = .ok s1
            ∧ s1.satellite_to_guy 1 = 970 ∧ s1.guy_count = 1995
            ∧ ¬ within_capacity s1 := by
  refine ⟨fun o ho s hs => ⟨continued_within_capacity o ops ho hs, fun ticks current_ticks r1 r2 =>
    tick_run_capacity o ops ticks current_ticks r1 r2 s ho (continued_within_capacity o ops ho hs)⟩,
    count_behind_keeps.1, ?_⟩
  obtain ⟨s, hrun, hc, hg, hmag, -, hpos⟩ := crowd_state 970 971 2 (by decide) (by decide)
    (by decide)
  refine ⟨s, ⟨_, _, hrun⟩, reachable_within_capacity exact_ops (run_reachable exact_ops hrun),
    hc, hg, hmag, hpos, ?_⟩
  intro ticks current_ticks r1 r2
  refine ⟨(near_origin_overflow ticks current_ticks r1 r2 (by omega) (by omega)
    (fun k hk => hpos k (by omega)) (by rw [hg]; decide)).2, ?_⟩
  obtain ⟨sa, ha, -, -, g1, ga⟩ := crowd_two_loop ticks
    (crowd_form_begin (by decide) hc hg hmag hpos) rfl
  have hb : (begin_tick exact_ops s).satellite_count = 2 := hc
  obtain ⟨sb, s1, h1, e1, -, e3, -, e5, -⟩ := tick_run_after_loop guy_count_behind exact_ops ticks
    current_ticks r1 r2 (s := s) (by rw [hb]; exact ha)
  have hgc : s1.guy_count = 1995 := by
    rw [e1]
    show (spawn_guy exact_ops ticks r1 r2 sb).guy_count = 1995
    unfold spawn_guy
    rw [if_neg (by rw [e5, ga]; unfold MAX_GUYS; omega), e5, ga]
  refine ⟨s1, h1, by rw [e3, g1], hgc, ?_⟩
  intro hw
  have := hw.2.1
  rw [hgc] at this
  exact absurd this (by decide)

theorem max_eq_max (a b : Int) : max a b = Max.max a b := by
  unfold max
  split
  · rw [max_eq_left (by omega)]
  · rw [max_eq_right (by omega)]

/-- C12 (score high-water mark), the failing input, after the cases in which the claim holds.
First: from every state with at most 960 targets a step returns a state in which the score is
the greater of the score before the step and the number of live satellites that hold a target
index, and the target indices these satellites hold are pairwise distinct, so that this number
is also the number of distinct target indices held.  Second: a run of the program reaches,
between two driver invocations, a state with the score 0, 961 targets, of which the targets 0
and 960 lie at the origin and all others at the distance 0.5 from it, and four resting
satellites at the distance 0.1 from the origin.  Every step from that state reads
`guy_picked[15]`, one word behind the array: in the embedding with the fault it ends there, and
with the word behind the array being `guy_picked_count` it returns with all four satellites
holding a target index, three distinct indices being held, and the score 6. -/
theorem score_high_water [DecidableEq F] (ops : FloatOps F) :
    (∀ (s : State F) (ticks current_ticks r1 r2 : Int), s.guy_count ≤ 64 * GUY_PICKED_WORDS →
      ∃ s1, tick ops ticks current_ticks r1 r2 s = .ok s1
        ∧ s1.score = Max.max s.score (claimed_count s1 s1.satellite_count : Int)
        ∧ (claimed_targets s1 s1.satellite_count).Nodup
        ∧ (claimed_targets s1 s1.satellite_count).dedup.length
            = claimed_count s1 s1.satellite_count)
    ∧ ∃ s : State Frac, (∃ t c, Run exact_ops s t c) ∧ s.score = 0
      ∧ s.satellite_count = 4 ∧ s.guy_count = 961 ∧ s.guy_count ≤ MAX_GUYS
      ∧ (∀ j, j < 961 → s.guy_magnitudes j = crowd_magnitude 960 j)
      ∧ (∀ k, k < 4 → s.satellite_positions k = near_origin k
          ∧ s.satellite_velocities k = ⟨⟨0, 1⟩, ⟨0, 1⟩⟩)
      ∧ ∀ ticks current_ticks r1 r2 : Int,
          tick exact_ops ticks current_ticks r1 r2 s = .error .guy_picked_index
          ∧ ∃ s1, tick_run count_behind exact_ops ticks current_ticks r1 r2 s = .ok s1
            ∧ claimed_count s1 s1.satellite_count = 4
            ∧ (claimed_targets s1 s1.satellite_count).dedup.length = 3
            ∧ s1.score = 6 := by
  constructor
  · intro s ticks current_ticks r1 r2 hg
    rcases tick_cases ops ticks current_ticks r1 r2 s with ⟨s1, h1⟩ | ⟨-, h1⟩
    · obtain ⟨⟨sa, hsa, hscore, hc, hgy⟩, -⟩ := tick_score_interval ops h1
      have hcl := satellite_loop_claimed ops ticks hsa
      have hx := satellite_loop_exclusive ops ticks hsa
      have hcount : claimed_count s1 s1.satellite_count = claimed_count sa sa.satellite_count := by
        rw [hc]
        exact claimed_count_congr (fun k _ => by rw [hgy])
      have hnd : (claimed_targets s1 s1.satellite_count).Nodup := by
        apply claimed_targets_nodup
        intro a b ha hb hab heq
        rw [hgy] at heq ⊢
        rw [hc] at ha hb
        exact hx a b ha hb hab heq
      refine ⟨s1, h1, ?_, hnd, ?_⟩
      · rw [hscore, hcl, hcount, max_eq_max]
        show Max.max s.score (0 + _) = _
        rw [Int.zero_add]
      · rw [hnd.dedup, claimed_targets_length]
    · omega
  · obtain ⟨s, hrun, hc, hg, hmag, hsc, hpos⟩ := crowd_state 960 961 4 (by decide) (by decide)
      (by decide)
    refine ⟨s, ⟨_, _, hrun⟩, hsc, hc, hg, by rw [hg]; decide, hmag, hpos, ?_⟩
    intro ticks current_ticks r1 r2
    refine ⟨(near_origin_overflow ticks current_ticks r1 r2 (by omega) (by omega)
      (fun k hk => hpos k (by omega)) (by rw [hg]; decide)).2, ?_⟩
    obtain ⟨sa, ha, c1, g0, g1, g2, g3, cnt, hscore, -⟩ := crowd_four_loop ticks
      (crowd_form_begin (by decide) hc hg hmag hpos) rfl rfl
    have hb : (begin_tick exact_ops s).satellite_count = 4 := hc
    obtain ⟨sb, s1, h1, -, e2, e3, e4, -, -⟩ := tick_run_after_loop count_behind exact_ops ticks
      current_ticks r1 r2 (s := s) (by rw [hb]; exact ha)
    refine ⟨s1, h1, ?_, ?_, ?_⟩
    · rw [e2, c1]
      simp [claimed_count, List.range_succ, e3, g0, g1, g2, g3]
    · rw [e2, c1]
      simp [claimed_targets, List.range_succ, e3, g0, g1, g2, g3]
    · rw [e4, cnt, hscore]
      show max s.score 6 = 6
      rw [hsc]
      rfl

/-! ## The target spawner at the floor, without accesses beyond the claimed marker -/

end Satellites
